import Mathlib

/-!
# memoryscaner: region walker, dumper and pattern scanner

A shallow embedding of `src/scanner.cpp` (`dump_process_memory`) and
`src/tester.cpp` (`scan_memory`).  Addresses, sizes and bytes are natural
numbers; 64-bit arithmetic of the source is written with an explicit
`% 2 ^ 64`.  Loops that the source cannot be shown to leave on every input
carry a step budget and return `none` when the budget is used up.
-/

namespace MemoryScanner

/-- One byte of memory (`BYTE` / `char` in the source). -/
abbrev Byte := Nat

/-- Number of values of a 64-bit machine word. -/
def WORD64 : Nat := 2 ^ 64

/-! ## `std::search` and the per-region search loop of `scan_memory` -/

/-- Body of `std::search`: `rest` is the range `[first, last)` still to be
examined and `pos` the offset of `first`.  Returns `pos` of the first position
at which `pat` is a leading segment of `rest`; when the range is used up the
iterator `last` is returned. -/
def searchAux (pat : List Byte) : List Byte → Nat → Nat
  | [], pos => pos
  | x :: xs, pos => if pat.isPrefixOf (x :: xs) then pos else searchAux pat xs (pos + 1)

/-- The call `std::search(begin + first, end, pat.begin(), pat.end())` over the
range `buf`, as an offset from `begin`; `buf.length` stands for `end`. -/
def stdSearch (buf pat : List Byte) (first : Nat) : Nat :=
  searchAux pat (buf.drop first) first

/-- The loop `while (found != end) { push_back(found); found = search(found+1, end, ...) }`
of `scan_memory` (tester.cpp lines 25-29).  `base` is the pointer `begin`,
`found` the offset of the iterator `found` from it. -/
def searchLoop (buf pat : List Byte) (base : Nat) : Nat → Nat → List Nat → Option (List Nat)
  | 0, _, _ => none
  | fuel + 1, found, acc =>
    if found = buf.length then some acc
    else searchLoop buf pat base fuel (stdSearch buf pat (found + 1)) (acc ++ [base + found])

/-- Lines 24-29 of tester.cpp for one region whose bytes are `buf`: the first
`std::search` followed by the loop, appending to `addresses_found`. -/
def searchRegion (buf pat : List Byte) (base : Nat) (addresses_found : List Nat) :
    Option (List Nat) :=
  searchLoop buf pat base (buf.length + 1) (stdSearch buf pat 0) addresses_found

/-- The pattern `pat` occurs in `buf` at offset `i`: `i + |pat| <= |buf|` and
`buf[i .. i+|pat|) = pat`. -/
def occursAt (buf pat : List Byte) (i : Nat) : Bool :=
  decide (i + pat.length ≤ buf.length) && ((buf.drop i).take pat.length == pat)

/-- All offsets at which `pat` occurs in `buf`, in ascending order. -/
def occurrences (buf pat : List Byte) : List Nat :=
  (List.range (buf.length + 1)).filter (occursAt buf pat)

/-! ## Region descriptors and the operating-system collaborators -/

/-- Modelled from the spec: the type `MEMORY_BASIC_INFORMATION` is declared in
Windows.h, which is not in the repository.  These are the fields the source
reads, the MemoryRegion descriptor `{ startAddress, size, state, protection }`
of the specification. -/
structure MEMORY_BASIC_INFORMATION where
  BaseAddress : Nat
  RegionSize : Nat
  State : Nat
  Protect : Nat
deriving DecidableEq

/-- The struct `memory_region` of scanner.cpp. -/
structure memory_region where
  start : Nat
  size : Nat
  info : MEMORY_BASIC_INFORMATION
deriving DecidableEq

/-- Modelled from the spec: the state Committed.  `MEM_COMMIT` comes from
Windows.h, which is not in the repository; the value is the one of the Windows
SDK.  No theorem below depends on the value. -/
def MEM_COMMIT : Nat := 0x1000

/-- Modelled from the spec: the Guard bit (0x100), `PAGE_GUARD` of Windows.h. -/
def PAGE_GUARD : Nat := 0x100

/-- Modelled from the spec: the error code of the partial-copy condition,
`ERROR_PARTIAL_COPY` of Windows.h, with its Windows SDK value. -/
def ERROR_PARTIAL_COPY : Nat := 299

/-- Modelled from the spec: protection NoAccess (0x01), `PAGE_NOACCESS` of Windows.h. -/
def PAGE_NOACCESS : Nat := 0x01

/-- Modelled from the spec: protection Read (0x02), `PAGE_READONLY` of Windows.h. -/
def PAGE_READONLY : Nat := 0x02

/-- Modelled from the spec: protection ReadWrite (0x04), `PAGE_READWRITE` of Windows.h. -/
def PAGE_READWRITE : Nat := 0x04

/-- Modelled from the spec: protection CopyOnWrite (0x08), `PAGE_WRITECOPY` of Windows.h. -/
def PAGE_WRITECOPY : Nat := 0x08

/-- Modelled from the spec: protection Execute (0x10), `PAGE_EXECUTE` of Windows.h. -/
def PAGE_EXECUTE : Nat := 0x10

/-- Modelled from the spec: protection ExecuteRead (0x20), `PAGE_EXECUTE_READ` of Windows.h. -/
def PAGE_EXECUTE_READ : Nat := 0x20

/-- Modelled from the spec: protection ExecuteReadWrite (0x40), `PAGE_EXECUTE_READWRITE`
of Windows.h. -/
def PAGE_EXECUTE_READWRITE : Nat := 0x40

/-- Modelled from the spec: protection ExecuteCopyOnWrite (0x80), `PAGE_EXECUTE_WRITECOPY`
of Windows.h. -/
def PAGE_EXECUTE_WRITECOPY : Nat := 0x80

/-- A memory query (`VirtualQueryEx` / `VirtualQuery`): `none` is the return
value 0, `some mbi` a successful call that filled in `mbi`. -/
abbrev QueryOracle := Nat → Option MEMORY_BASIC_INFORMATION

/-- Upper bound of the walk of `dump_process_memory` (scanner.cpp line 88). -/
def DUMP_CEILING : Nat := 0x10000000

/-- The filter of scanner.cpp line 96:
`mbi.State == MEM_COMMIT && (mbi.Protect & PAGE_GUARD) != PAGE_GUARD`. -/
def DumpPolicy (mbi : MEMORY_BASIC_INFORMATION) : Bool :=
  mbi.State == MEM_COMMIT && (mbi.Protect &&& PAGE_GUARD) != PAGE_GUARD

/-! ## The enumeration loop of `dump_process_memory` -/

/-- One pass through the body of the loop at scanner.cpp lines 88-100, for a
cursor `address` that passed the test `address < 0x10000000`: the new cursor and
the new vector `regions`. -/
def enumerateStep (query : QueryOracle) (address : Nat) (regions : List memory_region) :
    Nat × List memory_region :=
  match query address with
  | none => ((address + 4096) % WORD64, regions)
  | some mbi =>
    ((address + mbi.RegionSize) % WORD64,
      if DumpPolicy mbi then regions ++ [⟨mbi.BaseAddress, mbi.RegionSize, mbi⟩] else regions)

/-- The loop `for (address = ...; address < 0x10000000;)` of scanner.cpp lines
88-100 run for at most `fuel` tests of the loop condition; `none` when the loop
is still running after that. -/
def enumerateLoop (query : QueryOracle) : Nat → Nat → List memory_region →
    Option (List memory_region)
  | 0, _, _ => none
  | fuel + 1, address, regions =>
    if address < DUMP_CEILING then
      enumerateLoop query fuel (enumerateStep query address regions).1
        (enumerateStep query address regions).2
    else some regions

/-- Lines 87-100 of scanner.cpp: the vector `regions` starts empty and the
cursor at 0. -/
def enumerate (query : QueryOracle) (fuel : Nat) : Option (List memory_region) :=
  enumerateLoop query fuel 0 []

/-- The MemorySnapshot invariant of the specification:
`region[i].start + region[i].size <= region[i+1].start` for consecutive regions. -/
def SnapshotInvariant : List memory_region → Prop
  | [] => True
  | [_] => True
  | a :: b :: rest => a.start + a.size ≤ b.start ∧ SnapshotInvariant (b :: rest)

/-- Every region ends at or before the start of every later region. -/
def NonOverlapping (regions : List memory_region) : Prop :=
  regions.Pairwise (fun a b => a.start + a.size ≤ b.start)

/-- Start addresses are strictly ascending. -/
def StartsAscending (regions : List memory_region) : Prop :=
  regions.Pairwise (fun a b => a.start < b.start)

instance decidableSnapshotInvariant :
    (regions : List memory_region) → Decidable (SnapshotInvariant regions)
  | [] => isTrue trivial
  | [_] => isTrue trivial
  | a :: b :: rest =>
    match Nat.decLe (a.start + a.size) b.start, decidableSnapshotInvariant (b :: rest) with
    | isTrue h1, isTrue h2 => isTrue ⟨h1, h2⟩
    | isFalse h1, _ => isFalse (fun h => h1 h.1)
    | _, isFalse h2 => isFalse (fun h => h2 h.2)

instance (regions : List memory_region) : Decidable (NonOverlapping regions) := by
  unfold NonOverlapping; infer_instance

instance (regions : List memory_region) : Decidable (StartsAscending regions) := by
  unfold StartsAscending; infer_instance

/-- A synthetic address space seen through its query function: every
successful reply is a region of positive size that contains the queried
address, and two replies are either the same region or disjoint regions. -/
def PartitionOracle (query : QueryOracle) : Prop :=
  (∀ a mbi, query a = some mbi →
    0 < mbi.RegionSize ∧ mbi.BaseAddress ≤ a ∧ a < mbi.BaseAddress + mbi.RegionSize) ∧
  (∀ a b m1 m2, query a = some m1 → query b = some m2 →
    (m1.BaseAddress = m2.BaseAddress ∧ m1.RegionSize = m2.RegionSize) ∨
    m1.BaseAddress + m1.RegionSize ≤ m2.BaseAddress ∨
    m2.BaseAddress + m2.RegionSize ≤ m1.BaseAddress)

/-- No reply at a cursor below the dump ceiling makes `address += RegionSize`
wrap around in 64 bits. -/
def NoWrapBelowCeiling (query : QueryOracle) : Prop :=
  ∀ a mbi, a < DUMP_CEILING → query a = some mbi → a + mbi.RegionSize < WORD64

/-- Every successful reply reports a positive region size. -/
def PositiveSizes (query : QueryOracle) : Prop :=
  ∀ a mbi, query a = some mbi → 0 < mbi.RegionSize

/-- The `memory_region` that scanner.cpp line 97 builds from a reply. -/
def toRegion (mbi : MEMORY_BASIC_INFORMATION) : memory_region :=
  ⟨mbi.BaseAddress, mbi.RegionSize, mbi⟩

/-- An address space given as an ascending list of non-overlapping regions of
positive size whose start and size are multiples of 4096. -/
def AlignedAddressSpace (rs : List MEMORY_BASIC_INFORMATION) : Prop :=
  rs.Pairwise (fun a b => a.BaseAddress + a.RegionSize ≤ b.BaseAddress) ∧
  ∀ r ∈ rs, r.BaseAddress % 4096 = 0 ∧ r.RegionSize % 4096 = 0 ∧ 0 < r.RegionSize

/-- The query function answers for the address space `rs`: a query at the
start of a region returns that region, a query at an address that lies in no
region fails. -/
def Describes (query : QueryOracle) (rs : List MEMORY_BASIC_INFORMATION) : Prop :=
  (∀ r ∈ rs, query r.BaseAddress = some r) ∧
  (∀ a, (∀ r ∈ rs, ¬ (r.BaseAddress ≤ a ∧ a < r.BaseAddress + r.RegionSize)) → query a = none)

/-- The regions of `rs` that start below the ceiling and pass `DumpPolicy`, in
order, as `memory_region` values. -/
def expectedSnapshot (rs : List MEMORY_BASIC_INFORMATION) : List memory_region :=
  (rs.filter (fun r => decide (r.BaseAddress < DUMP_CEILING) && DumpPolicy r)).map toRegion

/-- A sample address space description: `[0, 0x1000)` committed read-write, a gap
`[0x1000, 0x3000)` where queries fail, and `[0x3000, 0x10000000)` committed
read-only. -/
def sampleSpace : List MEMORY_BASIC_INFORMATION :=
  [⟨0, 0x1000, MEM_COMMIT, PAGE_READWRITE⟩, ⟨0x3000, 0x10000000 - 0x3000, MEM_COMMIT, PAGE_READONLY⟩]

/-- The query function of `sampleSpace`. -/
def sampleOracle : QueryOracle := fun a =>
  if a < 0x1000 then some ⟨0, 0x1000, MEM_COMMIT, PAGE_READWRITE⟩
  else if a < 0x3000 then none
  else if a < 0x10000000 then some ⟨0x3000, 0x10000000 - 0x3000, MEM_COMMIT, PAGE_READONLY⟩
  else none

/-- An address space of two adjacent regions that reaches the top of the
64-bit address range: `[0, 4096)` and `[4096, 2^64)`. -/
def topSpace : List MEMORY_BASIC_INFORMATION :=
  [⟨0, 4096, MEM_COMMIT, PAGE_READWRITE⟩, ⟨4096, 2 ^ 64 - 4096, MEM_COMMIT, PAGE_READWRITE⟩]

/-- The query function of `topSpace`. -/
def topOracle : QueryOracle := fun a =>
  if a < 4096 then some ⟨0, 4096, MEM_COMMIT, PAGE_READWRITE⟩
  else if a < 2 ^ 64 then some ⟨4096, 2 ^ 64 - 4096, MEM_COMMIT, PAGE_READWRITE⟩
  else none

/-! ## Statistics, content reader and image writer of `dump_process_memory` -/

/-- The value printed after "Flat size:" (scanner.cpp line 103), a 64-bit sum. -/
def flatSize (regions : List memory_region) : Option Nat :=
  match regions.getLast? with
  | none => none
  | some back => some ((back.start + back.size) % WORD64)

/-- The accumulation `sum += region.size` of scanner.cpp lines 104-106. -/
def packedSize (regions : List memory_region) : Nat :=
  regions.foldl (fun sum region => (sum + region.size) % WORD64) 0

/-- Outcome of one `ReadProcessMemory` call: its boolean return value, the
value of `GetLastError()` after it, and the bytes it transferred into the
buffer (their number is what the call stores in `read`). -/
structure ReadResult where
  success : Bool
  lastError : Nat
  transferred : List Byte
deriving DecidableEq

/-- The cross-process read primitive, keyed by the number of the call, the
address and the length requested. -/
abbrev ReadOracle := Nat → Nat → Nat → ReadResult

/-- The test of scanner.cpp lines 115-117 that makes the dump return early:
the call failed and the error is not `ERROR_PARTIAL_COPY`. -/
def isFatal (res : ReadResult) : Bool :=
  !res.success && res.lastError != ERROR_PARTIAL_COPY

/-- The buffer after `ReadProcessMemory(proc, start, &buffer[0], buffer.size(), &read)`:
the transferred bytes overwrite the front of the buffer, its size is unchanged. -/
def bufferAfterRead (buffer : List Byte) (res : ReadResult) : List Byte :=
  (res.transferred ++ buffer.drop res.transferred.length).take buffer.length

/-- Lines 113-133 of scanner.cpp for a region of `size` bytes whose read was
not fatal: `std::vector<char> buffer(size)` is zero-initialised, the read
fills its front, and `memset(&buffer[read], 0, buffer.size() - read)` runs when
`read < region.size`.  The result is what line 137 writes. -/
def regionBuffer (size : Nat) (res : ReadResult) : List Byte :=
  if res.transferred.length < size then
    (bufferAfterRead (List.replicate size 0) res).take res.transferred.length
      ++ List.replicate ((bufferAfterRead (List.replicate size 0) res).length
          - res.transferred.length) 0
  else bufferAfterRead (List.replicate size 0) res

/-- Largest value of the signed 64-bit stream offset (`std::streamoff`). -/
def STREAM_MAX_OFFSET : Nat := 2 ^ 63 - 1

/-- The output stream on `dump.bin`: the logical content of the file (a byte
never written reads as zero), the put position, and the failure state of the
stream; once the stream has failed, `seekp` and `write` do nothing.  The file
is taken to be opened by the constructor of the stream. -/
structure OutFile where
  content : List Byte
  pos : Nat
  failed : Bool
deriving DecidableEq

/-- The stream right after `std::ofstream file("dump.bin", std::ios::binary)`:
an empty file, the put position at its start. -/
def OutFile.empty : OutFile := ⟨[], 0, false⟩

/-- The call `file.seekp(region.start)` (scanner.cpp line 135): the 64-bit
unsigned start is converted to the signed stream offset, so a value above
`STREAM_MAX_OFFSET` is a negative position, the seek fails and the stream
enters the failure state. -/
def OutFile.seekp (f : OutFile) (p : Nat) : OutFile :=
  if f.failed then f
  else if p ≤ STREAM_MAX_OFFSET then { f with pos := p }
  else { f with failed := true }

/-- The call `file.write(&buffer[0], buffer.size())`: on a stream that has not
failed the bytes land at the put position; a write that starts past the end
extends the logical length, the skipped range being a hole; nothing changes
when there is nothing to write.  A write that would end beyond the largest
stream offset cannot complete: the stream enters the failure state (the model
leaves the content as it was). -/
def OutFile.write (f : OutFile) (buffer : List Byte) : OutFile :=
  if f.failed then f
  else if buffer.isEmpty then f
  else if STREAM_MAX_OFFSET < f.pos + buffer.length then { f with failed := true }
  else
    { content := f.content.take f.pos ++ List.replicate (f.pos - f.content.length) 0
        ++ buffer ++ f.content.drop (f.pos + buffer.length)
      pos := f.pos + buffer.length
      failed := false }

/-- Largest size of a `std::vector<char>` (`max_size()`) on a 64-bit target:
the constructor throws `std::length_error` for a larger size. -/
def VECTOR_MAX_SIZE : Nat := 2 ^ 63 - 1

/-- The free store: `alloc index size` tells whether the allocation of `size`
bytes for the buffer of the region number `index` succeeds; otherwise the
constructor throws `std::bad_alloc`. -/
abbrev AllocOracle := Nat → Nat → Bool

/-- The statement `std::vector<char> buffer(region.size)` (scanner.cpp line 113)
completes without throwing. -/
def bufferConstructs (alloc : AllocOracle) (index size : Nat) : Bool :=
  decide (size ≤ VECTOR_MAX_SIZE) && alloc index size

/-- A free store on which every allocation succeeds. -/
def amplePool : AllocOracle := fun _ _ => true

/-- Observable actions of `dump_process_memory`. -/
inductive DumpEvent where
  | attach (pid : Nat)
  | attachError (error : Nat)
  | detach (pid : Nat)
  | detachError (error : Nat)
  | openProcess (pid : Nat)
  | openError (error : Nat)
  | closeHandle
  | flatSizeLine (value : Nat)
  | packedSizeLine (value : Nat)
  | openFile
  | read (index address length : Nat)
  | readError (error : Nat)
  | warning (address size read : Nat)
  | seekp (pos : Nat)
  | write (index : Nat) (buffer : List Byte)
deriving DecidableEq

/-- State threaded through the read-and-write loop. -/
structure DumpState where
  file : OutFile
  trace : List DumpEvent
deriving DecidableEq

/-- How the read-and-write loop is left: at its end, by the `return` of line
121, or by the exception of the buffer constructor of line 113. -/
inductive LoopExit where
  | finished
  | returned
  | threw
deriving DecidableEq

/-- The loop `for (auto &region : regions)` of scanner.cpp lines 112-138.
`index` is the position of the first region of the list in the snapshot.  For
each region the buffer is constructed (the loop is left by an exception when
that fails), the region is read (the function returns when the read is fatal),
a short read is reported and zero-filled, and the buffer is written at the
offset `region.start`. -/
def dumpLoop (alloc : AllocOracle) (rd : ReadOracle) :
    List memory_region → Nat → DumpState → DumpState × LoopExit
  | [], _, st => (st, LoopExit.finished)
  | region :: rest, index, st =>
    if bufferConstructs alloc index region.size then
      if isFatal (rd index region.start region.size) then
        ({ st with trace := st.trace ++
            [DumpEvent.read index region.start region.size,
             DumpEvent.readError (rd index region.start region.size).lastError] },
          LoopExit.returned)
      else
        dumpLoop alloc rd rest (index + 1)
          { file := (st.file.seekp region.start).write
              (regionBuffer region.size (rd index region.start region.size))
            trace := st.trace ++
              ([DumpEvent.read index region.start region.size] ++
               (if (rd index region.start region.size).transferred.length < region.size then
                  [DumpEvent.warning region.start region.size
                    (rd index region.start region.size).transferred.length]
                else []) ++
               [DumpEvent.seekp region.start,
                DumpEvent.write index
                  (regionBuffer region.size (rd index region.start region.size))]) }
    else (st, LoopExit.threw)

/-- What the collaborators do in one run of `dump_process_memory`: the error
of `DebugActiveProcess`, of `DebugActiveProcessStop` and of `OpenProcess` (`none`
when the call succeeds), the memory query, the read primitive and the free
store. -/
structure DumpEnvironment where
  attachError : Option Nat
  detachError : Option Nat
  openError : Option Nat
  query : QueryOracle
  read : ReadOracle
  alloc : AllocOracle

/-- How a run of `dump_process_memory` ends: the constructor of `DebugProcess`
threw, the function returned at line 83, at line 121, at its end, or the
constructor of a buffer threw at line 113. -/
inductive DumpResult where
  | exception
  | openFailed
  | readFailed
  | finished
  | bufferException
deriving DecidableEq

/-- The result of the run for each way of leaving the read-and-write loop. -/
def DumpResult.ofLoopExit : LoopExit → DumpResult
  | LoopExit.finished => DumpResult.finished
  | LoopExit.returned => DumpResult.readFailed
  | LoopExit.threw => DumpResult.bufferException

/-- The destructor of `DebugProcess` (scanner.cpp lines 39-46). -/
def detachEvents (env : DumpEnvironment) (pid : Nat) : List DumpEvent :=
  DumpEvent.detach pid ::
    (match env.detachError with
     | none => []
     | some error => [DumpEvent.detachError error])

/-- The lines printed by scanner.cpp lines 102-108. -/
def statisticsEvents (regions : List memory_region) : List DumpEvent :=
  match flatSize regions with
  | none => []
  | some flat => [DumpEvent.flatSizeLine flat, DumpEvent.packedSizeLine (packedSize regions)]

/-- The function `dump_process_memory(pid)` of scanner.cpp lines 74-139: its
result, the stream on `dump.bin` if the run got as far as line 110, and the
trace of its actions.  However the read-and-write loop is left (end, `return`
or exception), the destructors of `autoproc` and `dp` run: `CloseHandle`, then
the detach.  `fuel` bounds the enumeration loop; `none` when that loop does
not end within it. -/
def dump_process_memory (env : DumpEnvironment) (pid fuel : Nat) :
    Option (DumpResult × Option OutFile × List DumpEvent) :=
  match env.attachError with
  | some error =>
    some (DumpResult.exception, none, [DumpEvent.attach pid, DumpEvent.attachError error])
  | none =>
    match env.openError with
    | some error =>
      some (DumpResult.openFailed, none,
        [DumpEvent.attach pid, DumpEvent.openProcess pid, DumpEvent.openError error]
          ++ detachEvents env pid)
    | none =>
      match enumerate env.query fuel with
      | none => none
      | some regions =>
        some
          (DumpResult.ofLoopExit (dumpLoop env.alloc env.read regions 0
                ⟨OutFile.empty, [DumpEvent.attach pid, DumpEvent.openProcess pid]
                  ++ statisticsEvents regions ++ [DumpEvent.openFile]⟩).2,
           some (dumpLoop env.alloc env.read regions 0
                ⟨OutFile.empty, [DumpEvent.attach pid, DumpEvent.openProcess pid]
                  ++ statisticsEvents regions ++ [DumpEvent.openFile]⟩).1.file,
           (dumpLoop env.alloc env.read regions 0
                ⟨OutFile.empty, [DumpEvent.attach pid, DumpEvent.openProcess pid]
                  ++ statisticsEvents regions ++ [DumpEvent.openFile]⟩).1.trace
             ++ [DumpEvent.closeHandle] ++ detachEvents env pid)

/-- Snapshot indices of the regions for which a `ReadProcessMemory` call was
issued, in order of the calls. -/
def readIndices (trace : List DumpEvent) : List Nat :=
  trace.filterMap (fun e => match e with
    | DumpEvent.read index _ _ => some index
    | _ => none)

/-- Snapshot indices of the regions for which `file.write` was called, in order. -/
def writeIndices (trace : List DumpEvent) : List Nat :=
  trace.filterMap (fun e => match e with
    | DumpEvent.write index _ => some index
    | _ => none)

/-- Number of leading regions of `rs` (numbered from `index`) whose buffer is
constructed and whose read is not fatal: the regions that get written. -/
def writtenCount (alloc : AllocOracle) (rd : ReadOracle) : List memory_region → Nat → Nat
  | [], _ => 0
  | region :: rest, index =>
    if bufferConstructs alloc index region.size then
      if isFatal (rd index region.start region.size) then 0
      else 1 + writtenCount alloc rd rest (index + 1)
    else 0

/-- Number of regions of `rs` for which the read is issued: the regions that
get written and, when the loop stops at a fatal read, the region of that read. -/
def readCount (alloc : AllocOracle) (rd : ReadOracle) : List memory_region → Nat → Nat
  | [], _ => 0
  | region :: rest, index =>
    if bufferConstructs alloc index region.size then
      if isFatal (rd index region.start region.size) then 1
      else 1 + readCount alloc rd rest (index + 1)
    else 0

/-- The buffer of every region of `rs`, numbered from `index`, is constructed
without an exception. -/
def BuffersConstruct (alloc : AllocOracle) : List memory_region → Nat → Prop
  | [], _ => True
  | region :: rest, index =>
    bufferConstructs alloc index region.size = true ∧ BuffersConstruct alloc rest (index + 1)

instance decidableBuffersConstruct (alloc : AllocOracle) :
    (rs : List memory_region) → (index : Nat) → Decidable (BuffersConstruct alloc rs index)
  | [], _ => isTrue trivial
  | region :: rest, index =>
    match decEq (bufferConstructs alloc index region.size) true,
        decidableBuffersConstruct alloc rest (index + 1) with
    | isTrue h1, isTrue h2 => isTrue ⟨h1, h2⟩
    | isFalse h1, _ => isFalse (fun h => h1 h.1)
    | _, isFalse h2 => isFalse (fun h => h2 h.2)

/-- Every region ends exactly where the next one starts. -/
def Contiguous : List memory_region → Prop
  | [] => True
  | [_] => True
  | a :: b :: rest => a.start + a.size = b.start ∧ Contiguous (b :: rest)

instance decidableContiguous : (regions : List memory_region) → Decidable (Contiguous regions)
  | [] => isTrue trivial
  | [_] => isTrue trivial
  | a :: b :: rest =>
    match Nat.decEq (a.start + a.size) b.start, decidableContiguous (b :: rest) with
    | isTrue h1, isTrue h2 => isTrue ⟨h1, h2⟩
    | isFalse h1, _ => isFalse (fun h => h1 h.1)
    | _, isFalse h2 => isFalse (fun h => h2 h.2)

/-- Sum of the region sizes as a natural number, without wrap-around. -/
def sumSizes (regions : List memory_region) : Nat :=
  (regions.map (fun r => r.size)).sum

/-- A read primitive whose call 0 reports a partial copy of one byte, whose
call 1 fails with error 5 (access denied), and whose later calls succeed. -/
def faultyReader : ReadOracle := fun index _ length =>
  if index = 0 then ⟨false, ERROR_PARTIAL_COPY, [1]⟩
  else if index = 1 then ⟨false, 5, []⟩
  else ⟨true, 0, List.replicate length 9⟩

/-- A snapshot of three adjacent regions of four bytes each. -/
def threeRegions : List memory_region :=
  [⟨0, 4, ⟨0, 4, MEM_COMMIT, PAGE_READWRITE⟩⟩, ⟨4, 4, ⟨4, 4, MEM_COMMIT, PAGE_READWRITE⟩⟩,
   ⟨8, 4, ⟨8, 4, MEM_COMMIT, PAGE_READWRITE⟩⟩]

/-- A snapshot whose only region is `[4096, 2^64)`. -/
def topSnapshot : List memory_region :=
  [⟨4096, 2 ^ 64 - 4096, ⟨4096, 2 ^ 64 - 4096, MEM_COMMIT, PAGE_READWRITE⟩⟩]

/-! ## `scan_memory` -/

/-- The constant `pmask` of tester.cpp lines 7-8. -/
def pmask : Nat :=
  PAGE_READONLY ||| PAGE_READWRITE ||| PAGE_WRITECOPY ||| PAGE_EXECUTE |||
    PAGE_EXECUTE_READ ||| PAGE_EXECUTE_READWRITE ||| PAGE_EXECUTE_WRITECOPY

/-- The filter of tester.cpp line 19:
`(mbi.State==MEM_COMMIT) && (mbi.Protect&pmask) && !(mbi.Protect&PAGE_GUARD)`. -/
def ScanPolicy (mbi : MEMORY_BASIC_INFORMATION) : Bool :=
  mbi.State == MEM_COMMIT && (mbi.Protect &&& pmask) != 0 && (mbi.Protect &&& PAGE_GUARD) == 0

/-- The memory of the current process, read in place by `scan_memory`. -/
abbrev Memory := Nat → Byte

/-- The bytes of the range `[base, base + size)`, i.e. `[begin, end)` of
tester.cpp lines 21-22. -/
def regionBytes (mem : Memory) (base size : Nat) : List Byte :=
  (List.range size).map (fun i => mem (base + i))

/-- Lines 19-30 of tester.cpp for one reply: a region that passes the filter is
searched and its matches are appended to `addresses_found`. -/
def scanRegion (mem : Memory) (pat : List Byte) (mbi : MEMORY_BASIC_INFORMATION)
    (addresses_found : List Nat) : Option (List Nat) :=
  if ScanPolicy mbi then
    searchRegion (regionBytes mem mbi.BaseAddress mbi.RegionSize) pat mbi.BaseAddress
      addresses_found
  else some addresses_found

/-- The loop `while (address < address_high && VirtualQuery(address, ...))` of
tester.cpp lines 15-34, run for at most `fuel` tests of its condition. -/
def scanLoop (query : QueryOracle) (mem : Memory) (pat : List Byte) (address_high : Nat) :
    Nat → Nat → List Nat → Option (List Nat)
  | 0, _, _ => none
  | fuel + 1, address, addresses_found =>
    if address < address_high then
      match query address with
      | none => some addresses_found
      | some mbi =>
        match scanRegion mem pat mbi addresses_found with
        | none => none
        | some found => scanLoop query mem pat address_high fuel
            ((address + mbi.RegionSize) % WORD64) found
    else some addresses_found

/-- The function `scan_memory(address_low, nbytes, bytes_to_find)` of tester.cpp
lines 1-37. -/
def scan_memory (query : QueryOracle) (mem : Memory) (address_low nbytes : Nat)
    (bytes_to_find : List Byte) (fuel : Nat) : Option (List Nat) :=
  scanLoop query mem bytes_to_find ((address_low + nbytes) % WORD64) fuel address_low []

/-- Two adjacent four-byte regions `[0x1000, 0x1004)` and `[0x1004, 0x1008)`,
both committed and readable. -/
def adjacentOracle : QueryOracle := fun a =>
  if 0x1000 ≤ a ∧ a < 0x1004 then some ⟨0x1000, 4, MEM_COMMIT, PAGE_READWRITE⟩
  else if 0x1004 ≤ a ∧ a < 0x1008 then some ⟨0x1004, 4, MEM_COMMIT, PAGE_READONLY⟩
  else none

/-- A memory holding the bytes 0x41 0x42 at 0x1003 and 0x1004, astride the
boundary of the two regions of `adjacentOracle`, and zero elsewhere. -/
def straddleMemory : Memory := fun a =>
  if a = 0x1003 then 0x41 else if a = 0x1004 then 0x42 else 0

/-- A query function that answers the query at address 0 successfully with a
region size of 0, and fails elsewhere. -/
def zeroOracle : QueryOracle := fun a =>
  if a = 0 then some ⟨0, 0, MEM_COMMIT, PAGE_READWRITE⟩ else none

/-- A query function that fails below 4096 and describes the committed
readable region `[4096, 4112)`. -/
def gapOracle : QueryOracle := fun a =>
  if 4096 ≤ a ∧ a < 4112 then some ⟨4096, 16, MEM_COMMIT, PAGE_READWRITE⟩ else none

/-- A memory holding the byte 0xAB at address 4100 and zero elsewhere. -/
def gapMemory : Memory := fun a => if a = 4100 then 0xAB else 0

/-! ## Auxiliary predicates and sample inputs -/

/-- An address space whose region starts are multiples of 4096 but whose sizes
are not: `[0, 100)`, `[4096, 4146)` and `[8192, 0x10000000)`, all committed. -/
def raggedOracle : QueryOracle := fun a =>
  if a < 100 then some ⟨0, 100, MEM_COMMIT, PAGE_READWRITE⟩
  else if 4096 ≤ a ∧ a < 4146 then some ⟨4096, 50, MEM_COMMIT, PAGE_READWRITE⟩
  else if 8192 ≤ a ∧ a < 0x10000000 then
    some ⟨8192, 0x10000000 - 8192, MEM_COMMIT, PAGE_READWRITE⟩
  else none

/-- Loop invariant used for the ordering of the snapshot: the regions collected
so far are pairwise non-overlapping, end at or before the cursor, and are
replies of the query function. -/
def OrderedBelow (query : QueryOracle) (a : Nat) (rs : List memory_region) : Prop :=
  NonOverlapping rs ∧
  ∀ r ∈ rs, r.start + r.size ≤ a ∧
    ∃ c mbi, query c = some mbi ∧ mbi.BaseAddress = r.start ∧ mbi.RegionSize = r.size

/-- An oracle whose only region is `[5000, 2^64 - 2192)`; queries below 5000 fail. -/
def wrapOracle : QueryOracle := fun a =>
  if 5000 ≤ a ∧ a < 2 ^ 64 - 2192 then some ⟨5000, 2 ^ 64 - 7192, MEM_COMMIT, PAGE_READWRITE⟩
  else none

/-- A read primitive that always reports a partial copy of the two bytes 7, 8. -/
def partialReader : ReadOracle := fun _ _ _ => ⟨false, ERROR_PARTIAL_COPY, [7, 8]⟩

/-- No read of the regions `rs`, numbered from `index`, is fatal. -/
def NoFatalRead (rd : ReadOracle) : List memory_region → Nat → Prop
  | [], _ => True
  | region :: rest, index =>
    isFatal (rd index region.start region.size) = false ∧ NoFatalRead rd rest (index + 1)

instance decidableNoFatalRead (rd : ReadOracle) :
    (rs : List memory_region) → (index : Nat) → Decidable (NoFatalRead rd rs index)
  | [], _ => isTrue trivial
  | region :: rest, index =>
    match decEq (isFatal (rd index region.start region.size)) false,
        decidableNoFatalRead rd rest (index + 1) with
    | isTrue h1, isTrue h2 => isTrue ⟨h1, h2⟩
    | isFalse h1, _ => isFalse (fun h => h1 h.1)
    | _, isFalse h2 => isFalse (fun h => h2 h.2)

/-- A read primitive that always succeeds in full: call 0 delivers bytes 0xAA,
every later call bytes 0xBB. -/
def fullReader : ReadOracle := fun index _ length =>
  ⟨true, 0, List.replicate length (if index = 0 then 0xAA else 0xBB)⟩

/-- The snapshot `{start=0x1000,size=16}`, `{start=0x2000,size=16}`. -/
def twoRegions : List memory_region :=
  [⟨0x1000, 16, ⟨0x1000, 16, MEM_COMMIT, PAGE_READWRITE⟩⟩,
   ⟨0x2000, 16, ⟨0x2000, 16, MEM_COMMIT, PAGE_READWRITE⟩⟩]

/-- The one-region snapshot `{start=2^63, size=4}`. -/
def highRegions : List memory_region :=
  [⟨2 ^ 63, 4, ⟨2 ^ 63, 4, MEM_COMMIT, PAGE_READWRITE⟩⟩]

/-- The one-region snapshot `{start=2^63-2, size=4}`. -/
def brinkRegions : List memory_region :=
  [⟨2 ^ 63 - 2, 4, ⟨2 ^ 63 - 2, 4, MEM_COMMIT, PAGE_READWRITE⟩⟩]

/-- Addresses of the matches that lie wholly inside the region of `mbi`. -/
def regionMatches (mem : Memory) (pat : List Byte) (mbi : MEMORY_BASIC_INFORMATION) : List Nat :=
  (occurrences (regionBytes mem mbi.BaseAddress mbi.RegionSize) pat).map
    (fun i => mbi.BaseAddress + i)

/-! ## `scan_memory` with its observable actions, and the module-name overload -/

/-- Observable actions of `scan_memory`: a `VirtualQuery` call at a cursor, and
the search of a region that passed the filter of line 19. -/
inductive ScanEvent where
  | query (address : Nat)
  | search (mbi : MEMORY_BASIC_INFORMATION)
deriving DecidableEq

/-- The actions of lines 19-30 of tester.cpp for one reply: the region is
searched exactly when it passes the filter. -/
def searchEvents (mbi : MEMORY_BASIC_INFORMATION) : List ScanEvent :=
  if ScanPolicy mbi then [ScanEvent.search mbi] else []

/-- The loop of tester.cpp lines 15-34 as in `scanLoop`, recording in addition
every `VirtualQuery` call and every region searched. -/
def scanLoopTraced (query : QueryOracle) (mem : Memory) (pat : List Byte) (address_high : Nat) :
    Nat → Nat → List Nat → List ScanEvent → Option (List Nat × List ScanEvent)
  | 0, _, _, _ => none
  | fuel + 1, address, addresses_found, trace =>
    if address < address_high then
      match query address with
      | none => some (addresses_found, trace ++ [ScanEvent.query address])
      | some mbi =>
        match scanRegion mem pat mbi addresses_found with
        | none => none
        | some found => scanLoopTraced query mem pat address_high fuel
            ((address + mbi.RegionSize) % WORD64) found
            (trace ++ ScanEvent.query address :: searchEvents mbi)
    else some (addresses_found, trace)

/-- The function `scan_memory(address_low, nbytes, bytes_to_find)` together with
the trace of its actions. -/
def scan_memory_traced (query : QueryOracle) (mem : Memory) (address_low nbytes : Nat)
    (bytes_to_find : List Byte) (fuel : Nat) : Option (List Nat × List ScanEvent) :=
  scanLoopTraced query mem bytes_to_find ((address_low + nbytes) % WORD64) fuel address_low [] []

/-- The regions searched, in the order of the walk. -/
def searchedRegions (trace : List ScanEvent) : List MEMORY_BASIC_INFORMATION :=
  trace.filterMap (fun e => match e with
    | ScanEvent.search mbi => some mbi
    | _ => none)

/-- The cursors at which `VirtualQuery` was called, in the order of the walk. -/
def queriedAddresses (trace : List ScanEvent) : List Nat :=
  trace.filterMap (fun e => match e with
    | ScanEvent.query address => some address
    | _ => none)

/-- Module introspection of the current process: `handle name` is the value of
`GetModuleHandleA(name)` as an address, 0 standing for `nullptr`; `sizeOfImage base`
is `minfo.SizeOfImage` after the call of `GetModuleInformation` for that handle. -/
structure ModuleOracle where
  handle : String → Nat
  sizeOfImage : Nat → Nat

/-- The overload `scan_memory(module_name, bytes_to_find)` of tester.cpp lines
39-47, with the trace of the region queries and searches it performs. -/
def scan_memory_module (modules : ModuleOracle) (query : QueryOracle) (mem : Memory)
    (module_name : String) (bytes_to_find : List Byte) (fuel : Nat) :
    Option (List Nat × List ScanEvent) :=
  if modules.handle module_name = 0 then some ([], [])
  else
    scan_memory_traced query mem (modules.handle module_name)
      (modules.sizeOfImage (modules.handle module_name)) bytes_to_find fuel

/-- A module table in which only "kernel32.dll" is loaded, at 0x1000 with an
image of 8 bytes. -/
def sampleModules : ModuleOracle :=
  ⟨fun name => if name = "kernel32.dll" then 0x1000 else 0, fun _ => 8⟩

/-- The regions found by the walk end at or before the start of every region
found later. -/
def VisitedAscending (regions : List MEMORY_BASIC_INFORMATION) : Prop :=
  regions.Pairwise (fun r1 r2 => r1.BaseAddress + r1.RegionSize ≤ r2.BaseAddress)

/-- No reply at a cursor below `high` makes the cursor of the scan wrap around
in 64 bits. -/
def NoWrapBelow (query : QueryOracle) (high : Nat) : Prop :=
  ∀ c mbi, c < high → query c = some mbi → c + mbi.RegionSize < WORD64

/-- Invariant of the scan walk over a partition: the regions searched so far are
in ascending order, end at or before the cursor, and are replies of the query
function. -/
def SearchedBelow (query : QueryOracle) (address : Nat) (trace : List ScanEvent) : Prop :=
  VisitedAscending (searchedRegions trace) ∧
  ∀ r ∈ searchedRegions trace, r.BaseAddress + r.RegionSize ≤ address ∧ ∃ c, query c = some r

/-- A query function whose only region is the committed readable range
`[0x1000, 0x1010)`. -/
def narrowOracle : QueryOracle := fun a =>
  if 0x1000 ≤ a ∧ a < 0x1010 then some ⟨0x1000, 16, MEM_COMMIT, PAGE_READWRITE⟩ else none

/-- A memory holding the byte 0xAB at 0x1002 and at 0x100E, and zero elsewhere. -/
def narrowMemory : Memory := fun a => if a = 0x1002 ∨ a = 0x100E then 0xAB else 0

instance (regions : List MEMORY_BASIC_INFORMATION) : Decidable (VisitedAscending regions) := by
  unfold VisitedAscending; infer_instance

/-! ## Diagnostics: `print_hex`, `print_address` and the lines written to `std::cerr` -/

/-- The digits that `stream << std::hex << x` writes for an unsigned `x`. -/
def hexDigits (x : Nat) : List Char := Nat.toDigits 16 x

/-- The digits that `stream << x` writes in decimal. -/
def decDigits (x : Nat) : List Char := Nat.toDigits 10 x

/-- The function `print_hex(stream, x, width)` of scanner.cpp lines 10-13:
`std::setw(width)` with `std::setfill('0')` pads the hexadecimal digits on the
left with zeros up to `width` characters and never cuts digits off. -/
def print_hex (x width : Nat) : List Char :=
  List.replicate (width - (hexDigits x).length) '0' ++ hexDigits x

/-- The default value 8 of the parameter `width` of `print_hex` (line 11). -/
def PRINT_HEX_DEFAULT_WIDTH : Nat := 8

/-- The function `print_address(stream, x)` of scanner.cpp lines 15-25. -/
def print_address (x : Nat) : List Char :=
  if x < 0x100 then print_hex x 2
  else if x < 0x10000 then print_hex x 4
  else if x < 0x100000000 then print_hex x 8
  else print_hex x 16

/-- The text of an error diagnostic (lines 33-35, 42-44, 80-82, 118-120): the
text naming the failed call, the error code in decimal, and its hexadecimal
form, printed by `print_hex` with the default width, in parentheses. -/
def errorLine (lead : String) (error : Nat) : List Char :=
  lead.toList ++ decDigits error
    ++ (String.toList " (0x") ++ print_hex error PRINT_HEX_DEFAULT_WIDTH
    ++ (String.toList ")\n")

/-- The text that an event writes to `std::cerr`, if any. -/
def cerrLine : DumpEvent → Option (List Char)
  | DumpEvent.attachError error =>
    some (errorLine "DebugActiveProcess() failed with error " error)
  | DumpEvent.detachError error =>
    some (errorLine "DebugActiveProcessStop() failed with error " error)
  | DumpEvent.openError error => some (errorLine "OpenProcess() failed with error " error)
  | DumpEvent.readError error =>
    some (errorLine "ReadProcessMemory() failed with error " error)
  | DumpEvent.warning address size read =>
    some ((String.toList "Warning: region starting at 0x") ++ print_address address
      ++ (String.toList " has size ") ++ decDigits size
      ++ (String.toList ", but only ") ++ decDigits read
      ++ (String.toList " bytes could be read by ReadProcessMemory().\n"))
  | _ => none

/-- Everything that `dump_process_memory` writes to `std::cerr` in a run with
the given trace. -/
def cerrText (trace : List DumpEvent) : List Char :=
  (trace.filterMap cerrLine).flatten

/-! ## Kinds of events in the trace of `dump_process_memory` -/

/-- The event is a call of `DebugActiveProcessStop`. -/
def DumpEvent.isDetach : DumpEvent → Bool
  | DumpEvent.detach _ => true
  | _ => false

/-- The event is a call of `OpenProcess`. -/
def DumpEvent.isOpen : DumpEvent → Bool
  | DumpEvent.openProcess _ => true
  | _ => false

/-- The event is a call of `CloseHandle`. -/
def DumpEvent.isClose : DumpEvent → Bool
  | DumpEvent.closeHandle => true
  | _ => false

/-- The event is a call of `ReadProcessMemory`. -/
def DumpEvent.isRead : DumpEvent → Bool
  | DumpEvent.read _ _ _ => true
  | _ => false

/-- The event is a call of `file.write`. -/
def DumpEvent.isWrite : DumpEvent → Bool
  | DumpEvent.write _ _ => true
  | _ => false

/-- The event is one of the two lines of the DumpStatistics. -/
def DumpEvent.isStatistics : DumpEvent → Bool
  | DumpEvent.flatSizeLine _ => true
  | DumpEvent.packedSizeLine _ => true
  | _ => false

/-- The event is a line of text on `std::cout` or `std::cerr`, not a call of a
collaborator. -/
def DumpEvent.isText : DumpEvent → Bool
  | DumpEvent.attachError _ => true
  | DumpEvent.detachError _ => true
  | DumpEvent.openError _ => true
  | DumpEvent.readError _ => true
  | DumpEvent.warning _ _ _ => true
  | DumpEvent.flatSizeLine _ => true
  | DumpEvent.packedSizeLine _ => true
  | _ => false

/-- The event is one that the read-and-write loop produces. -/
def DumpEvent.isLoopEvent : DumpEvent → Bool
  | DumpEvent.read _ _ _ => true
  | DumpEvent.readError _ => true
  | DumpEvent.warning _ _ _ => true
  | DumpEvent.seekp _ => true
  | DumpEvent.write _ _ => true
  | _ => false

/-- The calls of collaborators in a trace, the lines of text left out. -/
def collaboratorEvents (trace : List DumpEvent) : List DumpEvent :=
  trace.filter (fun e => !e.isText)

/-- Modelled from the spec: the state Free.  `MEM_FREE` comes from Windows.h,
which is not in the repository; the value is the one of the Windows SDK. -/
def MEM_FREE : Nat := 0x10000

/-- A query function with the committed region `[0, 16)` followed by free
address space up to the dump ceiling. -/
def tinyOracle : QueryOracle := fun a =>
  if a < 16 then some ⟨0, 16, MEM_COMMIT, PAGE_READWRITE⟩
  else if a < 0x10000000 then some ⟨16, 0x10000000 - 16, MEM_FREE, PAGE_NOACCESS⟩
  else none

/-- A run in which every collaborator succeeds, over `tinyOracle`. -/
def tinyEnv : DumpEnvironment := ⟨none, none, none, tinyOracle, fullReader, amplePool⟩

/-- A run in which `OpenProcess` fails with error 5 and the detach fails with
error 6. -/
def openFailsEnv : DumpEnvironment :=
  ⟨none, some 6, some 5, tinyOracle, fullReader, amplePool⟩

/-- A run in which `DebugActiveProcess` fails with error 87. -/
def attachFailsEnv : DumpEnvironment :=
  ⟨some 87, none, none, tinyOracle, fullReader, amplePool⟩

/-- A query function with three adjacent committed regions of four bytes from
address 0, followed by free address space up to the dump ceiling. -/
def threeOracle : QueryOracle := fun a =>
  if a < 4 then some ⟨0, 4, MEM_COMMIT, PAGE_READWRITE⟩
  else if a < 8 then some ⟨4, 4, MEM_COMMIT, PAGE_READWRITE⟩
  else if a < 12 then some ⟨8, 4, MEM_COMMIT, PAGE_READWRITE⟩
  else if a < 0x10000000 then some ⟨12, 0x10000000 - 12, MEM_FREE, PAGE_NOACCESS⟩
  else none

/-- A run in which the read of the second region fails with error 5. -/
def readFailsEnv : DumpEnvironment :=
  ⟨none, none, none, threeOracle, faultyReader, amplePool⟩

/-- Modelled from the spec: the state Reserved.  `MEM_RESERVE` comes from
Windows.h, which is not in the repository; the value is the one of the Windows
SDK. -/
def MEM_RESERVE : Nat := 0x2000

/-- An address space with a reserved region `[0, 0x800)` that is not
page-granular, a gap where the query fails, the committed region
`[0x5000, 0x5100)`, and free space from 0x5100 to the dump ceiling. -/
def subPageOracle : QueryOracle := fun a =>
  if a < 0x800 then some ⟨0, 0x800, MEM_RESERVE, PAGE_NOACCESS⟩
  else if a < 0x5000 then none
  else if a < 0x5100 then some ⟨0x5000, 0x100, MEM_COMMIT, PAGE_READONLY⟩
  else if a < 0x10000000 then some ⟨0x5100, 0x10000000 - 0x5100, MEM_FREE, PAGE_NOACCESS⟩
  else none

/-! ## Pattern search inside one region -/

theorem occursAt_iff_isPrefixOf (buf pat : List Byte) (i : Nat) (hi : i ≤ buf.length) :
    occursAt buf pat i = true ↔ pat.isPrefixOf (buf.drop i) = true := by
  unfold occursAt
  rw [List.isPrefixOf_iff_prefix, Bool.and_eq_true, decide_eq_true_eq, beq_iff_eq]
  constructor
  · rintro ⟨_, h⟩
    rw [← h]
    exact List.take_prefix _ _
  · intro h
    have hlen := h.length_le
    rw [List.length_drop] at hlen
    exact ⟨by omega, (List.prefix_iff_eq_take.mp h).symm⟩

theorem searchAux_spec (pat : List Byte) (hp : pat ≠ []) :
    ∀ (rest : List Byte) (pos : Nat),
      pos ≤ searchAux pat rest pos ∧ searchAux pat rest pos ≤ pos + rest.length ∧
      (searchAux pat rest pos < pos + rest.length →
        pat.isPrefixOf (rest.drop (searchAux pat rest pos - pos)) = true) ∧
      (∀ j, pos ≤ j → j < searchAux pat rest pos →
        pat.isPrefixOf (rest.drop (j - pos)) = false)
  | [], pos => by
    simp only [searchAux, List.length_nil, Nat.add_zero, Nat.le_refl, Nat.lt_irrefl,
      false_implies, true_and]
    intro j h1 h2
    omega
  | x :: xs, pos => by
    unfold searchAux
    by_cases h : pat.isPrefixOf (x :: xs) = true
    · simp only [h, if_true, Nat.le_refl, Nat.sub_self, List.drop_zero, implies_true,
        Nat.le_add_right, true_and]
      intro j h1 h2
      omega
    · simp only [h, if_false, Bool.false_eq_true]
      obtain ⟨h1, h2, h3, h4⟩ := searchAux_spec pat hp xs (pos + 1)
      refine ⟨by omega, by simp only [List.length_cons]; omega, ?_, ?_⟩
      · intro hlt
        have hlt2 : searchAux pat xs (pos + 1) < pos + 1 + xs.length := by
          simp only [List.length_cons] at hlt; omega
        have := h3 hlt2
        have e : searchAux pat xs (pos + 1) - pos = (searchAux pat xs (pos + 1) - (pos + 1)) + 1 := by
          omega
        rw [e, List.drop_succ_cons]
        exact this
      · intro j hj1 hj2
        by_cases hj : j = pos
        · subst hj
          simp only [Nat.sub_self, List.drop_zero]
          exact Bool.eq_false_iff.mpr h
        · have := h4 j (by omega) hj2
          have e : j - pos = (j - (pos + 1)) + 1 := by omega
          rw [e, List.drop_succ_cons]
          exact this

theorem stdSearch_spec (buf pat : List Byte) (hp : pat ≠ []) (first : Nat)
    (hf : first ≤ buf.length) :
    first ≤ stdSearch buf pat first ∧ stdSearch buf pat first ≤ buf.length ∧
    (stdSearch buf pat first < buf.length → occursAt buf pat (stdSearch buf pat first) = true) ∧
    (∀ j, first ≤ j → j < stdSearch buf pat first → occursAt buf pat j = false) := by
  obtain ⟨h1, h2, h3, h4⟩ := searchAux_spec pat hp (buf.drop first) first
  rw [List.length_drop] at h2 h3
  unfold stdSearch
  refine ⟨h1, by omega, ?_, ?_⟩
  · intro hlt
    have := h3 (by omega)
    rw [List.drop_drop] at this
    rw [occursAt_iff_isPrefixOf _ _ _ (by omega)]
    have e : first + (searchAux pat (List.drop first buf) first - first)
        = searchAux pat (List.drop first buf) first := by omega
    rw [e] at this
    exact this
  · intro j hj1 hj2
    have := h4 j hj1 hj2
    rw [List.drop_drop] at this
    have e : first + (j - first) = j := by omega
    rw [e] at this
    cases hocc : occursAt buf pat j
    · rfl
    · rw [occursAt_iff_isPrefixOf _ _ _ (by omega)] at hocc
      rw [hocc] at this
      exact absurd this (by simp)

theorem filter_range_skip (P : Nat → Bool) :
    ∀ (k i l : Nat), (∀ j, i ≤ j → j < i + k → P j = false) →
      (List.range' i (k + l)).filter P = (List.range' (i + k) l).filter P
  | 0, i, l, _ => by simp
  | k + 1, i, l, h => by
    have e : k + 1 + l = (k + l) + 1 := by omega
    rw [e, List.range'_succ, List.filter_cons, h i (Nat.le_refl _) (by omega)]
    simp only [Bool.false_eq_true, if_false]
    rw [filter_range_skip P k (i + 1) l (fun j h1 h2 => h j (by omega) (by omega))]
    congr 2
    omega

theorem searchLoop_spec (buf pat : List Byte) (base : Nat) (hp : pat ≠ []) :
    ∀ (fuel found : Nat) (acc : List Nat), found ≤ buf.length → buf.length - found < fuel →
      (found < buf.length → occursAt buf pat found = true) →
      searchLoop buf pat base fuel found acc =
        some (acc ++ ((List.range' found (buf.length - found)).filter (occursAt buf pat)).map
          (fun i => base + i))
  | 0, _, _, _, hfuel, _ => by omega
  | fuel + 1, found, acc, hle, hfuel, hocc => by
    unfold searchLoop
    by_cases hend : found = buf.length
    · simp [hend]
    · have hlt : found < buf.length := by omega
      simp only [hend, if_false]
      obtain ⟨h1, h2, h3, h4⟩ := stdSearch_spec buf pat hp (found + 1) (by omega)
      rw [searchLoop_spec buf pat base hp fuel _ _ h2 (by omega) h3]
      have e1 : buf.length - found = (buf.length - (found + 1)) + 1 := by omega
      have e2 : buf.length - (found + 1)
          = (stdSearch buf pat (found + 1) - (found + 1))
            + (buf.length - stdSearch buf pat (found + 1)) := by omega
      have e3 : found + 1 + (stdSearch buf pat (found + 1) - (found + 1))
          = stdSearch buf pat (found + 1) := by omega
      rw [e1, List.range'_succ, List.filter_cons, hocc hlt]
      simp only [if_true, List.map_cons, List.append_assoc, List.singleton_append]
      rw [e2, filter_range_skip (occursAt buf pat) _ (found + 1) _
        (fun j hj1 hj2 => h4 j hj1 (by omega)), e3]

theorem occursAt_length_false (buf pat : List Byte) (hp : pat ≠ []) :
    occursAt buf pat buf.length = false := by
  have : 0 < pat.length := List.length_pos.mpr hp
  unfold occursAt
  simp only [Bool.and_eq_false_iff, decide_eq_false_iff_not]
  left
  omega

theorem searchRegion_spec (buf pat : List Byte) (base : Nat) (acc : List Nat) (hp : pat ≠ []) :
    searchRegion buf pat base acc = some (acc ++ (occurrences buf pat).map (fun i => base + i)) := by
  unfold searchRegion
  obtain ⟨_, h2, h3, h4⟩ := stdSearch_spec buf pat hp 0 (Nat.zero_le _)
  rw [searchLoop_spec buf pat base hp _ _ _ h2 (by omega) h3]
  have e : buf.length = (stdSearch buf pat 0 - 0) + (buf.length - stdSearch buf pat 0) := by omega
  have key := filter_range_skip (occursAt buf pat) (stdSearch buf pat 0 - 0) 0
    (buf.length - stdSearch buf pat 0) (fun j hj1 hj2 => h4 j hj1 (by omega))
  rw [← e] at key
  have e0 : 0 + (stdSearch buf pat 0 - 0) = stdSearch buf pat 0 := by omega
  rw [e0] at key
  unfold occurrences
  rw [List.range_succ, List.filter_append, List.filter_cons, occursAt_length_false buf pat hp,
    List.range_eq_range', key]
  simp

theorem mem_occurrences (buf pat : List Byte) (i : Nat) :
    i ∈ occurrences buf pat ↔
      i + pat.length ≤ buf.length ∧ (buf.drop i).take pat.length = pat := by
  unfold occurrences occursAt
  rw [List.mem_filter, List.mem_range, Bool.and_eq_true, decide_eq_true_eq, beq_iff_eq]
  constructor
  · rintro ⟨_, h⟩
    exact h
  · intro h
    exact ⟨by omega, h⟩

theorem occurrences_sorted (buf pat : List Byte) :
    (occurrences buf pat).Sorted (· < ·) := by
  unfold occurrences
  exact (List.sorted_lt_range _).filter _

/-- C1: for every region content `c` and every non-empty pattern `p`, the search
loop of `scan_memory` terminates and records exactly the strictly ascending
list of all offsets `i` with `i + |p| ≤ |c|` and `c[i..i+|p|) = p`; overlapping
occurrences are included. -/
theorem C1_region_search_exact (c p : List Byte) (hp : p ≠ []) :
    searchRegion c p 0 [] = some (occurrences c p) ∧
    (occurrences c p).Sorted (· < ·) ∧
    (∀ i, i ∈ occurrences c p ↔
      i + p.length ≤ c.length ∧ (c.drop i).take p.length = p) := by
  refine ⟨?_, occurrences_sorted c p, mem_occurrences c p⟩
  rw [searchRegion_spec c p 0 [] hp]
  simp

/-- Witness for C1: pattern "AAA" against content "AAAA" gives offsets 0 and 1,
and pattern "XX" against "...XXYYXX..." gives exactly its two occurrences, at
offsets 3 and 7. -/
theorem C1_region_search_exact_witness :
    searchRegion [65, 65, 65, 65] [65, 65, 65] 0 [] = some [0, 1] ∧
    searchRegion [46, 46, 46, 88, 88, 89, 89, 88, 88, 46, 46, 46] [88, 88] 0 [] = some [3, 7] :=
  ⟨(C1_region_search_exact [65, 65, 65, 65] [65, 65, 65] (by decide)).1.trans (by decide),
   (C1_region_search_exact [46, 46, 46, 88, 88, 89, 89, 88, 88, 46, 46, 46] [88, 88]
      (by decide)).1.trans (by decide)⟩

/-! ## The enumeration loop: invariants and termination -/

theorem enumerateLoop_invariant (query : QueryOracle) (P : Nat → List memory_region → Prop)
    (hstep : ∀ a rs, a < DUMP_CEILING → P a rs →
      P (enumerateStep query a rs).1 (enumerateStep query a rs).2) :
    ∀ (fuel a : Nat) (rs out : List memory_region), P a rs →
      enumerateLoop query fuel a rs = some out → ∃ a', DUMP_CEILING ≤ a' ∧ P a' out
  | 0, _, _, _, _, h => by simp [enumerateLoop] at h
  | fuel + 1, a, rs, out, hP, h => by
    unfold enumerateLoop at h
    by_cases ha : a < DUMP_CEILING
    · simp only [ha, if_true] at h
      exact enumerateLoop_invariant query P hstep fuel _ _ out (hstep a rs ha hP) h
    · simp only [ha, if_false, Option.some.injEq] at h
      subst h
      exact ⟨a, by omega, hP⟩

theorem enumerateLoop_terminates (query : QueryOracle)
    (hprog : ∀ a rs, a < DUMP_CEILING → a < (enumerateStep query a rs).1) :
    ∀ (fuel a : Nat) (rs : List memory_region), DUMP_CEILING - a < fuel →
      ∃ out, enumerateLoop query fuel a rs = some out
  | 0, _, _, h => by omega
  | fuel + 1, a, rs, h => by
    unfold enumerateLoop
    by_cases ha : a < DUMP_CEILING
    · simp only [ha, if_true]
      have := hprog a rs ha
      exact enumerateLoop_terminates query hprog fuel _ _ (by omega)
    · simp only [ha, if_false]
      exact ⟨rs, rfl⟩

theorem enumerateLoop_fuel_mono (query : QueryOracle) :
    ∀ (fuel extra a : Nat) (rs out : List memory_region),
      enumerateLoop query fuel a rs = some out →
      enumerateLoop query (fuel + extra) a rs = some out
  | 0, _, _, _, _, h => by simp [enumerateLoop] at h
  | fuel + 1, extra, a, rs, out, h => by
    have e : fuel + 1 + extra = (fuel + extra) + 1 := by omega
    rw [e]
    unfold enumerateLoop at h ⊢
    by_cases ha : a < DUMP_CEILING
    · simp only [ha, if_true] at h ⊢
      exact enumerateLoop_fuel_mono query fuel extra _ _ out h
    · simp only [ha, if_false] at h ⊢
      exact h

theorem enumerateStep_progress (query : QueryOracle) (hpos : PositiveSizes query)
    (hwrap : NoWrapBelowCeiling query) (a : Nat) (rs : List memory_region)
    (ha : a < DUMP_CEILING) : a < (enumerateStep query a rs).1 := by
  unfold enumerateStep
  cases hq : query a with
  | none =>
    have : a + 4096 < WORD64 := by unfold DUMP_CEILING at ha; unfold WORD64; omega
    simp only [Nat.mod_eq_of_lt this]
    omega
  | some mbi =>
    have h1 := hpos a mbi hq
    have h2 := hwrap a mbi ha hq
    simp only [Nat.mod_eq_of_lt h2]
    omega

theorem snapshotInvariant_of_nonOverlapping :
    ∀ (regions : List memory_region), NonOverlapping regions → SnapshotInvariant regions
  | [], _ => trivial
  | [_], _ => trivial
  | a :: b :: rest, h => by
    unfold NonOverlapping at h
    rw [List.pairwise_cons] at h
    exact ⟨h.1 b (List.mem_cons_self _ _), snapshotInvariant_of_nonOverlapping (b :: rest) h.2⟩

theorem orderedBelow_step (query : QueryOracle) (hpart : PartitionOracle query)
    (hwrap : NoWrapBelowCeiling query) (a : Nat) (rs : List memory_region)
    (ha : a < DUMP_CEILING) (hP : OrderedBelow query a rs) :
    OrderedBelow query (enumerateStep query a rs).1 (enumerateStep query a rs).2 := by
  obtain ⟨hno, hall⟩ := hP
  unfold enumerateStep
  cases hq : query a with
  | none =>
    have : a + 4096 < WORD64 := by unfold DUMP_CEILING at ha; unfold WORD64; omega
    simp only [Nat.mod_eq_of_lt this]
    refine ⟨hno, fun r hr => ?_⟩
    obtain ⟨h1, h2⟩ := hall r hr
    exact ⟨by omega, h2⟩
  | some mbi =>
    have h2 := hwrap a mbi ha hq
    obtain ⟨hpos, hlo, hhi⟩ := hpart.1 a mbi hq
    simp only [Nat.mod_eq_of_lt h2]
    have hold : ∀ r ∈ rs, r.start + r.size ≤ a + mbi.RegionSize ∧
        ∃ c mbi, query c = some mbi ∧ mbi.BaseAddress = r.start ∧ mbi.RegionSize = r.size := by
      intro r hr
      obtain ⟨h1, h3⟩ := hall r hr
      exact ⟨by omega, h3⟩
    by_cases hpol : DumpPolicy mbi = true
    · simp only [hpol, if_true]
      refine ⟨?_, ?_⟩
      · unfold NonOverlapping
        rw [List.pairwise_append]
        refine ⟨hno, List.pairwise_singleton _ _, ?_⟩
        intro r hr r' hr'
        rw [List.mem_singleton] at hr'
        subst hr'
        obtain ⟨h1, c, m, hc, hb, hs⟩ := hall r hr
        have hmpos := (hpart.1 c m hc).1
        show r.start + r.size ≤ mbi.BaseAddress
        rcases hpart.2 c a m mbi hc hq with ⟨e1, e2⟩ | h | h <;> omega
      · intro r hr
        rw [List.mem_append, List.mem_singleton] at hr
        rcases hr with hr | hr
        · exact hold r hr
        · subst hr
          exact ⟨by show mbi.BaseAddress + mbi.RegionSize ≤ a + mbi.RegionSize; omega,
            a, mbi, hq, rfl, rfl⟩
    · simp only [hpol, if_false, Bool.false_eq_true]
      exact ⟨hno, hold⟩

theorem wrapOracle_partition : PartitionOracle wrapOracle := by
  refine ⟨?_, ?_⟩
  · intro a mbi h
    unfold wrapOracle at h
    split at h
    · rename_i hc
      simp only [Option.some.injEq] at h
      subst h
      simp only
      omega
    · simp at h
  · intro a b m1 m2 h1 h2
    unfold wrapOracle at h1 h2
    split at h1
    · split at h2
      · simp only [Option.some.injEq] at h1 h2
        subst h1 h2
        exact Or.inl ⟨rfl, rfl⟩
      · simp at h2
    · simp at h1

/-- C2 (as stated) fails: the oracle `wrapOracle` is a partition oracle (one
region of positive size, queries outside it fail), the enumeration loop ends
after six tests of its condition, and the list it built holds the same region
twice, because `address += RegionSize` wrapped around at cursor 8192. -/
theorem C2_counterexample :
    PartitionOracle wrapOracle ∧
    ∃ regions, enumerate wrapOracle 6 = some regions ∧
      regions.map (fun r => (r.start, r.size)) =
        [(5000, 2 ^ 64 - 7192), (5000, 2 ^ 64 - 7192)] ∧
      ¬ StartsAscending regions ∧ ¬ NonOverlapping regions ∧ ¬ SnapshotInvariant regions :=
  ⟨wrapOracle_partition, _, rfl, by decide, by decide, by decide, by decide⟩

/-- C2 (amended): for every synthetic address space (a query function whose
successful replies are regions of positive size of a fixed partition, each
containing the queried address) in which no reply at a cursor below the ceiling
has cursor + size reaching 2^64, the enumeration loop of `dump_process_memory`
terminates, and the list of regions it builds is strictly ascending by start
address and pairwise non-overlapping (`start + size <= start` of every later
region, in particular of the next one). -/
theorem C2_enumeration_ordered (query : QueryOracle) (hpart : PartitionOracle query)
    (hwrap : NoWrapBelowCeiling query) :
    (∃ regions, enumerate query (DUMP_CEILING + 1) = some regions) ∧
    ∀ fuel regions, enumerate query fuel = some regions →
      StartsAscending regions ∧ NonOverlapping regions ∧ SnapshotInvariant regions := by
  have hpos : PositiveSizes query := fun a mbi h => (hpart.1 a mbi h).1
  refine ⟨?_, ?_⟩
  · exact enumerateLoop_terminates query
      (fun a rs ha => enumerateStep_progress query hpos hwrap a rs ha) _ 0 [] (by omega)
  · intro fuel regions h
    obtain ⟨a', _, hno, hall⟩ := enumerateLoop_invariant query (OrderedBelow query)
      (orderedBelow_step query hpart hwrap) fuel 0 [] regions
      ⟨List.Pairwise.nil, fun r hr => absurd hr (List.not_mem_nil r)⟩ h
    refine ⟨?_, hno, ?_⟩
    · unfold StartsAscending
      refine List.Pairwise.imp_of_mem ?_ hno
      intro r r' hr _ hle
      obtain ⟨_, c, m, hc, hb, hs⟩ := hall r hr
      have := (hpart.1 c m hc).1
      omega
    · exact snapshotInvariant_of_nonOverlapping regions hno

theorem sampleOracle_partition : PartitionOracle sampleOracle := by
  refine ⟨?_, ?_⟩
  · intro a mbi h
    unfold sampleOracle at h
    split_ifs at h <;> simp only [Option.some.injEq] at h <;> subst h <;> simp only <;> omega
  · intro a b m1 m2 h1 h2
    unfold sampleOracle at h1 h2
    split_ifs at h1 <;> split_ifs at h2 <;> simp only [Option.some.injEq] at h1 h2 <;>
      subst h1 <;> subst h2 <;> simp

theorem sampleOracle_noWrap : NoWrapBelowCeiling sampleOracle := by
  intro a mbi ha h
  unfold sampleOracle at h
  unfold DUMP_CEILING at ha
  unfold WORD64
  split_ifs at h <;> simp only [Option.some.injEq] at h <;> subst h <;> simp only <;> omega

/-- Witness for C2 (amended): `sampleOracle` meets both hypotheses, and its
snapshot consists of its two regions. -/
theorem C2_enumeration_ordered_witness :
    PartitionOracle sampleOracle ∧ NoWrapBelowCeiling sampleOracle ∧
    (∃ regions, enumerate sampleOracle (DUMP_CEILING + 1) = some regions) ∧
    (StartsAscending (expectedSnapshot sampleSpace) ∧
      NonOverlapping (expectedSnapshot sampleSpace) ∧
      SnapshotInvariant (expectedSnapshot sampleSpace)) :=
  ⟨sampleOracle_partition, sampleOracle_noWrap,
    (C2_enumeration_ordered sampleOracle sampleOracle_partition sampleOracle_noWrap).1,
    (C2_enumeration_ordered sampleOracle sampleOracle_partition sampleOracle_noWrap).2 5
      (expectedSnapshot sampleSpace) (by decide)⟩

/-! ## Completeness of the enumeration over an aligned address space -/

theorem expectedSnapshot_cons (r : MEMORY_BASIC_INFORMATION)
    (rest : List MEMORY_BASIC_INFORMATION) :
    expectedSnapshot (r :: rest) =
      (if (decide (r.BaseAddress < DUMP_CEILING) && DumpPolicy r) = true then [toRegion r] else [])
        ++ expectedSnapshot rest := by
  unfold expectedSnapshot
  rw [List.filter_cons]
  split <;> simp

theorem expectedSnapshot_above (a : Nat) (ha : DUMP_CEILING ≤ a) :
    ∀ (rest : List MEMORY_BASIC_INFORMATION), (∀ r ∈ rest, a ≤ r.BaseAddress) →
      expectedSnapshot rest = []
  | [], _ => rfl
  | r :: rest, h => by
    rw [expectedSnapshot_cons, expectedSnapshot_above a ha rest
      (fun r' hr' => h r' (List.mem_cons_of_mem _ hr'))]
    have := h r (List.mem_cons_self _ _)
    have hd : decide (r.BaseAddress < DUMP_CEILING) = false := by
      rw [decide_eq_false_iff_not]; omega
    simp [hd]

theorem enumerateLoop_aligned (query : QueryOracle) :
    ∀ (fuel a : Nat) (rest : List MEMORY_BASIC_INFORMATION) (acc : List memory_region),
      DUMP_CEILING - a < fuel → a % 4096 = 0 →
      AlignedAddressSpace rest →
      (∀ r ∈ rest, a ≤ r.BaseAddress) →
      (∀ r ∈ rest, r.BaseAddress < DUMP_CEILING → r.BaseAddress + r.RegionSize < WORD64) →
      (∀ r ∈ rest, query r.BaseAddress = some r) →
      (∀ x, a ≤ x →
        (∀ r ∈ rest, ¬ (r.BaseAddress ≤ x ∧ x < r.BaseAddress + r.RegionSize)) → query x = none) →
      enumerateLoop query fuel a acc = some (acc ++ expectedSnapshot rest)
  | 0, _, _, _, hfuel, _, _, _, _, _, _ => by omega
  | fuel + 1, a, rest, acc, hfuel, hal, hsp, hge, hwrap, hq, hnone => by
    unfold enumerateLoop
    by_cases ha : a < DUMP_CEILING
    · simp only [ha, if_true]
      have h4096 : a + 4096 < WORD64 := by unfold DUMP_CEILING at ha; unfold WORD64; omega
      have hgap : ∀ (l : List MEMORY_BASIC_INFORMATION), AlignedAddressSpace l →
          (∀ r ∈ l, a < r.BaseAddress) → ∀ r ∈ l, a + 4096 ≤ r.BaseAddress := by
        intro l hl hlt r hr
        have h1 := hlt r hr
        have h2 := (hl.2 r hr).1
        omega
      cases rest with
      | nil =>
        have hqa : query a = none := hnone a (Nat.le_refl _) (fun r hr => absurd hr (List.not_mem_nil r))
        simp only [enumerateStep, hqa, Nat.mod_eq_of_lt h4096]
        exact enumerateLoop_aligned query fuel (a + 4096) [] acc (by omega) (by omega) hsp
          (fun r hr => absurd hr (List.not_mem_nil r)) hwrap hq
          (fun x hx hx2 => hnone x (by omega) hx2)
      | cons r rest =>
        have hr_mem : r ∈ r :: rest := List.mem_cons_self _ _
        obtain ⟨hr1, hr2, hr3⟩ := hsp.2 r hr_mem
        have hpw := List.pairwise_cons.mp hsp.1
        have hsp' : AlignedAddressSpace rest :=
          ⟨hpw.2, fun r' hr' => hsp.2 r' (List.mem_cons_of_mem _ hr')⟩
        by_cases hstart : r.BaseAddress = a
        · have hqa : query a = some r := hstart ▸ hq r hr_mem
          have hw := hwrap r hr_mem (by omega)
          rw [hstart] at hw
          simp only [enumerateStep, hqa, Nat.mod_eq_of_lt hw]
          rw [enumerateLoop_aligned query fuel (a + r.RegionSize) rest _ (by omega) (by omega) hsp'
            (fun r' hr' => by have := hpw.1 r' hr'; omega)
            (fun r' hr' => hwrap r' (List.mem_cons_of_mem _ hr'))
            (fun r' hr' => hq r' (List.mem_cons_of_mem _ hr'))
            (fun x hx hx2 => hnone x (by omega) (fun r' hr' => by
              rcases List.mem_cons.mp hr' with e | hr''
              · subst e; omega
              · exact hx2 r' hr''))]
          rw [expectedSnapshot_cons]
          have hd : decide (r.BaseAddress < DUMP_CEILING) = true := by
            rw [decide_eq_true_eq]; omega
          simp only [hd, Bool.true_and]
          by_cases hpol : DumpPolicy r = true
          · simp only [hpol, if_true, List.append_assoc]
            rfl
          · simp only [hpol, if_false, Bool.false_eq_true, List.nil_append]
        · have hlt : ∀ r' ∈ r :: rest, a < r'.BaseAddress := by
            intro r' hr'
            have h0 := hge r hr_mem
            rcases List.mem_cons.mp hr' with e | hr''
            · subst e; omega
            · have := hpw.1 r' hr''; omega
          have hqa : query a = none :=
            hnone a (Nat.le_refl _) (fun r' hr' => by have := hlt r' hr'; omega)
          simp only [enumerateStep, hqa, Nat.mod_eq_of_lt h4096]
          exact enumerateLoop_aligned query fuel (a + 4096) (r :: rest) acc (by omega) (by omega)
            hsp (hgap _ hsp hlt) hwrap hq (fun x hx hx2 => hnone x (by omega) hx2)
    · simp only [ha, if_false]
      rw [expectedSnapshot_above a (by omega) rest hge]
      simp

theorem topSpace_aligned : AlignedAddressSpace topSpace := by
  unfold AlignedAddressSpace topSpace
  decide

theorem topOracle_describes : Describes topOracle topSpace := by
  refine ⟨by unfold topSpace; decide, ?_⟩
  intro a h
  unfold topOracle
  split_ifs with h1 h2
  · exact absurd ⟨Nat.zero_le a, by simpa using h1⟩
      (h ⟨0, 4096, MEM_COMMIT, PAGE_READWRITE⟩ (by unfold topSpace; simp))
  · exact absurd ⟨by show 4096 ≤ a; omega, by show a < 4096 + (2 ^ 64 - 4096); omega⟩
      (h ⟨4096, 2 ^ 64 - 4096, MEM_COMMIT, PAGE_READWRITE⟩ (by unfold topSpace; simp))
  · rfl

theorem enumerateStep_fst (query : QueryOracle) (a : Nat) (rs : List memory_region) :
    (enumerateStep query a rs).1 =
      (a + (match query a with | none => 4096 | some mbi => mbi.RegionSize)) % WORD64 := by
  unfold enumerateStep
  cases query a <;> rfl

theorem topOracle_loops :
    ∀ (fuel : Nat) (rs : List memory_region),
      enumerateLoop topOracle fuel 0 rs = none ∧ enumerateLoop topOracle fuel 4096 rs = none
  | 0, _ => ⟨rfl, rfl⟩
  | fuel + 1, rs => by
    have h0 : ∀ rs, (enumerateStep topOracle 0 rs).1 = 4096 := fun _ => by
      rw [enumerateStep_fst]; decide
    have h1 : ∀ rs, (enumerateStep topOracle 4096 rs).1 = 0 := fun _ => by
      rw [enumerateStep_fst]; decide
    constructor
    · unfold enumerateLoop
      rw [if_pos (by decide), h0]
      exact (topOracle_loops fuel _).2
    · unfold enumerateLoop
      rw [if_pos (by decide), h1]
      exact (topOracle_loops fuel _).1

/-- C3 (as stated) fails: `topSpace` is an ascending list of two non-overlapping
4096-aligned committed regions of positive size starting at address 0, and
`topOracle` answers for it, but the enumeration loop never ends on it: after
the region `[4096, 2^64)` the cursor `address += RegionSize` is 0 again, so no
snapshot is built however many steps are allowed. -/
theorem C3_counterexample :
    AlignedAddressSpace topSpace ∧ Describes topOracle topSpace ∧
    ∀ fuel, enumerate topOracle fuel = none :=
  ⟨topSpace_aligned, topOracle_describes, fun fuel => (topOracle_loops fuel []).1⟩

theorem expectedSnapshot_nodup (rs : List MEMORY_BASIC_INFORMATION)
    (hsp : AlignedAddressSpace rs) : (expectedSnapshot rs).Nodup := by
  unfold expectedSnapshot List.Nodup
  rw [List.pairwise_map]
  refine List.Pairwise.filter _ ?_
  refine List.Pairwise.imp_of_mem ?_ hsp.1
  intro a b ha _ hab heq
  have hpos := (hsp.2 a ha).2.2
  have : a.BaseAddress = b.BaseAddress := congrArg memory_region.start heq
  omega

/-- When a region size is not a multiple of 4096 the page-size steps through
the following gap miss the next region start: for `raggedOracle` the committed
region `[4096, 4146)` is not in the snapshot. -/
theorem enumerate_ragged_skips :
    raggedOracle 4096 = some ⟨4096, 50, MEM_COMMIT, PAGE_READWRITE⟩ ∧
    DumpPolicy ⟨4096, 50, MEM_COMMIT, PAGE_READWRITE⟩ = true ∧
    (enumerate raggedOracle 5).map (fun rs => rs.map (fun r => (r.start, r.size)))
      = some [(0, 100), (8192, 0x10000000 - 8192)] := by
  refine ⟨rfl, by decide, by decide⟩

theorem enumerateLoop_stuck (query : QueryOracle) (a : Nat) (mbi : MEMORY_BASIC_INFORMATION)
    (ha : a < DUMP_CEILING) (hq : query a = some mbi) (hz : mbi.RegionSize = 0) :
    ∀ (fuel : Nat) (rs : List memory_region), enumerateLoop query fuel a rs = none
  | 0, _ => rfl
  | fuel + 1, rs => by
    have hw : a % WORD64 = a :=
      Nat.mod_eq_of_lt (by unfold DUMP_CEILING at ha; unfold WORD64; omega)
    have h0 : (enumerateStep query a rs).1 = a := by
      rw [enumerateStep_fst, hq]
      simp only [hz, Nat.add_zero, hw]
    unfold enumerateLoop
    rw [if_pos ha, h0]
    exact enumerateLoop_stuck query a mbi ha hq hz fuel _

/-- A snapshot that the enumeration loop returns holds no region of size 0: a
reply of size 0 would have kept the loop from ending. -/
theorem enumerateLoop_sizes_positive (query : QueryOracle) :
    ∀ (fuel a : Nat) (rs out : List memory_region), (∀ r ∈ rs, 0 < r.size) →
      enumerateLoop query fuel a rs = some out → ∀ r ∈ out, 0 < r.size
  | 0, _, _, _, _, h => by simp [enumerateLoop] at h
  | fuel + 1, a, rs, out, hrs, h => by
    by_cases ha : a < DUMP_CEILING
    · cases hq : query a with
      | none =>
        rw [enumerateLoop, if_pos ha] at h
        have e2 : (enumerateStep query a rs).2 = rs := by simp [enumerateStep, hq]
        rw [e2] at h
        exact enumerateLoop_sizes_positive query fuel _ rs out hrs h
      | some mbi =>
        by_cases hz : mbi.RegionSize = 0
        · rw [enumerateLoop_stuck query a mbi ha hq hz (fuel + 1) rs] at h
          exact absurd h (by simp)
        · rw [enumerateLoop, if_pos ha] at h
          refine enumerateLoop_sizes_positive query fuel _ _ out ?_ h
          intro r hr
          simp only [enumerateStep, hq] at hr
          split at hr
          · rcases List.mem_append.mp hr with h1 | h1
            · exact hrs r h1
            · rw [List.mem_singleton] at h1
              subst h1
              exact Nat.pos_of_ne_zero hz
          · exact hrs r hr
    · rw [enumerateLoop, if_neg ha] at h
      simp only [Option.some.injEq] at h
      subst h
      exact hrs

/-- C3 (amended): for every address space given as an ascending list of
non-overlapping regions of positive size whose starts and sizes are multiples
of 4096, in which every region that starts below the ceiling 0x10000000 ends
below 2^64, and every query function that returns a region at its start and
fails at an address in no region, the enumeration loop of `dump_process_memory`
terminates and the snapshot equals, in order, exactly the sub-list of the
regions that start below the ceiling and satisfy DumpPolicy; each of them
appears exactly once. -/
theorem C3_enumeration_complete (query : QueryOracle) (rs : List MEMORY_BASIC_INFORMATION)
    (hsp : AlignedAddressSpace rs) (hq : Describes query rs)
    (hend : ∀ r ∈ rs, r.BaseAddress < DUMP_CEILING → r.BaseAddress + r.RegionSize < WORD64) :
    enumerate query (DUMP_CEILING + 1) = some (expectedSnapshot rs) ∧
    (∀ fuel out, enumerate query fuel = some out → out = expectedSnapshot rs) ∧
    (expectedSnapshot rs).Nodup := by
  have main : enumerate query (DUMP_CEILING + 1) = some (expectedSnapshot rs) := by
    unfold enumerate
    rw [enumerateLoop_aligned query (DUMP_CEILING + 1) 0 rs [] (by omega) (by decide) hsp
      (fun r _ => Nat.zero_le _) hend hq.1 (fun x _ hx => hq.2 x hx)]
    simp
  refine ⟨main, ?_, expectedSnapshot_nodup rs hsp⟩
  intro fuel out h
  have h1 := enumerateLoop_fuel_mono query fuel (DUMP_CEILING + 1) 0 [] out h
  have h2 := enumerateLoop_fuel_mono query (DUMP_CEILING + 1) fuel 0 [] _ main
  rw [Nat.add_comm] at h2
  rw [h1] at h2
  exact Option.some.inj h2

theorem sampleSpace_aligned : AlignedAddressSpace sampleSpace := by
  unfold AlignedAddressSpace sampleSpace
  decide

theorem sampleOracle_describes : Describes sampleOracle sampleSpace := by
  refine ⟨by unfold sampleSpace; decide, ?_⟩
  intro a h
  unfold sampleOracle
  split_ifs with h1 h2 h3
  · exact absurd ⟨Nat.zero_le a, by simpa using h1⟩
      (h ⟨0, 0x1000, MEM_COMMIT, PAGE_READWRITE⟩ (by unfold sampleSpace; simp))
  · rfl
  · exact absurd ⟨by show 0x3000 ≤ a; omega,
        by show a < 0x3000 + (0x10000000 - 0x3000); omega⟩
      (h ⟨0x3000, 0x10000000 - 0x3000, MEM_COMMIT, PAGE_READONLY⟩ (by unfold sampleSpace; simp))
  · rfl

/-- Witness for C3 (amended): `sampleSpace` with its query function meets the
hypotheses; the snapshot holds both of its regions, the gap being stepped over
page by page. -/
theorem C3_enumeration_complete_witness :
    AlignedAddressSpace sampleSpace ∧ Describes sampleOracle sampleSpace ∧
    enumerate sampleOracle (DUMP_CEILING + 1) = some (sampleSpace.map toRegion) :=
  ⟨sampleSpace_aligned, sampleOracle_describes,
    (C3_enumeration_complete sampleOracle sampleSpace sampleSpace_aligned sampleOracle_describes
      (by unfold sampleSpace; decide)).1.trans (by decide)⟩

/-! ## Content reader: zero fill of partial reads -/

theorem bufferAfterRead_length (buffer : List Byte) (res : ReadResult) :
    (bufferAfterRead buffer res).length = buffer.length := by
  unfold bufferAfterRead
  rw [List.length_take, List.length_append, List.length_drop]
  omega

theorem regionBuffer_length (size : Nat) (res : ReadResult) :
    (regionBuffer size res).length = size := by
  unfold regionBuffer
  split
  · rw [List.length_append, List.length_take, List.length_replicate, bufferAfterRead_length,
      List.length_replicate]
    omega
  · rw [bufferAfterRead_length, List.length_replicate]

theorem regionBuffer_take (size : Nat) (res : ReadResult)
    (h : res.transferred.length < size) :
    (regionBuffer size res).take res.transferred.length = res.transferred := by
  unfold regionBuffer
  rw [if_pos h]
  have hl : ((bufferAfterRead (List.replicate size 0) res).take res.transferred.length).length
      = res.transferred.length := by
    rw [List.length_take, bufferAfterRead_length, List.length_replicate]
    omega
  rw [List.take_append_of_le_length (by omega), List.take_take, Nat.min_self]
  unfold bufferAfterRead
  rw [List.take_take, List.length_replicate, Nat.min_eq_left (by omega),
    List.take_append_of_le_length (Nat.le_refl _), List.take_length]

theorem regionBuffer_drop (size : Nat) (res : ReadResult)
    (h : res.transferred.length < size) :
    (regionBuffer size res).drop res.transferred.length
      = List.replicate (size - res.transferred.length) 0 := by
  unfold regionBuffer
  rw [if_pos h]
  have hl : ((bufferAfterRead (List.replicate size 0) res).take res.transferred.length).length
      = res.transferred.length := by
    rw [List.length_take, bufferAfterRead_length, List.length_replicate]
    omega
  rw [List.drop_append_of_le_length (by omega), List.drop_of_length_le (by omega),
    bufferAfterRead_length, List.length_replicate]
  rfl

theorem regionBuffer_eq (size : Nat) (res : ReadResult)
    (h : res.transferred.length < size) :
    regionBuffer size res
      = res.transferred ++ List.replicate (size - res.transferred.length) 0 := by
  rw [← List.take_append_drop res.transferred.length (regionBuffer size res),
    regionBuffer_take size res h, regionBuffer_drop size res h]

theorem dumpLoop_trace_subset (alloc : AllocOracle) (rd : ReadOracle) :
    ∀ (rs : List memory_region) (index : Nat) (st : DumpState) (e : DumpEvent),
      e ∈ st.trace → e ∈ (dumpLoop alloc rd rs index st).1.trace
  | [], _, _, _, h => h
  | region :: rest, index, st, e, h => by
    unfold dumpLoop
    split
    · split
      · exact List.mem_append_left _ h
      · exact dumpLoop_trace_subset alloc rd rest (index + 1) _ e (List.mem_append_left _ h)
    · exact h

theorem dumpLoop_write_mem (alloc : AllocOracle) (rd : ReadOracle) (region : memory_region)
    (rest : List memory_region) (index : Nat) (st : DumpState)
    (hc : bufferConstructs alloc index region.size = true)
    (h : isFatal (rd index region.start region.size) = false) :
    DumpEvent.read index region.start region.size
        ∈ (dumpLoop alloc rd (region :: rest) index st).1.trace ∧
    DumpEvent.write index (regionBuffer region.size (rd index region.start region.size))
        ∈ (dumpLoop alloc rd (region :: rest) index st).1.trace := by
  rw [dumpLoop, if_pos hc, if_neg (by rw [h]; simp)]
  constructor <;> apply dumpLoop_trace_subset <;> simp

/-- C4: when the read of a region of size n reports a partial-copy condition
with r < n bytes transferred, the loop of `dump_process_memory` (having
constructed the buffer that the read fills) goes on to the write, and the
buffer it hands to the writer has length exactly n, starts with the r bytes
transferred, and is zero at every index in [r, n). -/
theorem C4_partial_read_zero_filled (alloc : AllocOracle) (rd : ReadOracle)
    (region : memory_region) (rest : List memory_region) (index : Nat) (st : DumpState)
    (hfail : (rd index region.start region.size).success = false)
    (herr : (rd index region.start region.size).lastError = ERROR_PARTIAL_COPY)
    (hr : (rd index region.start region.size).transferred.length < region.size) :
    (bufferConstructs alloc index region.size = true →
      DumpEvent.write index (regionBuffer region.size (rd index region.start region.size))
        ∈ (dumpLoop alloc rd (region :: rest) index st).1.trace) ∧
    (regionBuffer region.size (rd index region.start region.size)).length = region.size ∧
    (regionBuffer region.size (rd index region.start region.size)).take
        (rd index region.start region.size).transferred.length
      = (rd index region.start region.size).transferred ∧
    ∀ j, (rd index region.start region.size).transferred.length ≤ j → j < region.size →
      (regionBuffer region.size (rd index region.start region.size))[j]? = some 0 := by
  have hnf : isFatal (rd index region.start region.size) = false := by
    unfold isFatal
    rw [hfail, herr]
    simp
  refine ⟨fun hbuf => (dumpLoop_write_mem alloc rd region rest index st hbuf hnf).2,
    regionBuffer_length _ _,
    regionBuffer_take _ _ hr, ?_⟩
  intro j hj1 hj2
  rw [regionBuffer_eq _ _ hr, List.getElem?_append_right hj1, List.getElem?_replicate]
  rw [if_pos (by omega)]

/-- Witness for C4: a region of 5 bytes at 0x1000 of which 2 bytes could be
read; the buffer written is 7, 8, 0, 0, 0. -/
theorem C4_partial_read_zero_filled_witness :
    regionBuffer 5 (partialReader 0 0x1000 5) = [7, 8, 0, 0, 0] ∧
    DumpEvent.write 0 [7, 8, 0, 0, 0]
      ∈ (dumpLoop amplePool partialReader
          [⟨0x1000, 5, ⟨0x1000, 5, MEM_COMMIT, PAGE_READWRITE⟩⟩] 0
          ⟨OutFile.empty, []⟩).1.trace :=
  ⟨by decide,
   (C4_partial_read_zero_filled amplePool partialReader
      ⟨0x1000, 5, ⟨0x1000, 5, MEM_COMMIT, PAGE_READWRITE⟩⟩ [] 0 ⟨OutFile.empty, []⟩
      rfl rfl (by decide)).1 (by decide)⟩

/-! ## Sparse image writer -/

theorem write_past_end (f : OutFile) (p : Nat) (buffer : List Byte)
    (hp : f.content.length ≤ p) (hb : buffer ≠ []) (hgood : f.failed = false)
    (hoff : p + buffer.length ≤ STREAM_MAX_OFFSET) :
    (f.seekp p).write buffer
      = ⟨f.content ++ List.replicate (p - f.content.length) 0 ++ buffer,
          p + buffer.length, false⟩ := by
  unfold OutFile.write OutFile.seekp
  have hne : buffer.isEmpty = false := by
    cases buffer with
    | nil => exact absurd rfl hb
    | cons _ _ => rfl
  have hp2 : p ≤ STREAM_MAX_OFFSET := by omega
  have hp3 : ¬ STREAM_MAX_OFFSET < p + buffer.length := by omega
  simp only [hgood, hne, hp2, hp3, Bool.false_eq_true, if_false, if_true]
  rw [List.take_of_length_le hp, List.drop_of_length_le (by omega), List.append_nil]

theorem take_drop_agree {l1 l2 : List Byte} (h : l1 <+: l2) (s n : Nat)
    (hs : s + n ≤ l1.length) : (l2.drop s).take n = (l1.drop s).take n := by
  obtain ⟨t, rfl⟩ := h
  rw [List.drop_append_of_le_length (by omega),
    List.take_append_of_le_length (by rw [List.length_drop]; omega)]

theorem dumpLoop_file (alloc : AllocOracle) (rd : ReadOracle) :
    ∀ (rs : List memory_region) (index : Nat) (st : DumpState),
      NoFatalRead rd rs index → BuffersConstruct alloc rs index →
      SnapshotInvariant rs → (∀ r ∈ rs, 0 < r.size) →
      (∀ r ∈ rs, r.start + r.size ≤ STREAM_MAX_OFFSET) →
      st.file.failed = false →
      (∀ r ∈ rs.head?, st.file.content.length ≤ r.start) →
      (dumpLoop alloc rd rs index st).2 = LoopExit.finished ∧
      (dumpLoop alloc rd rs index st).1.file.failed = false ∧
      st.file.content <+: (dumpLoop alloc rd rs index st).1.file.content ∧
      (∀ back ∈ rs.getLast?,
        (dumpLoop alloc rd rs index st).1.file.content.length = back.start + back.size) ∧
      ∀ (k : Nat) (hk : k < rs.length),
        ((dumpLoop alloc rd rs index st).1.file.content.drop rs[k].start).take rs[k].size
          = regionBuffer rs[k].size (rd (index + k) rs[k].start rs[k].size)
  | [], _, st, _, _, _, _, _, hgood, _ => by
    refine ⟨rfl, hgood, List.prefix_refl _, ?_, ?_⟩
    · intro back hb
      simp at hb
    · intro k hk
      simp at hk
  | region :: rest, index, st, hnf, hbuf, hinv, hpos, hoff, hgood, hlen => by
    have hstart : st.file.content.length ≤ region.start := hlen region (by simp)
    have hsize : 0 < region.size := hpos region (List.mem_cons_self _ _)
    have hbl := regionBuffer_length region.size (rd index region.start region.size)
    have hbne : regionBuffer region.size (rd index region.start region.size) ≠ [] := by
      intro h
      rw [h] at hbl
      simp at hbl
      omega
    have hw := write_past_end st.file region.start _ hstart hbne hgood
      (by rw [hbl]; exact hoff region (List.mem_cons_self _ _))
    have hwlen : ((st.file.seekp region.start).write
        (regionBuffer region.size (rd index region.start region.size))).content.length
        = region.start + region.size := by
      rw [hw]
      simp only [List.length_append, List.length_replicate, hbl]
      omega
    have hwc : ((st.file.seekp region.start).write
        (regionBuffer region.size (rd index region.start region.size))).content
        = st.file.content ++ List.replicate (region.start - st.file.content.length) 0 ++
          regionBuffer region.size (rd index region.start region.size) := by
      rw [hw]
    have hinv' : SnapshotInvariant rest := by
      cases rest with
      | nil => trivial
      | cons b rest' => exact hinv.2
    have hnext : ∀ r ∈ rest.head?, region.start + region.size ≤ r.start := by
      intro r hr
      cases rest with
      | nil => simp at hr
      | cons b rest' =>
        simp only [List.head?_cons, Option.mem_def, Option.some.injEq] at hr
        subst hr
        exact hinv.1
    rw [dumpLoop, if_pos hbuf.1, if_neg (by rw [hnf.1]; simp)]
    obtain ⟨h1, h0, h2, h3, h4⟩ := dumpLoop_file alloc rd rest (index + 1)
      { file := (st.file.seekp region.start).write
          (regionBuffer region.size (rd index region.start region.size))
        trace := st.trace ++
          ([DumpEvent.read index region.start region.size] ++
           (if (rd index region.start region.size).transferred.length < region.size then
              [DumpEvent.warning region.start region.size
                (rd index region.start region.size).transferred.length]
            else []) ++
           [DumpEvent.seekp region.start,
            DumpEvent.write index
              (regionBuffer region.size (rd index region.start region.size))]) }
      hnf.2 hbuf.2 hinv' (fun r hr => hpos r (List.mem_cons_of_mem _ hr))
      (fun r hr => hoff r (List.mem_cons_of_mem _ hr))
      (by rw [hw])
      (fun r hr => by rw [hwlen]; exact hnext r hr)
    refine ⟨h1, h0, ?_, ?_, ?_⟩
    · refine List.IsPrefix.trans ?_ h2
      rw [hwc, List.append_assoc]
      exact List.prefix_append _ _
    · intro back hb
      cases rest with
      | nil =>
        simp only [List.getLast?_singleton, Option.mem_def, Option.some.injEq] at hb
        subst hb
        simp only [dumpLoop]
        exact hwlen
      | cons b rest' =>
        rw [List.getLast?_cons_cons] at hb
        exact h3 back hb
    · intro k hk
      cases k with
      | zero =>
        simp only [List.getElem_cons_zero, Nat.add_zero]
        rw [take_drop_agree h2 region.start region.size (by rw [hwlen]), hwc,
          List.drop_append_of_le_length (by
            rw [List.length_append, List.length_replicate]; omega)]
        have e : (st.file.content ++ List.replicate (region.start - st.file.content.length) 0).length
            = region.start := by
          rw [List.length_append, List.length_replicate]; omega
        rw [List.drop_of_length_le (by omega), List.nil_append]
        exact List.take_of_length_le (by omega)
      | succ k =>
        have := h4 k (by simpa using hk)
        simp only [List.getElem_cons_succ]
        have e : index + (k + 1) = index + 1 + k := by omega
        rw [e]
        exact this

/-- C5 (as stated) fails: the one-region sequence `{start=2^63, size=4}` is
ascending and non-overlapping, its buffer is constructed and its read succeeds
in full, and the loop issues the seek and the write for it; but the offset 2^63
does not fit the signed stream offset, so the seek fails, the write is dropped,
and the file stays empty: its bytes at [2^63, 2^63+4) are not the region's
bytes and its logical length is 0, not 2^63 + 4.  For the one-region sequence
`{start=2^63-2, size=4}` the seek succeeds, but the write would end beyond the
largest stream offset: the stream fails and the logical length of the file is
not 2^63 + 2. -/
theorem C5_counterexample :
    (SnapshotInvariant highRegions ∧ (∀ r ∈ highRegions, 0 < r.size) ∧
      NoFatalRead fullReader highRegions 0 ∧ BuffersConstruct amplePool highRegions 0 ∧
      (dumpLoop amplePool fullReader highRegions 0 ⟨OutFile.empty, []⟩).2
        = LoopExit.finished ∧
      (dumpLoop amplePool fullReader highRegions 0 ⟨OutFile.empty, []⟩).1.trace
        = [DumpEvent.read 0 (2 ^ 63) 4, DumpEvent.seekp (2 ^ 63),
           DumpEvent.write 0 [0xAA, 0xAA, 0xAA, 0xAA]] ∧
      (dumpLoop amplePool fullReader highRegions 0 ⟨OutFile.empty, []⟩).1.file.content = [] ∧
      (dumpLoop amplePool fullReader highRegions 0 ⟨OutFile.empty, []⟩).1.file.failed = true ∧
      (((dumpLoop amplePool fullReader highRegions 0 ⟨OutFile.empty, []⟩).1.file.content.drop
          (2 ^ 63)).take 4 ≠ regionBuffer 4 (fullReader 0 (2 ^ 63) 4)) ∧
      (dumpLoop amplePool fullReader highRegions 0 ⟨OutFile.empty, []⟩).1.file.content.length
        ≠ 2 ^ 63 + 4) ∧
    (SnapshotInvariant brinkRegions ∧ (∀ r ∈ brinkRegions, 0 < r.size) ∧
      NoFatalRead fullReader brinkRegions 0 ∧ BuffersConstruct amplePool brinkRegions 0 ∧
      (dumpLoop amplePool fullReader brinkRegions 0 ⟨OutFile.empty, []⟩).2
        = LoopExit.finished ∧
      (dumpLoop amplePool fullReader brinkRegions 0 ⟨OutFile.empty, []⟩).1.file.failed
        = true ∧
      (dumpLoop amplePool fullReader brinkRegions 0 ⟨OutFile.empty, []⟩).1.file.content.length
        ≠ 2 ^ 63 - 2 + 4) := by
  decide

/-- C5 (amended): for every ascending, non-overlapping sequence of regions of
positive size, each ending at or below the largest stream offset 2^63 - 1,
whose contents are written by the seek-then-write loop of `dump_process_memory`
into the initially empty file (every buffer being constructed and no read being
fatal, so that every region reaches the writer), the loop runs to its end, the
stream has not failed, afterwards the file bytes at offsets [start, start+size)
of every region equal the buffer written for that region, and the logical
length of the file is the last region's start + size. -/
theorem C5_sparse_image_layout (alloc : AllocOracle) (rd : ReadOracle)
    (rs : List memory_region)
    (hinv : SnapshotInvariant rs) (hpos : ∀ r ∈ rs, 0 < r.size)
    (hoff : ∀ r ∈ rs, r.start + r.size ≤ STREAM_MAX_OFFSET)
    (hbuf : BuffersConstruct alloc rs 0) (hnf : NoFatalRead rd rs 0) :
    (dumpLoop alloc rd rs 0 ⟨OutFile.empty, []⟩).2 = LoopExit.finished ∧
    (dumpLoop alloc rd rs 0 ⟨OutFile.empty, []⟩).1.file.failed = false ∧
    (∀ (k : Nat) (hk : k < rs.length),
      ((dumpLoop alloc rd rs 0 ⟨OutFile.empty, []⟩).1.file.content.drop rs[k].start).take
          rs[k].size
        = regionBuffer rs[k].size (rd k rs[k].start rs[k].size)) ∧
    (∀ back ∈ rs.getLast?,
      (dumpLoop alloc rd rs 0 ⟨OutFile.empty, []⟩).1.file.content.length
        = back.start + back.size) := by
  obtain ⟨h1, h0, _, h3, h4⟩ := dumpLoop_file alloc rd rs 0 ⟨OutFile.empty, []⟩ hnf hbuf hinv
    hpos hoff rfl (fun r _ => Nat.zero_le _)
  refine ⟨h1, h0, ?_, h3⟩
  intro k hk
  have := h4 k hk
  rw [Nat.zero_add] at this
  exact this

/-- Witness for C5: regions `{start=0x1000,size=16,bytes=A}` and
`{start=0x2000,size=16,bytes=B}` give A at 0x1000..0x1010, B at 0x2000..0x2010
and logical length 0x2010. -/
theorem C5_sparse_image_layout_witness :
    ((dumpLoop amplePool fullReader twoRegions 0 ⟨OutFile.empty, []⟩).1.file.content.drop
        0x1000).take 16 = List.replicate 16 0xAA ∧
    ((dumpLoop amplePool fullReader twoRegions 0 ⟨OutFile.empty, []⟩).1.file.content.drop
        0x2000).take 16 = List.replicate 16 0xBB ∧
    (dumpLoop amplePool fullReader twoRegions 0 ⟨OutFile.empty, []⟩).1.file.content.length
      = 0x2010 :=
  ⟨(C5_sparse_image_layout amplePool fullReader twoRegions (by decide) (by decide)
      (by decide) (by decide) (by decide)).2.2.1 0 (by decide),
   (C5_sparse_image_layout amplePool fullReader twoRegions (by decide) (by decide)
      (by decide) (by decide) (by decide)).2.2.1 1 (by decide),
   (C5_sparse_image_layout amplePool fullReader twoRegions (by decide) (by decide)
      (by decide) (by decide) (by decide)).2.2.2
      ⟨0x2000, 16, ⟨0x2000, 16, MEM_COMMIT, PAGE_READWRITE⟩⟩ rfl⟩

/-! ## Fatal and tolerated read failures -/

theorem dumpLoop_append (alloc : AllocOracle) (rd : ReadOracle) :
    ∀ (l1 l2 : List memory_region) (index : Nat) (st : DumpState),
      dumpLoop alloc rd (l1 ++ l2) index st =
        if (dumpLoop alloc rd l1 index st).2 = LoopExit.finished then
          dumpLoop alloc rd l2 (index + l1.length) (dumpLoop alloc rd l1 index st).1
        else dumpLoop alloc rd l1 index st
  | [], l2, index, st => by simp [dumpLoop]
  | region :: rest, l2, index, st => by
    rw [List.cons_append, dumpLoop, dumpLoop]
    by_cases hc : bufferConstructs alloc index region.size = true
    · by_cases hf : isFatal (rd index region.start region.size) = true
      · simp [hc, hf]
      · simp only [hc, hf, if_true, if_false, Bool.false_eq_true]
        rw [dumpLoop_append alloc rd rest l2 (index + 1)]
        have e : index + 1 + rest.length = index + (region :: rest).length := by
          simp only [List.length_cons]; omega
        rw [e]
    · simp [hc]

theorem writtenCount_le_readCount (alloc : AllocOracle) (rd : ReadOracle) :
    ∀ (rs : List memory_region) (index : Nat),
      writtenCount alloc rd rs index ≤ readCount alloc rd rs index ∧
      readCount alloc rd rs index ≤ writtenCount alloc rd rs index + 1 ∧
      readCount alloc rd rs index ≤ rs.length
  | [], _ => by simp [writtenCount, readCount]
  | region :: rest, index => by
    rw [writtenCount, readCount]
    have := writtenCount_le_readCount alloc rd rest (index + 1)
    split
    · split <;> simp only [List.length_cons] <;> omega
    · simp

theorem dumpLoop_indices (alloc : AllocOracle) (rd : ReadOracle) :
    ∀ (rs : List memory_region) (index : Nat) (st : DumpState),
      writeIndices (dumpLoop alloc rd rs index st).1.trace
        = writeIndices st.trace ++ List.range' index (writtenCount alloc rd rs index) ∧
      readIndices (dumpLoop alloc rd rs index st).1.trace
        = readIndices st.trace ++ List.range' index (readCount alloc rd rs index) ∧
      ((dumpLoop alloc rd rs index st).2 = LoopExit.finished
        ↔ writtenCount alloc rd rs index = rs.length)
  | [], index, st => by simp [dumpLoop, writtenCount, readCount]
  | region :: rest, index, st => by
    rw [dumpLoop, writtenCount, readCount]
    by_cases hc : bufferConstructs alloc index region.size = true
    · by_cases hf : isFatal (rd index region.start region.size) = true
      · simp [hc, hf, writeIndices, readIndices, List.filterMap_append]
      · simp only [hc, hf, if_true, if_false, Bool.false_eq_true]
        obtain ⟨h1, h2, h3⟩ := dumpLoop_indices alloc rd rest (index + 1)
          { file := (st.file.seekp region.start).write
              (regionBuffer region.size (rd index region.start region.size))
            trace := st.trace ++
              ([DumpEvent.read index region.start region.size] ++
               (if (rd index region.start region.size).transferred.length < region.size then
                  [DumpEvent.warning region.start region.size
                    (rd index region.start region.size).transferred.length]
                else []) ++
               [DumpEvent.seekp region.start,
                DumpEvent.write index
                  (regionBuffer region.size (rd index region.start region.size))]) }
        refine ⟨?_, ?_, ?_⟩
        · rw [h1]
          have e : 1 + writtenCount alloc rd rest (index + 1)
              = writtenCount alloc rd rest (index + 1) + 1 := by
            omega
          rw [e, List.range'_succ]
          unfold writeIndices
          split <;> simp [List.filterMap_append]
        · rw [h2]
          have e : 1 + readCount alloc rd rest (index + 1)
              = readCount alloc rd rest (index + 1) + 1 := by
            omega
          rw [e, List.range'_succ]
          unfold readIndices
          split <;> simp [List.filterMap_append]
        · rw [h3]
          simp only [List.length_cons]
          omega
    · simp [hc]

theorem writtenCount_le_length (alloc : AllocOracle) (rd : ReadOracle)
    (rs : List memory_region) (index : Nat) : writtenCount alloc rd rs index ≤ rs.length := by
  have := writtenCount_le_readCount alloc rd rs index
  omega

theorem writtenCount_le (alloc : AllocOracle) (rd : ReadOracle) :
    ∀ (rs : List memory_region) (index k : Nat) (hk : k < rs.length),
      isFatal (rd (index + k) rs[k].start rs[k].size) = true →
      writtenCount alloc rd rs index ≤ k
  | region :: rest, index, 0, _, h => by
    simp only [List.getElem_cons_zero, Nat.add_zero] at h
    rw [writtenCount]
    split
    · simp [h]
    · exact Nat.le_refl _
  | region :: rest, index, k + 1, hk, h => by
    rw [writtenCount]
    split
    · split
      · omega
      · have e : index + (k + 1) = index + 1 + k := by omega
        simp only [List.getElem_cons_succ, e] at h
        have := writtenCount_le alloc rd rest (index + 1) k (by simpa using hk) h
        omega
    · omega

theorem writtenCount_ge (alloc : AllocOracle) (rd : ReadOracle) :
    ∀ (rs : List memory_region) (index k : Nat), k ≤ rs.length →
      (∀ (m : Nat) (hm : m < rs.length), m < k →
        isFatal (rd (index + m) rs[m].start rs[m].size) = false ∧
        bufferConstructs alloc (index + m) rs[m].size = true) →
      k ≤ writtenCount alloc rd rs index
  | _, _, 0, _, _ => Nat.zero_le _
  | [], _, k + 1, hk, _ => by simp at hk
  | region :: rest, index, k + 1, hk, h => by
    have h0 := h 0 (by simp) (by omega)
    simp only [List.getElem_cons_zero, Nat.add_zero] at h0
    rw [writtenCount, if_pos h0.2, if_neg (by rw [h0.1]; simp)]
    have := writtenCount_ge alloc rd rest (index + 1) k (by simpa using hk) (fun m hm hmk => by
      have := h (m + 1) (by simpa using hm) (by omega)
      have e : index + (m + 1) = index + 1 + m := by omega
      simpa only [List.getElem_cons_succ, e] using this)
    omega

theorem readCount_gt (alloc : AllocOracle) (rd : ReadOracle) :
    ∀ (rs : List memory_region) (index k : Nat), k < readCount alloc rd rs index →
      (∀ (m : Nat) (hm : m < rs.length), m < k →
        isFatal (rd (index + m) rs[m].start rs[m].size) = false) ∧
      (∀ (m : Nat) (hm : m < rs.length), m ≤ k →
        bufferConstructs alloc (index + m) rs[m].size = true)
  | [], _, _, h => by simp [readCount] at h
  | region :: rest, index, k, h => by
    rw [readCount] at h
    by_cases hc : bufferConstructs alloc index region.size = true
    · by_cases hf : isFatal (rd index region.start region.size) = true
      · simp only [hc, hf, if_true] at h
        have hk0 : k = 0 := by omega
        subst hk0
        refine ⟨fun m _ hm => absurd hm (Nat.not_lt_zero m), ?_⟩
        intro m hm hm0
        have hm1 : m = 0 := by omega
        subst hm1
        simpa using hc
      · simp only [hc, hf, if_true, if_false, Bool.false_eq_true] at h
        cases k with
        | zero =>
          refine ⟨fun m _ hm => absurd hm (Nat.not_lt_zero m), ?_⟩
          intro m hm hm0
          have hm1 : m = 0 := by omega
          subst hm1
          simpa using hc
        | succ k =>
          obtain ⟨ih1, ih2⟩ := readCount_gt alloc rd rest (index + 1) k (by omega)
          constructor
          · intro m hm hmk
            cases m with
            | zero => simpa using hf
            | succ m =>
              have := ih1 m (by simpa using hm) (by omega)
              have e : index + (m + 1) = index + 1 + m := by omega
              simpa only [List.getElem_cons_succ, e] using this
          · intro m hm hmk
            cases m with
            | zero => simpa using hc
            | succ m =>
              have := ih2 m (by simpa using hm) (by omega)
              have e : index + (m + 1) = index + 1 + m := by omega
              simpa only [List.getElem_cons_succ, e] using this
    · simp [hc] at h

theorem dumpLoop_fatal_at (alloc : AllocOracle) (rd : ReadOracle) (rs : List memory_region)
    (k : Nat) (hk : k < rs.length) (st : DumpState)
    (hf : isFatal (rd k rs[k].start rs[k].size) = true) :
    (dumpLoop alloc rd rs 0 st).1.file = (dumpLoop alloc rd (rs.take k) 0 st).1.file ∧
    ((dumpLoop alloc rd (rs.take k) 0 st).2 = LoopExit.finished →
      bufferConstructs alloc k rs[k].size = true →
      (dumpLoop alloc rd rs 0 st).2 = LoopExit.returned ∧
      (dumpLoop alloc rd rs 0 st).1.trace = (dumpLoop alloc rd (rs.take k) 0 st).1.trace ++
        [DumpEvent.read k rs[k].start rs[k].size,
         DumpEvent.readError (rd k rs[k].start rs[k].size).lastError]) := by
  have hsplit : rs = rs.take k ++ rs[k] :: rs.drop (k + 1) := by
    rw [← List.drop_eq_getElem_cons hk, List.take_append_drop]
  have hlen : (rs.take k).length = k := by
    rw [List.length_take]; omega
  have key := dumpLoop_append alloc rd (rs.take k) (rs[k] :: rs.drop (k + 1)) 0 st
  rw [← hsplit, hlen, Nat.zero_add] at key
  rw [key]
  by_cases hok : (dumpLoop alloc rd (rs.take k) 0 st).2 = LoopExit.finished
  · simp only [hok, if_true]
    rw [dumpLoop]
    by_cases hc : bufferConstructs alloc k rs[k].size = true
    · rw [if_pos hc, if_pos hf]
      exact ⟨rfl, fun _ _ => ⟨rfl, rfl⟩⟩
    · rw [if_neg hc]
      exact ⟨rfl, fun _ h => absurd h hc⟩
  · rw [if_neg hok]
    exact ⟨rfl, fun h => absurd h hok⟩

/-- C6: if the read of region k fails with an error other than partial-copy,
`dump_process_memory` leaves the loop early: no read is issued for a region
after k (the failing attempt on region k is the last read, and when that read
is issued the loop is left by `return` with the trace ending in that attempt
and its diagnostic), no file write is issued for region k or a later region,
and the stream on the file is exactly what the writes for regions 0..k-1 left.
If instead the read of region k is issued and its failure is a partial copy,
region k is written, and every later region is read and written up to the next
fatal read or buffer that cannot be constructed. -/
theorem C6_fatal_read_aborts (alloc : AllocOracle) (rd : ReadOracle)
    (rs : List memory_region) (k : Nat) (hk : k < rs.length) :
    (isFatal (rd k rs[k].start rs[k].size) = true →
      (dumpLoop alloc rd rs 0 ⟨OutFile.empty, []⟩).2 ≠ LoopExit.finished ∧
      (∀ j ∈ readIndices (dumpLoop alloc rd rs 0 ⟨OutFile.empty, []⟩).1.trace, j ≤ k) ∧
      (readIndices (dumpLoop alloc rd rs 0 ⟨OutFile.empty, []⟩).1.trace).Nodup ∧
      (∀ j ∈ writeIndices (dumpLoop alloc rd rs 0 ⟨OutFile.empty, []⟩).1.trace, j < k) ∧
      (dumpLoop alloc rd rs 0 ⟨OutFile.empty, []⟩).1.file
        = (dumpLoop alloc rd (rs.take k) 0 ⟨OutFile.empty, []⟩).1.file ∧
      (k ∈ readIndices (dumpLoop alloc rd rs 0 ⟨OutFile.empty, []⟩).1.trace →
        (dumpLoop alloc rd rs 0 ⟨OutFile.empty, []⟩).2 = LoopExit.returned ∧
        (dumpLoop alloc rd rs 0 ⟨OutFile.empty, []⟩).1.trace
          = (dumpLoop alloc rd (rs.take k) 0 ⟨OutFile.empty, []⟩).1.trace ++
            [DumpEvent.read k rs[k].start rs[k].size,
             DumpEvent.readError (rd k rs[k].start rs[k].size).lastError])) ∧
    (k ∈ readIndices (dumpLoop alloc rd rs 0 ⟨OutFile.empty, []⟩).1.trace →
      (rd k rs[k].start rs[k].size).success = false →
      (rd k rs[k].start rs[k].size).lastError = ERROR_PARTIAL_COPY →
      k ∈ writeIndices (dumpLoop alloc rd rs 0 ⟨OutFile.empty, []⟩).1.trace ∧
      ∀ (j : Nat), j < rs.length → k < j →
        (∀ (m : Nat) (hm : m < rs.length), k < m → m ≤ j →
          bufferConstructs alloc m rs[m].size = true ∧
          isFatal (rd m rs[m].start rs[m].size) = false) →
        j ∈ readIndices (dumpLoop alloc rd rs 0 ⟨OutFile.empty, []⟩).1.trace ∧
        j ∈ writeIndices (dumpLoop alloc rd rs 0 ⟨OutFile.empty, []⟩).1.trace) := by
  obtain ⟨hw, hr, hok⟩ := dumpLoop_indices alloc rd rs 0 ⟨OutFile.empty, []⟩
  simp only [writeIndices, readIndices, List.filterMap_nil, List.nil_append] at hw hr
  simp only [writeIndices, readIndices]
  rw [hw, hr]
  obtain ⟨hwr, hrw, hrl⟩ := writtenCount_le_readCount alloc rd rs 0
  constructor
  · intro hf
    have hle := writtenCount_le alloc rd rs 0 k hk (by rw [Nat.zero_add]; exact hf)
    obtain ⟨hfile, htrace⟩ := dumpLoop_fatal_at alloc rd rs k hk ⟨OutFile.empty, []⟩ hf
    refine ⟨?_, ?_, List.nodup_range' _ _, ?_, hfile, ?_⟩
    · intro hres
      have := hok.mp hres
      omega
    · intro j hj
      rw [List.mem_range'_1] at hj
      omega
    · intro j hj
      rw [List.mem_range'_1] at hj
      omega
    · intro hread
      rw [List.mem_range'_1] at hread
      obtain ⟨g1, g2⟩ := readCount_gt alloc rd rs 0 k (by omega)
      apply htrace
      · have hlen : (rs.take k).length = k := by rw [List.length_take]; omega
        rw [(dumpLoop_indices alloc rd (rs.take k) 0 ⟨OutFile.empty, []⟩).2.2, hlen]
        have := writtenCount_ge alloc rd (rs.take k) 0 k (by omega) (fun m hm hmk => by
          rw [List.getElem_take]
          exact ⟨g1 m (by omega) hmk, g2 m (by omega) (by omega)⟩)
        have h2 := writtenCount_le_length alloc rd (rs.take k) 0
        omega
      · have := g2 k hk (Nat.le_refl _)
        rw [Nat.zero_add] at this
        exact this
  · intro hread hfail herr
    rw [List.mem_range'_1] at hread
    obtain ⟨g1, g2⟩ := readCount_gt alloc rd rs 0 k (by omega)
    have hnfk : isFatal (rd k rs[k].start rs[k].size) = false := by
      unfold isFatal
      rw [hfail, herr]
      simp
    have hge : ∀ j, j < rs.length → k ≤ j →
        (∀ (m : Nat) (hm : m < rs.length), k < m → m ≤ j →
          bufferConstructs alloc m rs[m].size = true ∧
          isFatal (rd m rs[m].start rs[m].size) = false) →
        j + 1 ≤ writtenCount alloc rd rs 0 := by
      intro j hj hkj hafter
      apply writtenCount_ge alloc rd rs 0 (j + 1) (by omega)
      intro m hm hmj
      rw [Nat.zero_add]
      rcases Nat.lt_trichotomy m k with h | h | h
      · have a1 := g1 m hm h
        have a2 := g2 m hm (by omega)
        rw [Nat.zero_add] at a1 a2
        exact ⟨a1, a2⟩
      · subst h
        have a2 := g2 m hm (Nat.le_refl _)
        rw [Nat.zero_add] at a2
        exact ⟨hnfk, a2⟩
      · exact ⟨(hafter m hm h (by omega)).2, (hafter m hm h (by omega)).1⟩
    have hk1 := hge k hk (Nat.le_refl _) (fun m _ h1 h2 => by omega)
    refine ⟨?_, ?_⟩
    · rw [List.mem_range'_1]; omega
    · intro j hj hkj hafter
      have := hge j hj (by omega) hafter
      constructor <;> rw [List.mem_range'_1] <;> omega

/-- Witness for C6: with `faultyReader` the read of region 1 is fatal, so the
dump returns early having read regions 0 and 1 and written region 0 only; the
partial copy on region 0 did not stop it. -/
theorem C6_fatal_read_aborts_witness :
    ((dumpLoop amplePool faultyReader threeRegions 0 ⟨OutFile.empty, []⟩).2
        ≠ LoopExit.finished ∧
      (∀ j ∈ writeIndices
          (dumpLoop amplePool faultyReader threeRegions 0 ⟨OutFile.empty, []⟩).1.trace,
        j < 1)) ∧
    (0 ∈ writeIndices
        (dumpLoop amplePool faultyReader threeRegions 0 ⟨OutFile.empty, []⟩).1.trace) :=
  ⟨⟨((C6_fatal_read_aborts amplePool faultyReader threeRegions 1 (by decide)).1
        (by decide)).1,
    ((C6_fatal_read_aborts amplePool faultyReader threeRegions 1 (by decide)).1
        (by decide)).2.2.2.1⟩,
   ((C6_fatal_read_aborts amplePool faultyReader threeRegions 0 (by decide)).2
      (by decide) rfl rfl).1⟩

/-! ## Flat size and packed size -/

theorem foldl_packed (rs : List memory_region) :
    ∀ (acc : Nat), acc < WORD64 →
      rs.foldl (fun sum region => (sum + region.size) % WORD64) acc
        = (acc + sumSizes rs) % WORD64 := by
  induction rs with
  | nil =>
    intro acc h
    simp [sumSizes, Nat.mod_eq_of_lt h]
  | cons r rest ih =>
    intro acc _
    rw [List.foldl_cons, ih _ (Nat.mod_lt _ (by unfold WORD64; omega))]
    simp only [sumSizes, List.map_cons, List.sum_cons]
    rw [Nat.mod_add_mod, Nat.add_assoc]

theorem packedSize_eq (rs : List memory_region) : packedSize rs = sumSizes rs % WORD64 := by
  unfold packedSize
  rw [foldl_packed rs 0 (by unfold WORD64; omega), Nat.zero_add]

theorem sumSizes_le_end :
    ∀ (rs : List memory_region), SnapshotInvariant rs →
      ∀ first ∈ rs.head?, ∀ back ∈ rs.getLast?,
        first.start + sumSizes rs ≤ back.start + back.size ∧
        (first.start + sumSizes rs = back.start + back.size ↔ Contiguous rs)
  | [], _, first, hf, _, _ => by simp at hf
  | [a], _, first, hf, back, hb => by
    simp only [List.head?_cons, Option.mem_def, Option.some.injEq] at hf
    simp only [List.getLast?_singleton, Option.mem_def, Option.some.injEq] at hb
    subst hf hb
    simp [sumSizes, Contiguous]
  | a :: b :: rest, hinv, first, hf, back, hb => by
    simp only [List.head?_cons, Option.mem_def, Option.some.injEq] at hf
    subst hf
    rw [List.getLast?_cons_cons] at hb
    obtain ⟨h1, h2⟩ := sumSizes_le_end (b :: rest) hinv.2 b (by simp) back hb
    have hab := hinv.1
    have e : sumSizes (a :: b :: rest) = a.size + sumSizes (b :: rest) := by
      simp [sumSizes]
    rw [e]
    refine ⟨by omega, ?_⟩
    show _ ↔ (a.start + a.size = b.start ∧ Contiguous (b :: rest))
    rw [← h2]
    omega

/-- C8 (as stated) fails: the one-region snapshot `[4096, 2^64)` satisfies the
MemorySnapshot invariant, its flat size `start + size` is computed as 0 in 64
bits, and its packed size is 2^64 - 4096, which is larger. -/
theorem C8_counterexample :
    topSnapshot ≠ [] ∧ SnapshotInvariant topSnapshot ∧ StartsAscending topSnapshot ∧
    flatSize topSnapshot = some 0 ∧ packedSize topSnapshot = 2 ^ 64 - 4096 ∧
    ¬ (∀ flat ∈ flatSize topSnapshot, packedSize topSnapshot ≤ flat) := by
  refine ⟨by decide, by decide, by decide, by decide, by decide, ?_⟩
  intro h
  have := h 0 (by decide)
  revert this
  decide

/-- C8 (amended): for every non-empty snapshot that satisfies the
MemorySnapshot invariant and whose last region's end address start + size is
below 2^64, the packed size computed by `dump_process_memory` is at most the
flat size it computes, and the two are equal if and only if the first region
starts at address 0 and every region ends exactly where the next one starts. -/
theorem C8_packed_le_flat (regions : List memory_region) (hne : regions ≠ [])
    (hinv : SnapshotInvariant regions)
    (hend : ∀ back ∈ regions.getLast?, back.start + back.size < WORD64) :
    ∃ flat, flatSize regions = some flat ∧ packedSize regions ≤ flat ∧
      (packedSize regions = flat ↔
        (∀ first ∈ regions.head?, first.start = 0) ∧ Contiguous regions) := by
  obtain ⟨first, rest, rfl⟩ := List.exists_cons_of_ne_nil hne
  obtain ⟨back, hb⟩ : ∃ back, (first :: rest).getLast? = some back :=
    ⟨_, List.getLast?_eq_getLast _ hne⟩
  have hlt := hend back hb
  obtain ⟨h1, h2⟩ := sumSizes_le_end (first :: rest) hinv first (by simp) back hb
  refine ⟨back.start + back.size, ?_, ?_, ?_⟩
  · unfold flatSize
    rw [hb]
    simp only [Nat.mod_eq_of_lt hlt]
  · rw [packedSize_eq, Nat.mod_eq_of_lt (by omega)]
    omega
  · rw [packedSize_eq, Nat.mod_eq_of_lt (by omega)]
    simp only [List.head?_cons, Option.mem_def, Option.some.injEq, forall_eq']
    rw [← h2]
    omega

/-- Witness for C8 (amended): the snapshot `{0x1000,16}`, `{0x2000,16}` has
packed size 32 below its flat size 0x2010, and the contiguous snapshot of three
four-byte regions from address 0 has packed size equal to its flat size 12. -/
theorem C8_packed_le_flat_witness :
    (∃ flat, flatSize twoRegions = some flat ∧ packedSize twoRegions ≤ flat ∧
      (packedSize twoRegions = flat ↔
        (∀ first ∈ twoRegions.head?, first.start = 0) ∧ Contiguous twoRegions)) ∧
    flatSize twoRegions = some 0x2010 ∧ packedSize twoRegions = 32 ∧
    flatSize threeRegions = some 12 ∧ packedSize threeRegions = 12 :=
  ⟨C8_packed_le_flat twoRegions (by decide) (by decide) (by decide),
   by decide, by decide, by decide, by decide⟩

/-! ## The walk of `scan_memory` -/

theorem regionBytes_length (mem : Memory) (base size : Nat) :
    (regionBytes mem base size).length = size := by
  simp [regionBytes]

theorem scanRegion_spec (mem : Memory) (pat : List Byte) (hp : pat ≠ [])
    (mbi : MEMORY_BASIC_INFORMATION) (found : List Nat) :
    scanRegion mem pat mbi found
      = some (found ++ if ScanPolicy mbi = true then regionMatches mem pat mbi else []) := by
  unfold scanRegion
  by_cases h : ScanPolicy mbi = true
  · simp only [h, if_true]
    rw [searchRegion_spec _ _ _ _ hp]
    rfl
  · simp [h]

theorem mem_regionMatches (mem : Memory) (pat : List Byte) (mbi : MEMORY_BASIC_INFORMATION)
    (a : Nat) (h : a ∈ regionMatches mem pat mbi) :
    mbi.BaseAddress ≤ a ∧ a + pat.length ≤ mbi.BaseAddress + mbi.RegionSize := by
  unfold regionMatches at h
  rw [List.mem_map] at h
  obtain ⟨i, hi, rfl⟩ := h
  rw [mem_occurrences, regionBytes_length] at hi
  omega

theorem scanLoop_mem (query : QueryOracle) (mem : Memory) (pat : List Byte) (hp : pat ≠ [])
    (high : Nat) :
    ∀ (fuel address : Nat) (found res : List Nat),
      scanLoop query mem pat high fuel address found = some res →
      ∀ a ∈ res, a ∈ found ∨
        ∃ c mbi, query c = some mbi ∧ ScanPolicy mbi = true ∧ a ∈ regionMatches mem pat mbi
  | 0, _, _, _, h => by simp [scanLoop] at h
  | fuel + 1, address, found, res, h => by
    intro a ha
    unfold scanLoop at h
    by_cases hlt : address < high
    · simp only [hlt, if_true] at h
      cases hq : query address with
      | none =>
        simp only [hq, Option.some.injEq] at h
        subst h
        exact Or.inl ha
      | some mbi =>
        simp only [hq, scanRegion_spec mem pat hp] at h
        rcases scanLoop_mem query mem pat hp high fuel _ _ res h a ha with h1 | h1
        · rw [List.mem_append] at h1
          rcases h1 with h1 | h1
          · exact Or.inl h1
          · by_cases hpol : ScanPolicy mbi = true
            · simp only [hpol, if_true] at h1
              exact Or.inr ⟨address, mbi, hq, hpol, h1⟩
            · simp [hpol] at h1
        · exact Or.inr h1
    · simp only [hlt, if_false, Option.some.injEq] at h
      subst h
      exact Or.inl ha

theorem scan_two_regions (query : QueryOracle) (mem : Memory) (pat : List Byte)
    (hp : pat ≠ []) (R1 R2 : MEMORY_BASIC_INFORMATION)
    (hq1 : query R1.BaseAddress = some R1) (hq2 : query R2.BaseAddress = some R2)
    (hs1 : 0 < R1.RegionSize) (hs2 : 0 < R2.RegionSize)
    (hadj : R2.BaseAddress = R1.BaseAddress + R1.RegionSize)
    (hend : R2.BaseAddress + R2.RegionSize < WORD64) :
    scan_memory query mem R1.BaseAddress (R1.RegionSize + R2.RegionSize) pat 3
      = some ((if ScanPolicy R1 = true then regionMatches mem pat R1 else [])
          ++ if ScanPolicy R2 = true then regionMatches mem pat R2 else []) := by
  have hhigh : (R1.BaseAddress + (R1.RegionSize + R2.RegionSize)) % WORD64
      = R2.BaseAddress + R2.RegionSize := by
    rw [Nat.mod_eq_of_lt (by omega)]; omega
  have hc1 : (R1.BaseAddress + R1.RegionSize) % WORD64 = R2.BaseAddress := by
    rw [Nat.mod_eq_of_lt (by omega)]; omega
  unfold scan_memory
  rw [hhigh, scanLoop, if_pos (by omega)]
  simp only [hq1, scanRegion_spec mem pat hp, hc1, List.nil_append]
  rw [scanLoop, if_pos (by omega)]
  simp only [hq2, scanRegion_spec mem pat hp, Nat.mod_eq_of_lt hend]
  rw [scanLoop, if_neg (by omega)]

theorem scanLoop_fuel_mono (query : QueryOracle) (mem : Memory) (pat : List Byte)
    (high : Nat) :
    ∀ (fuel extra address : Nat) (found res : List Nat),
      scanLoop query mem pat high fuel address found = some res →
      scanLoop query mem pat high (fuel + extra) address found = some res
  | 0, _, _, _, _, h => by simp [scanLoop] at h
  | fuel + 1, extra, address, found, res, h => by
    have e : fuel + 1 + extra = (fuel + extra) + 1 := by omega
    rw [e]
    unfold scanLoop at h ⊢
    by_cases hlt : address < high
    · simp only [hlt, if_true] at h ⊢
      cases hq : query address with
      | none => simpa only [hq] using h
      | some mbi =>
        simp only [hq] at h ⊢
        cases hr : scanRegion mem pat mbi found with
        | none => simp [hr] at h
        | some f =>
          simp only [hr] at h ⊢
          exact scanLoop_fuel_mono query mem pat high fuel extra _ _ res h
    · simpa only [hlt, if_false] using h

/-- C7: every address `a` returned by `scan_memory` for a non-empty pattern of
length m is a match found inside one region that a query returned and the
filter accepted, with `a + m` at most that region's end; hence a scan returns
no match when the pattern occurs wholly inside no accepted region.  For two
adjacent accepted regions R1, R2 the scan of their union terminates and returns
the matches wholly inside R1 followed by those wholly inside R2; so if the
pattern occurs wholly inside neither, the scan returns no match, also when the
pattern lies across their boundary. -/
theorem C7_cross_region_not_detected (query : QueryOracle) (mem : Memory)
    (pat : List Byte) (hp : pat ≠ []) :
    (∀ (low nbytes fuel : Nat) (res : List Nat),
      scan_memory query mem low nbytes pat fuel = some res →
      (∀ a ∈ res, ∃ c mbi, query c = some mbi ∧ ScanPolicy mbi = true ∧
        a ∈ regionMatches mem pat mbi ∧
        mbi.BaseAddress ≤ a ∧ a + pat.length ≤ mbi.BaseAddress + mbi.RegionSize) ∧
      ((∀ c mbi, query c = some mbi → ScanPolicy mbi = true →
          occurrences (regionBytes mem mbi.BaseAddress mbi.RegionSize) pat = []) →
        res = [])) ∧
    (∀ (R1 R2 : MEMORY_BASIC_INFORMATION),
      query R1.BaseAddress = some R1 → query R2.BaseAddress = some R2 →
      ScanPolicy R1 = true → ScanPolicy R2 = true →
      0 < R1.RegionSize → 0 < R2.RegionSize →
      R2.BaseAddress = R1.BaseAddress + R1.RegionSize →
      R2.BaseAddress + R2.RegionSize < WORD64 →
      (∀ fuel, 3 ≤ fuel →
        scan_memory query mem R1.BaseAddress (R1.RegionSize + R2.RegionSize) pat fuel
          = some (regionMatches mem pat R1 ++ regionMatches mem pat R2)) ∧
      (occurrences (regionBytes mem R1.BaseAddress R1.RegionSize) pat = [] →
        occurrences (regionBytes mem R2.BaseAddress R2.RegionSize) pat = [] →
        ∀ fuel, 3 ≤ fuel →
          scan_memory query mem R1.BaseAddress (R1.RegionSize + R2.RegionSize) pat fuel
            = some [])) := by
  constructor
  · intro low nbytes fuel res h
    have hall : ∀ a ∈ res, ∃ c mbi, query c = some mbi ∧ ScanPolicy mbi = true ∧
        a ∈ regionMatches mem pat mbi ∧
        mbi.BaseAddress ≤ a ∧ a + pat.length ≤ mbi.BaseAddress + mbi.RegionSize := by
      intro a ha
      rcases scanLoop_mem query mem pat hp _ fuel low [] res h a ha with
        h1 | ⟨c, mbi, hc, hpol, hm⟩
      · exact absurd h1 (List.not_mem_nil a)
      · exact ⟨c, mbi, hc, hpol, hm, mem_regionMatches mem pat mbi a hm⟩
    refine ⟨hall, ?_⟩
    intro hnone
    cases res with
    | nil => rfl
    | cons a rest =>
      obtain ⟨c, mbi, hc, hpol, hm, _⟩ := hall a (List.mem_cons_self _ _)
      unfold regionMatches at hm
      rw [hnone c mbi hc hpol] at hm
      exact absurd hm (by simp)
  · intro R1 R2 hq1 hq2 hp1 hp2 hs1 hs2 hadj hend
    have key : ∀ fuel, 3 ≤ fuel →
        scan_memory query mem R1.BaseAddress (R1.RegionSize + R2.RegionSize) pat fuel
          = some (regionMatches mem pat R1 ++ regionMatches mem pat R2) := by
      intro fuel hfuel
      have h3 := scan_two_regions query mem pat hp R1 R2 hq1 hq2 hs1 hs2 hadj hend
      simp only [hp1, hp2, if_true] at h3
      have := scanLoop_fuel_mono query mem pat _ 3 (fuel - 3) _ _ _ h3
      have e : 3 + (fuel - 3) = fuel := by omega
      rw [e] at this
      exact this
    refine ⟨key, ?_⟩
    intro ho1 ho2 fuel hfuel
    rw [key fuel hfuel]
    simp [regionMatches, ho1, ho2]

/-- Witness for C7: the pattern 0x41 0x42 lies at 0x1003, astride the boundary
of the adjacent accepted regions `[0x1000, 0x1004)` and `[0x1004, 0x1008)`; it
occurs in the bytes of their union, and the scan of the union returns no match. -/
theorem C7_cross_region_not_detected_witness :
    occurrences (regionBytes straddleMemory 0x1000 8) [0x41, 0x42] = [3] ∧
    scan_memory adjacentOracle straddleMemory 0x1000 8 [0x41, 0x42] 3 = some [] :=
  ⟨by decide,
   ((C7_cross_region_not_detected adjacentOracle straddleMemory [0x41, 0x42] (by decide)).2
      ⟨0x1000, 4, MEM_COMMIT, PAGE_READWRITE⟩ ⟨0x1004, 4, MEM_COMMIT, PAGE_READONLY⟩
      (by decide) (by decide) (by decide) (by decide) (by decide) (by decide) (by decide)
      (by decide)).2 (by decide) (by decide) 3 (Nat.le_refl 3)⟩

/-! ## Zero-size replies and failed queries -/

theorem zeroOracle_enumerate_loops :
    ∀ (fuel : Nat) (rs : List memory_region), enumerateLoop zeroOracle fuel 0 rs = none
  | 0, _ => rfl
  | fuel + 1, rs => by
    have h0 : (enumerateStep zeroOracle 0 rs).1 = 0 := by
      rw [enumerateStep_fst]; decide
    unfold enumerateLoop
    rw [if_pos (by decide), h0]
    exact zeroOracle_enumerate_loops fuel _

theorem zeroOracle_scan_loops (mem : Memory) (pat : List Byte) (hp : pat ≠ []) :
    ∀ (fuel : Nat) (found : List Nat), scanLoop zeroOracle mem pat 4096 fuel 0 found = none
  | 0, _ => rfl
  | fuel + 1, found => by
    have hq : zeroOracle 0 = some ⟨0, 0, MEM_COMMIT, PAGE_READWRITE⟩ := rfl
    unfold scanLoop
    rw [if_pos (by decide)]
    simp only [hq, scanRegion_spec mem pat hp]
    exact zeroOracle_scan_loops mem pat hp fuel _

/-- C9 (as stated) fails: `zeroOracle` answers the query at cursor 0 with a
region size of 0; the next cursor of the enumeration loop is then 0, not 4096,
and neither the enumeration loop of `dump_process_memory` nor the walk of
`scan_memory` over `[0, 4096)` ends, whatever number of steps is allowed. -/
theorem C9_counterexample :
    zeroOracle 0 = some ⟨0, 0, MEM_COMMIT, PAGE_READWRITE⟩ ∧
    (enumerateStep zeroOracle 0 []).1 = 0 ∧
    (∀ fuel, enumerate zeroOracle fuel = none) ∧
    (∀ fuel, scan_memory zeroOracle straddleMemory 0 4096 [0x41] fuel = none) :=
  ⟨rfl, by decide, fun fuel => zeroOracle_enumerate_loops fuel [],
    fun fuel => zeroOracle_scan_loops straddleMemory [0x41] (by decide) fuel []⟩

theorem searchAux_bounds (pat : List Byte) :
    ∀ (rest : List Byte) (pos : Nat),
      pos ≤ searchAux pat rest pos ∧ searchAux pat rest pos ≤ pos + rest.length
  | [], pos => by simp [searchAux]
  | x :: xs, pos => by
    unfold searchAux
    have := searchAux_bounds pat xs (pos + 1)
    split <;> simp only [List.length_cons] <;> omega

theorem stdSearch_bounds (buf pat : List Byte) (first : Nat) (h : first ≤ buf.length) :
    first ≤ stdSearch buf pat first ∧ stdSearch buf pat first ≤ buf.length := by
  unfold stdSearch
  have := searchAux_bounds pat (buf.drop first) first
  rw [List.length_drop] at this
  omega

theorem searchLoop_total (buf pat : List Byte) (base : Nat) :
    ∀ (fuel found : Nat) (acc : List Nat), found ≤ buf.length → buf.length - found < fuel →
      ∃ res, searchLoop buf pat base fuel found acc = some res
  | 0, _, _, _, h => by omega
  | fuel + 1, found, acc, hle, h => by
    unfold searchLoop
    by_cases he : found = buf.length
    · exact ⟨acc, by rw [if_pos he]⟩
    · rw [if_neg he]
      have hb := stdSearch_bounds buf pat (found + 1) (by omega)
      exact searchLoop_total buf pat base fuel _ _ hb.2 (by omega)

theorem scanRegion_total (mem : Memory) (pat : List Byte) (mbi : MEMORY_BASIC_INFORMATION)
    (found : List Nat) : ∃ res, scanRegion mem pat mbi found = some res := by
  unfold scanRegion
  split
  · exact searchLoop_total _ pat _ _ _ _ (stdSearch_bounds _ pat 0 (Nat.zero_le _)).2
      (by omega)
  · exact ⟨found, rfl⟩

theorem scanLoop_terminates (query : QueryOracle) (mem : Memory) (pat : List Byte)
    (high : Nat)
    (hprog : ∀ a mbi, a < high → query a = some mbi →
      0 < mbi.RegionSize ∧ a + mbi.RegionSize < WORD64) :
    ∀ (fuel address : Nat) (found : List Nat), high - address < fuel →
      ∃ res, scanLoop query mem pat high fuel address found = some res
  | 0, _, _, h => by omega
  | fuel + 1, address, found, h => by
    unfold scanLoop
    by_cases hlt : address < high
    · simp only [hlt, if_true]
      cases hq : query address with
      | none => exact ⟨found, rfl⟩
      | some mbi =>
        obtain ⟨h1, h2⟩ := hprog address mbi hlt hq
        obtain ⟨found2, hf⟩ := scanRegion_total mem pat mbi found
        simp only [hf, Nat.mod_eq_of_lt h2]
        exact scanLoop_terminates query mem pat high hprog fuel _ _ (by omega)
    · simp only [hlt, if_false]
      exact ⟨found, rfl⟩

/-- C9 (amended): for every query oracle whose successful replies report a
positive region size, the enumeration loop of `dump_process_memory` terminates
when no reply below the ceiling makes the 64-bit cursor wrap, and the walk of
`scan_memory` terminates for every range and every pattern when no reply below
the upper bound makes the cursor wrap.  In both walks the next cursor after a
successful reply is the cursor plus the reported size (in 64 bits), whatever
the size; after a failed query the dump walk takes the page-size step and the
scan walk ends. -/
theorem C9_walks_terminate (query : QueryOracle) (hpos : PositiveSizes query) :
    (NoWrapBelowCeiling query → ∃ regions, enumerate query (DUMP_CEILING + 1) = some regions) ∧
    (∀ (mem : Memory) (low nbytes : Nat) (pat : List Byte),
      (∀ a mbi, a < (low + nbytes) % WORD64 → query a = some mbi →
        a + mbi.RegionSize < WORD64) →
      ∃ res, scan_memory query mem low nbytes pat ((low + nbytes) % WORD64 - low + 1)
        = some res) ∧
    (∀ (a : Nat) (rs : List memory_region) (mbi : MEMORY_BASIC_INFORMATION),
      query a = some mbi → (enumerateStep query a rs).1 = (a + mbi.RegionSize) % WORD64) ∧
    (∀ (a : Nat) (rs : List memory_region),
      query a = none → (enumerateStep query a rs).1 = (a + 4096) % WORD64) ∧
    (∀ (mem : Memory) (pat : List Byte) (high fuel a : Nat) (found : List Nat)
        (mbi : MEMORY_BASIC_INFORMATION), a < high → query a = some mbi →
      ∃ found2, scanRegion mem pat mbi found = some found2 ∧
        scanLoop query mem pat high (fuel + 1) a found
          = scanLoop query mem pat high fuel ((a + mbi.RegionSize) % WORD64) found2) ∧
    (∀ (mem : Memory) (pat : List Byte) (high fuel a : Nat) (found : List Nat),
      a < high → query a = none →
      scanLoop query mem pat high (fuel + 1) a found = some found) := by
  refine ⟨?_, ?_, ?_, ?_, ?_, ?_⟩
  · intro hwrap
    exact enumerateLoop_terminates query
      (fun a rs ha => enumerateStep_progress query hpos hwrap a rs ha) _ 0 [] (by omega)
  · intro mem low nbytes pat hwrap
    exact scanLoop_terminates query mem pat _
      (fun a mbi ha hq => ⟨hpos a mbi hq, hwrap a mbi ha hq⟩) _ low [] (by omega)
  · intro a rs mbi hq
    rw [enumerateStep_fst, hq]
  · intro a rs hq
    rw [enumerateStep_fst, hq]
  · intro mem pat high fuel a found mbi ha hq
    obtain ⟨found2, hf⟩ := scanRegion_total mem pat mbi found
    refine ⟨found2, hf, ?_⟩
    rw [scanLoop, if_pos ha]
    simp only [hq, hf]
  · intro mem pat high fuel a found ha hq
    rw [scanLoop, if_pos ha]
    simp only [hq]

theorem sampleOracle_positive : PositiveSizes sampleOracle :=
  fun a mbi h => (sampleOracle_partition.1 a mbi h).1

/-- Witness for C9 (amended): `sampleOracle` reports positive sizes and never
wraps below the ceiling; its enumeration ends, and so does the scan of
`[0, 0x1000)`. -/
theorem C9_walks_terminate_witness :
    PositiveSizes sampleOracle ∧
    (∃ regions, enumerate sampleOracle (DUMP_CEILING + 1) = some regions) ∧
    (∃ res, scan_memory sampleOracle straddleMemory 0 0x1000 [0x41]
      ((0 + 0x1000) % WORD64 - 0 + 1) = some res) :=
  ⟨sampleOracle_positive,
   (C9_walks_terminate sampleOracle sampleOracle_positive).1 sampleOracle_noWrap,
   (C9_walks_terminate sampleOracle sampleOracle_positive).2.1 straddleMemory 0 0x1000 [0x41]
     (fun a mbi ha hq => by
       have h1 : a < 0x1000 := by
         have : (0 + 0x1000) % WORD64 = 0x1000 := by decide
         rw [this] at ha
         exact ha
       exact sampleOracle_noWrap a mbi (by unfold DUMP_CEILING; omega) hq)⟩

/-- C10 (as stated) fails: with `gapOracle` the query at cursor 0 fails and
0 + 4096 lies below the upper bound 4112, the region `[4096, 4112)` passes the
scan filter and holds the pattern at 4100 (a scan started at 4096 returns it),
yet `scan_memory(0, 4112, pattern)` stops at the failed query and returns no
match. -/
theorem C10_counterexample :
    gapOracle 0 = none ∧ 0 + 4096 < 0 + 4112 ∧
    gapOracle 4096 = some ⟨4096, 16, MEM_COMMIT, PAGE_READWRITE⟩ ∧
    ScanPolicy ⟨4096, 16, MEM_COMMIT, PAGE_READWRITE⟩ = true ∧
    scan_memory gapOracle gapMemory 4096 16 [0xAB] 2 = some [4100] ∧
    (∀ fuel, scan_memory gapOracle gapMemory 0 4112 [0xAB] (fuel + 1) = some []) :=
  ⟨rfl, by decide, rfl, by decide, by decide, fun _ => rfl⟩

/-- C10 (amended): when the query at cursor `a` fails, the walk of
`scan_memory` ends at `a`: the loop returns the matches collected so far and no
region at or after `a` is searched.  In particular a scan whose first query
fails returns no match, and a scan whose first query returns the region R and
whose next cursor `a` fails returns exactly the matches inside R. -/
theorem C10_failed_query_ends_walk (query : QueryOracle) (mem : Memory) (pat : List Byte)
    (a : Nat) (hq : query a = none) :
    (∀ (high fuel : Nat) (found : List Nat),
      scanLoop query mem pat high (fuel + 1) a found = some found) ∧
    (∀ (nbytes fuel : Nat), scan_memory query mem a nbytes pat (fuel + 1) = some []) ∧
    (∀ (low nbytes fuel : Nat) (R : MEMORY_BASIC_INFORMATION), pat ≠ [] →
      low < (low + nbytes) % WORD64 → query low = some R →
      (low + R.RegionSize) % WORD64 = a →
      scan_memory query mem low nbytes pat (fuel + 2)
        = some (if ScanPolicy R = true then regionMatches mem pat R else [])) := by
  have h1 : ∀ (high fuel : Nat) (found : List Nat),
      scanLoop query mem pat high (fuel + 1) a found = some found := by
    intro high fuel found
    unfold scanLoop
    by_cases hlt : a < high
    · simp only [hlt, if_true, hq]
    · simp only [hlt, if_false]
  refine ⟨h1, fun nbytes fuel => h1 _ fuel [], ?_⟩
  intro low nbytes fuel R hp hlt hqR ha
  unfold scan_memory
  rw [scanLoop, if_pos hlt]
  simp only [hqR, scanRegion_spec mem pat hp, List.nil_append, ha]
  exact h1 _ fuel _

/-- Witness for C10 (amended): the query of `gapOracle` at 0 fails, so the scan
of `[0, 4112)` returns no match; and the scan of `[4096, 8192)` returns the
match at 4100 of the region `[4096, 4112)` and stops at the failed query at
4112. -/
theorem C10_failed_query_ends_walk_witness :
    gapOracle 0 = none ∧ gapOracle 4112 = none ∧
    scan_memory gapOracle gapMemory 0 4112 [0xAB] 1 = some [] ∧
    scan_memory gapOracle gapMemory 4096 4096 [0xAB] 2 = some [4100] :=
  ⟨rfl, rfl,
   (C10_failed_query_ends_walk gapOracle gapMemory [0xAB] 0 rfl).2.1 4112 0,
   ((C10_failed_query_ends_walk gapOracle gapMemory [0xAB] 4112 rfl).2.2 4096 4096 0
      ⟨4096, 16, MEM_COMMIT, PAGE_READWRITE⟩ (by decide) (by decide) rfl (by decide)).trans
      (by decide)⟩

/-! ## The module-name overload and the scan filter -/

theorem scanLoopTraced_fst (query : QueryOracle) (mem : Memory) (pat : List Byte)
    (high : Nat) :
    ∀ (fuel address : Nat) (found : List Nat) (trace : List ScanEvent),
      (scanLoopTraced query mem pat high fuel address found trace).map Prod.fst
        = scanLoop query mem pat high fuel address found
  | 0, _, _, _ => rfl
  | fuel + 1, address, found, trace => by
    unfold scanLoopTraced scanLoop
    by_cases hlt : address < high
    · simp only [hlt, if_true]
      cases hq : query address with
      | none => rfl
      | some mbi =>
        simp only
        cases hr : scanRegion mem pat mbi found with
        | none => rfl
        | some f =>
          simp only
          exact scanLoopTraced_fst query mem pat high fuel _ f _
    · simp only [hlt, if_false]
      rfl

theorem scan_memory_traced_fst (query : QueryOracle) (mem : Memory) (low nbytes : Nat)
    (pat : List Byte) (fuel : Nat) :
    (scan_memory_traced query mem low nbytes pat fuel).map Prod.fst
      = scan_memory query mem low nbytes pat fuel :=
  scanLoopTraced_fst query mem pat _ fuel low [] []

/-- C11: for every module name that the module-resolution oracle reports as not
loaded (null handle) and every byte pattern, the module-name overload of
`scan_memory` returns, whatever the step budget, the empty match list; its
trace holds no region query (and no search), and the call yields a value. -/
theorem C11_module_not_loaded (modules : ModuleOracle) (query : QueryOracle) (mem : Memory)
    (module_name : String) (pat : List Byte) (fuel : Nat)
    (hnull : modules.handle module_name = 0) :
    scan_memory_module modules query mem module_name pat fuel = some ([], []) ∧
    ∀ res trace, scan_memory_module modules query mem module_name pat fuel = some (res, trace) →
      res = [] ∧ queriedAddresses trace = [] ∧ searchedRegions trace = [] := by
  have h : scan_memory_module modules query mem module_name pat fuel = some ([], []) := by
    unfold scan_memory_module
    rw [if_pos hnull]
  refine ⟨h, ?_⟩
  intro res trace hres
  rw [h] at hres
  simp only [Option.some.injEq, Prod.mk.injEq] at hres
  obtain ⟨h1, h2⟩ := hres
  subst h1 h2
  exact ⟨rfl, rfl, rfl⟩

/-- Witness for C11: "user32.dll" is not loaded in `sampleModules`, so the scan
for it returns no match and issues no query, even with no step allowed; the
loaded module "kernel32.dll" is walked, starting with a query at its base. -/
theorem C11_module_not_loaded_witness :
    sampleModules.handle "user32.dll" = 0 ∧
    scan_memory_module sampleModules adjacentOracle straddleMemory "user32.dll" [0x41] 0
      = some ([], []) ∧
    (scan_memory_module sampleModules adjacentOracle straddleMemory "kernel32.dll" [0x41] 3).map
      (fun r => (r.1, queriedAddresses r.2)) = some ([0x1003], [0x1000, 0x1004]) :=
  ⟨by decide,
   (C11_module_not_loaded sampleModules adjacentOracle straddleMemory "user32.dll" [0x41] 0
      (by decide)).1,
   by decide⟩

theorem nat_or_eq_zero (u v : Nat) : u ||| v = 0 ↔ u = 0 ∧ v = 0 := by
  constructor
  · intro h
    have hb : ∀ i, (u.testBit i || v.testBit i) = false := by
      intro i
      rw [← Nat.testBit_or, h, Nat.zero_testBit]
    constructor
    · apply Nat.zero_of_testBit_eq_false
      intro i
      have := hb i
      rw [Bool.or_eq_false_iff] at this
      exact this.1
    · apply Nat.zero_of_testBit_eq_false
      intro i
      have := hb i
      rw [Bool.or_eq_false_iff] at this
      exact this.2
  · rintro ⟨rfl, rfl⟩
    rfl

theorem and_pmask_eq_zero (x : Nat) :
    x &&& pmask = 0 ↔
      x &&& PAGE_READONLY = 0 ∧ x &&& PAGE_READWRITE = 0 ∧ x &&& PAGE_WRITECOPY = 0 ∧
      x &&& PAGE_EXECUTE = 0 ∧ x &&& PAGE_EXECUTE_READ = 0 ∧
      x &&& PAGE_EXECUTE_READWRITE = 0 ∧ x &&& PAGE_EXECUTE_WRITECOPY = 0 := by
  unfold pmask
  simp only [Nat.and_or_distrib_left, nat_or_eq_zero]
  tauto

/-- C12: `scan_memory` searches the region of a reply if and only if its state
is Committed, the Guard bit (0x100) is not set in its protection, and the
protection has at least one of the bits Read(0x02), ReadWrite(0x04),
CopyOnWrite(0x08), Execute(0x10), ExecuteRead(0x20), ExecuteReadWrite(0x40),
ExecuteCopyOnWrite(0x80) set; a committed region whose protection is only
NoAccess(0x01) is never searched. -/
theorem C12_scan_policy (mbi : MEMORY_BASIC_INFORMATION) :
    (ScanPolicy mbi = true ↔
      mbi.State = MEM_COMMIT ∧ mbi.Protect &&& 0x100 = 0 ∧
      (mbi.Protect &&& 0x02 ≠ 0 ∨ mbi.Protect &&& 0x04 ≠ 0 ∨ mbi.Protect &&& 0x08 ≠ 0 ∨
       mbi.Protect &&& 0x10 ≠ 0 ∨ mbi.Protect &&& 0x20 ≠ 0 ∨ mbi.Protect &&& 0x40 ≠ 0 ∨
       mbi.Protect &&& 0x80 ≠ 0)) ∧
    (ScanEvent.search mbi ∈ searchEvents mbi ↔ ScanPolicy mbi = true) ∧
    (∀ (mem : Memory) (pat : List Byte) (found : List Nat),
      scanRegion mem pat mbi found =
        if ScanPolicy mbi = true then
          searchRegion (regionBytes mem mbi.BaseAddress mbi.RegionSize) pat mbi.BaseAddress found
        else some found) ∧
    (∀ (base size : Nat), ScanPolicy ⟨base, size, MEM_COMMIT, 0x01⟩ = false) := by
  refine ⟨?_, ?_, ?_, ?_⟩
  · have hmask := and_pmask_eq_zero mbi.Protect
    unfold ScanPolicy
    simp only [Bool.and_eq_true, beq_iff_eq, bne_iff_ne, ne_eq, hmask]
    unfold PAGE_GUARD PAGE_READONLY PAGE_READWRITE PAGE_WRITECOPY PAGE_EXECUTE
      PAGE_EXECUTE_READ PAGE_EXECUTE_READWRITE PAGE_EXECUTE_WRITECOPY
    tauto
  · unfold searchEvents
    by_cases h : ScanPolicy mbi = true <;> simp [h]
  · intro mem pat found
    unfold scanRegion
    by_cases h : ScanPolicy mbi = true <;> simp [h]
  · intro base size
    simp only [ScanPolicy]
    decide

/-! ## Order of the matches -/

theorem searchedRegions_append (t1 t2 : List ScanEvent) :
    searchedRegions (t1 ++ t2) = searchedRegions t1 ++ searchedRegions t2 := by
  simp [searchedRegions, List.filterMap_append]

theorem queriedAddresses_append (t1 t2 : List ScanEvent) :
    queriedAddresses (t1 ++ t2) = queriedAddresses t1 ++ queriedAddresses t2 := by
  simp [queriedAddresses, List.filterMap_append]

theorem searchedRegions_step (address : Nat) (mbi : MEMORY_BASIC_INFORMATION) :
    searchedRegions (ScanEvent.query address :: searchEvents mbi)
      = if ScanPolicy mbi = true then [mbi] else [] := by
  unfold searchEvents searchedRegions
  by_cases h : ScanPolicy mbi = true <;> simp [h]

theorem queriedAddresses_step (address : Nat) (mbi : MEMORY_BASIC_INFORMATION) :
    queriedAddresses (ScanEvent.query address :: searchEvents mbi) = [address] := by
  unfold searchEvents queriedAddresses
  by_cases h : ScanPolicy mbi = true <;> simp [h]

theorem scanLoopTraced_spec (query : QueryOracle) (mem : Memory) (pat : List Byte)
    (hp : pat ≠ []) (high : Nat) :
    ∀ (fuel address : Nat) (found : List Nat) (trace : List ScanEvent)
      (res : List Nat) (tr : List ScanEvent),
      scanLoopTraced query mem pat high fuel address found trace = some (res, tr) →
      ∃ ext, tr = trace ++ ext ∧
        res = found ++ (searchedRegions ext).flatMap (regionMatches mem pat) ∧
        searchedRegions ext
          = ((queriedAddresses ext).filterMap query).filter (fun r => ScanPolicy r)
  | 0, _, _, _, _, _, h => by simp [scanLoopTraced] at h
  | fuel + 1, address, found, trace, res, tr, h => by
    unfold scanLoopTraced at h
    by_cases hlt : address < high
    · simp only [hlt, if_true] at h
      cases hq : query address with
      | none =>
        simp only [hq, Option.some.injEq, Prod.mk.injEq] at h
        obtain ⟨h1, h2⟩ := h
        subst h1 h2
        refine ⟨[ScanEvent.query address], rfl, ?_, ?_⟩
        · simp [searchedRegions]
        · simp [searchedRegions, queriedAddresses, hq]
      | some mbi =>
        simp only [hq, scanRegion_spec mem pat hp] at h
        obtain ⟨ext, h1, h2, h3⟩ := scanLoopTraced_spec query mem pat hp high fuel _ _ _ res tr h
        refine ⟨ScanEvent.query address :: searchEvents mbi ++ ext, ?_, ?_, ?_⟩
        · rw [h1, List.append_assoc]
        · rw [h2, searchedRegions_append, searchedRegions_step, List.flatMap_append,
            List.append_assoc]
          by_cases hpol : ScanPolicy mbi = true <;> simp [hpol]
        · rw [searchedRegions_append, queriedAddresses_append, searchedRegions_step,
            queriedAddresses_step, h3]
          by_cases hpol : ScanPolicy mbi = true <;> simp [hpol, hq]
    · simp only [hlt, if_false, Option.some.injEq, Prod.mk.injEq] at h
      obtain ⟨h1, h2⟩ := h
      subst h1 h2
      exact ⟨[], by simp, by simp [searchedRegions], by simp [searchedRegions, queriedAddresses]⟩

theorem regionMatches_sorted (mem : Memory) (pat : List Byte)
    (mbi : MEMORY_BASIC_INFORMATION) : (regionMatches mem pat mbi).Sorted (· < ·) := by
  unfold regionMatches
  exact List.Pairwise.map _ (fun a b hab => Nat.add_lt_add_left hab _) (occurrences_sorted _ _)

theorem flatMap_regionMatches_sorted (mem : Memory) (pat : List Byte) (hp : pat ≠ [])
    (regions : List MEMORY_BASIC_INFORMATION) (h : VisitedAscending regions) :
    (regions.flatMap (regionMatches mem pat)).Sorted (· < ·) := by
  have hm : 0 < pat.length := List.length_pos.mpr hp
  unfold List.flatMap List.Sorted
  rw [List.pairwise_flatten]
  constructor
  · intro l hl
    rw [List.mem_map] at hl
    obtain ⟨r, _, rfl⟩ := hl
    exact regionMatches_sorted mem pat r
  · rw [List.pairwise_map]
    refine List.Pairwise.imp ?_ h
    intro r1 r2 h12 x hx y hy
    have h1 := mem_regionMatches mem pat r1 x hx
    have h2 := mem_regionMatches mem pat r2 y hy
    omega

theorem scanLoopTraced_ascending (query : QueryOracle) (mem : Memory) (pat : List Byte)
    (hp : pat ≠ []) (high : Nat) (hpart : PartitionOracle query)
    (hwrap : NoWrapBelow query high) :
    ∀ (fuel address : Nat) (found : List Nat) (trace : List ScanEvent)
      (res : List Nat) (tr : List ScanEvent),
      SearchedBelow query address trace →
      scanLoopTraced query mem pat high fuel address found trace = some (res, tr) →
      VisitedAscending (searchedRegions tr)
  | 0, _, _, _, _, _, _, h => by simp [scanLoopTraced] at h
  | fuel + 1, address, found, trace, res, tr, hinv, h => by
    unfold scanLoopTraced at h
    by_cases hlt : address < high
    · simp only [hlt, if_true] at h
      cases hq : query address with
      | none =>
        simp only [hq, Option.some.injEq, Prod.mk.injEq] at h
        rw [← h.2, searchedRegions_append]
        simpa [searchedRegions] using hinv.1
      | some mbi =>
        simp only [hq, scanRegion_spec mem pat hp] at h
        have hw := hwrap address mbi hlt hq
        obtain ⟨hpos, hlo, hhi⟩ := hpart.1 address mbi hq
        rw [Nat.mod_eq_of_lt hw] at h
        refine scanLoopTraced_ascending query mem pat hp high hpart hwrap fuel _ _ _ res tr ?_ h
        obtain ⟨hasc, hall⟩ := hinv
        have hold : ∀ r ∈ searchedRegions trace,
            r.BaseAddress + r.RegionSize ≤ address + mbi.RegionSize ∧ ∃ c, query c = some r := by
          intro r hr
          obtain ⟨h1, h2⟩ := hall r hr
          exact ⟨by omega, h2⟩
        unfold SearchedBelow
        rw [searchedRegions_append, searchedRegions_step]
        by_cases hpol : ScanPolicy mbi = true
        · simp only [hpol, if_true]
          constructor
          · unfold VisitedAscending
            rw [List.pairwise_append]
            refine ⟨hasc, List.pairwise_singleton _ _, ?_⟩
            intro r hr r' hr'
            rw [List.mem_singleton] at hr'
            subst hr'
            obtain ⟨h1, c, hc⟩ := hall r hr
            have hrpos := (hpart.1 c r hc).1
            rcases hpart.2 c address r r' hc hq with ⟨e1, e2⟩ | h3 | h3 <;> omega
          · intro r hr
            rw [List.mem_append, List.mem_singleton] at hr
            rcases hr with hr | hr
            · exact hold r hr
            · subst hr
              exact ⟨by omega, address, hq⟩
        · simp only [hpol, if_false, Bool.false_eq_true, List.append_nil]
          exact ⟨hasc, hold⟩
    · simp only [hlt, if_false, Option.some.injEq, Prod.mk.injEq] at h
      rw [← h.2]
      exact hinv.1

/-- C14: for every scan range, query oracle and non-empty pattern, the list
returned by `scan_memory` is the concatenation, in the order of the walk, of the
match lists of the regions searched (the accepted replies at the cursors
queried), each list in ascending order; consequently, when the regions searched
are visited in ascending address order without overlap, the returned addresses
are strictly ascending and free of duplicates, and this is the case for every
oracle that describes a partition into non-overlapping regions, as long as the
cursor does not wrap around, the walk then also coming to an end. -/
theorem C14_match_order (query : QueryOracle) (mem : Memory) (pat : List Byte)
    (hp : pat ≠ []) :
    (∀ (low nbytes fuel : Nat) (res : List Nat) (trace : List ScanEvent),
      scan_memory_traced query mem low nbytes pat fuel = some (res, trace) →
      scan_memory query mem low nbytes pat fuel = some res ∧
      res = (searchedRegions trace).flatMap (regionMatches mem pat) ∧
      searchedRegions trace
        = ((queriedAddresses trace).filterMap query).filter (fun r => ScanPolicy r) ∧
      (∀ r ∈ searchedRegions trace, (regionMatches mem pat r).Sorted (· < ·)) ∧
      (VisitedAscending (searchedRegions trace) → res.Sorted (· < ·) ∧ res.Nodup)) ∧
    (∀ (low nbytes : Nat), PartitionOracle query →
      NoWrapBelow query ((low + nbytes) % WORD64) →
      ∃ res trace,
        scan_memory_traced query mem low nbytes pat ((low + nbytes) % WORD64 - low + 1)
          = some (res, trace) ∧
        VisitedAscending (searchedRegions trace) ∧ res.Sorted (· < ·) ∧ res.Nodup) := by
  have first : ∀ (low nbytes fuel : Nat) (res : List Nat) (trace : List ScanEvent),
      scan_memory_traced query mem low nbytes pat fuel = some (res, trace) →
      scan_memory query mem low nbytes pat fuel = some res ∧
      res = (searchedRegions trace).flatMap (regionMatches mem pat) ∧
      searchedRegions trace
        = ((queriedAddresses trace).filterMap query).filter (fun r => ScanPolicy r) ∧
      (∀ r ∈ searchedRegions trace, (regionMatches mem pat r).Sorted (· < ·)) ∧
      (VisitedAscending (searchedRegions trace) → res.Sorted (· < ·) ∧ res.Nodup) := by
    intro low nbytes fuel res trace h
    have hfst := scan_memory_traced_fst query mem low nbytes pat fuel
    rw [h] at hfst
    obtain ⟨ext, h1, h2, h3⟩ := scanLoopTraced_spec query mem pat hp _ fuel low [] [] res trace h
    rw [List.nil_append] at h1 h2
    subst h1
    refine ⟨hfst.symm, h2, h3, fun r _ => regionMatches_sorted mem pat r, ?_⟩
    intro hasc
    have hs := flatMap_regionMatches_sorted mem pat hp _ hasc
    rw [← h2] at hs
    exact ⟨hs, hs.nodup⟩
  refine ⟨first, ?_⟩
  intro low nbytes hpart hwrap
  obtain ⟨res, hres⟩ := scanLoop_terminates query mem pat ((low + nbytes) % WORD64)
    (fun a mbi ha hq => ⟨(hpart.1 a mbi hq).1, hwrap a mbi ha hq⟩)
    ((low + nbytes) % WORD64 - low + 1) low [] (by omega)
  have hfst := scanLoopTraced_fst query mem pat ((low + nbytes) % WORD64)
    ((low + nbytes) % WORD64 - low + 1) low [] []
  rw [hres] at hfst
  obtain ⟨⟨res', trace⟩, htr, hr⟩ := Option.map_eq_some'.mp hfst
  simp only at hr
  subst hr
  have hasc := scanLoopTraced_ascending query mem pat hp _ hpart hwrap _ low [] [] res' trace
    ⟨List.Pairwise.nil, fun r hr => absurd hr (by simp [searchedRegions])⟩ htr
  exact ⟨res', trace, htr, hasc, ((first low nbytes _ res' trace htr).2.2.2.2 hasc)⟩

/-- Witness for C14: the scan of the two adjacent regions of `adjacentOracle`
for the zero byte returns the three matches of the first region followed by the
three of the second, in strictly ascending order. -/
theorem C14_match_order_witness :
    scan_memory adjacentOracle straddleMemory 0x1000 8 [0] 3
      = some [0x1000, 0x1001, 0x1002, 0x1005, 0x1006, 0x1007] ∧
    [0x1000, 0x1001, 0x1002, 0x1005, 0x1006, 0x1007].Sorted (· < ·) ∧
    [0x1000, 0x1001, 0x1002, 0x1005, 0x1006, 0x1007].Nodup :=
  have h := (C14_match_order adjacentOracle straddleMemory [0] (by decide)).1 0x1000 8 3
    [0x1000, 0x1001, 0x1002, 0x1005, 0x1006, 0x1007]
    [ScanEvent.query 0x1000, ScanEvent.search ⟨0x1000, 4, MEM_COMMIT, PAGE_READWRITE⟩,
     ScanEvent.query 0x1004, ScanEvent.search ⟨0x1004, 4, MEM_COMMIT, PAGE_READONLY⟩]
    (by decide)
  ⟨h.1, (h.2.2.2.2 (by decide)).1, (h.2.2.2.2 (by decide)).2⟩

/-! ## The requested range and the regions searched -/

theorem regionBytes_window (mem : Memory) (base size i m : Nat) (h : i + m ≤ size) :
    ((regionBytes mem base size).drop i).take m = regionBytes mem (base + i) m := by
  apply List.ext_getElem
  · simp only [regionBytes, List.length_take, List.length_drop, List.length_map,
      List.length_range]
    omega
  · intro n h1 h2
    simp [regionBytes, Nat.add_assoc]

theorem mem_regionMatches_iff (mem : Memory) (pat : List Byte)
    (mbi : MEMORY_BASIC_INFORMATION) (a : Nat) :
    a ∈ regionMatches mem pat mbi ↔
      mbi.BaseAddress ≤ a ∧ a + pat.length ≤ mbi.BaseAddress + mbi.RegionSize ∧
      regionBytes mem a pat.length = pat := by
  unfold regionMatches
  rw [List.mem_map]
  constructor
  · rintro ⟨i, hi, rfl⟩
    rw [mem_occurrences, regionBytes_length] at hi
    rw [regionBytes_window mem _ _ i _ hi.1] at hi
    exact ⟨by omega, by omega, hi.2⟩
  · rintro ⟨h1, h2, h3⟩
    refine ⟨a - mbi.BaseAddress, ?_, by omega⟩
    rw [mem_occurrences, regionBytes_length,
      regionBytes_window mem _ _ (a - mbi.BaseAddress) _ (by omega)]
    have e : mbi.BaseAddress + (a - mbi.BaseAddress) = a := by omega
    rw [e]
    exact ⟨by omega, h3⟩

theorem scanLoopTraced_cursors (query : QueryOracle) (mem : Memory) (pat : List Byte)
    (high : Nat) :
    ∀ (fuel address : Nat) (found : List Nat) (trace : List ScanEvent)
      (res : List Nat) (tr : List ScanEvent),
      scanLoopTraced query mem pat high fuel address found trace = some (res, tr) →
      ∃ ext, tr = trace ++ ext ∧
        ∀ c ∈ queriedAddresses ext, c < high ∧ (NoWrapBelow query high → address ≤ c)
  | 0, _, _, _, _, _, h => by simp [scanLoopTraced] at h
  | fuel + 1, address, found, trace, res, tr, h => by
    unfold scanLoopTraced at h
    by_cases hlt : address < high
    · simp only [hlt, if_true] at h
      cases hq : query address with
      | none =>
        simp only [hq, Option.some.injEq, Prod.mk.injEq] at h
        refine ⟨[ScanEvent.query address], h.2.symm, ?_⟩
        intro c hc
        simp only [queriedAddresses, List.filterMap_cons, List.filterMap_nil,
          List.mem_singleton] at hc
        subst hc
        exact ⟨hlt, fun _ => Nat.le_refl _⟩
      | some mbi =>
        simp only [hq] at h
        cases hr : scanRegion mem pat mbi found with
        | none => simp [hr] at h
        | some f =>
          simp only [hr] at h
          obtain ⟨ext, h1, h2⟩ := scanLoopTraced_cursors query mem pat high fuel _ _ _ _ _ h
          refine ⟨ScanEvent.query address :: searchEvents mbi ++ ext, ?_, ?_⟩
          · rw [h1, List.append_assoc]
          · intro c hc
            rw [queriedAddresses_append] at hc
            rw [List.mem_append] at hc
            rcases hc with hc | hc
            · have e : queriedAddresses (ScanEvent.query address :: searchEvents mbi)
                  = [address] := by
                unfold searchEvents queriedAddresses
                split <;> rfl
              rw [e, List.mem_singleton] at hc
              subst hc
              exact ⟨hlt, fun _ => Nat.le_refl _⟩
            · obtain ⟨g1, g2⟩ := h2 c hc
              refine ⟨g1, fun hwrap => ?_⟩
              have := g2 hwrap
              rw [Nat.mod_eq_of_lt (hwrap address mbi hlt hq)] at this
              omega
    · simp only [hlt, if_false, Option.some.injEq, Prod.mk.injEq] at h
      exact ⟨[], by rw [List.append_nil]; exact h.2.symm, fun c hc => by
        simp [queriedAddresses] at hc⟩

theorem narrowOracle_contains :
    ∀ a mbi, narrowOracle a = some mbi →
      mbi.BaseAddress ≤ a ∧ a < mbi.BaseAddress + mbi.RegionSize := by
  intro a mbi h
  unfold narrowOracle at h
  split at h
  · simp only [Option.some.injEq] at h
    subst h
    simp only
    omega
  · simp at h

/-- C18 (as stated) fails: `narrowOracle` returns, for a queried address, the
region `[0x1000, 0x1010)` containing it; the scan of the range `[0x1008, 0x100C)`
for the byte 0xAB returns 0x1002, which lies before the lower bound, and 0x100E,
which lies beyond the upper bound. -/
theorem C18_counterexample :
    (∀ a mbi, narrowOracle a = some mbi →
      mbi.BaseAddress ≤ a ∧ a < mbi.BaseAddress + mbi.RegionSize) ∧
    scan_memory narrowOracle narrowMemory 0x1008 4 [0xAB] 2 = some [0x1002, 0x100E] ∧
    ¬ (0x1008 ≤ 0x1002) ∧ ¬ (0x100E + [0xAB].length ≤ 0x1008 + 4) :=
  ⟨narrowOracle_contains, by decide, by decide, by decide⟩

/-- C18 (amended): for every address low, size nbytes, non-empty pattern p of
length m and every query oracle that returns a region containing the queried
address, in a run of `scan_memory(low, nbytes, p)` that returns, every cursor c
at which the walk queries lies below the upper bound `low + nbytes` (and at or
above `low` when the cursor does not wrap around), and the addresses returned
are exactly the matches of p that lie wholly inside a region that passes the
filter and was the reply at such a cursor: region start `<= a`,
`a + m <=` region end, and the m bytes at `a` are p.  The region is searched
as a whole, so the matches in its part before `low` or beyond the upper bound
are returned too. -/
theorem C18_results_in_visited_regions (query : QueryOracle) (mem : Memory)
    (low nbytes : Nat) (pat : List Byte) (fuel : Nat) (res : List Nat)
    (trace : List ScanEvent) (hp : pat ≠ [])
    (hcontains : ∀ a mbi, query a = some mbi →
      mbi.BaseAddress ≤ a ∧ a < mbi.BaseAddress + mbi.RegionSize)
    (hres : scan_memory_traced query mem low nbytes pat fuel = some (res, trace)) :
    scan_memory query mem low nbytes pat fuel = some res ∧
    (∀ c ∈ queriedAddresses trace,
      c < (low + nbytes) % WORD64 ∧
      (NoWrapBelow query ((low + nbytes) % WORD64) → low ≤ c)) ∧
    (∀ a, a ∈ res ↔ ∃ c mbi,
      c ∈ queriedAddresses trace ∧ query c = some mbi ∧ ScanPolicy mbi = true ∧
      mbi.BaseAddress ≤ c ∧ c < mbi.BaseAddress + mbi.RegionSize ∧
      a ∈ regionMatches mem pat mbi) ∧
    (∀ a mbi, a ∈ regionMatches mem pat mbi ↔
      mbi.BaseAddress ≤ a ∧ a + pat.length ≤ mbi.BaseAddress + mbi.RegionSize ∧
      regionBytes mem a pat.length = pat) := by
  have hfst := scan_memory_traced_fst query mem low nbytes pat fuel
  rw [hres] at hfst
  obtain ⟨ext1, he1, hcur⟩ := scanLoopTraced_cursors query mem pat _ fuel low [] [] res trace hres
  obtain ⟨ext2, he2, hr, hs⟩ := scanLoopTraced_spec query mem pat hp _ fuel low [] [] res trace hres
  rw [List.nil_append] at he1 he2
  subst he1
  subst he2
  rw [List.nil_append] at hr
  refine ⟨hfst.symm, hcur, ?_, fun a mbi => mem_regionMatches_iff mem pat mbi a⟩
  intro a
  rw [hr, hs, List.mem_flatMap]
  constructor
  · rintro ⟨mbi, hmem, ha⟩
    rw [List.mem_filter, List.mem_filterMap] at hmem
    obtain ⟨⟨c, hc, hq⟩, hpol⟩ := hmem
    obtain ⟨g1, g2⟩ := hcontains c mbi hq
    exact ⟨c, mbi, hc, hq, hpol, g1, g2, ha⟩
  · rintro ⟨c, mbi, hc, hq, hpol, _, _, ha⟩
    refine ⟨mbi, ?_, ha⟩
    rw [List.mem_filter, List.mem_filterMap]
    exact ⟨⟨c, hc, hq⟩, hpol⟩

/-- Witness for C18 (amended): the scan of `[0x1008, 0x100C)` with
`narrowOracle` queries at the cursor 0x1008 only and searches the whole region
`[0x1000, 0x1010)`; the address 0x1002, before the lower bound, is returned
because it is a match inside that region. -/
theorem C18_results_in_visited_regions_witness :
    scan_memory_traced narrowOracle narrowMemory 0x1008 4 [0xAB] 2
      = some ([0x1002, 0x100E],
          [ScanEvent.query 0x1008, ScanEvent.search ⟨0x1000, 16, MEM_COMMIT, PAGE_READWRITE⟩]) ∧
    (0x1002 ∈ [0x1002, 0x100E] ↔ ∃ c mbi,
      c ∈ queriedAddresses
        [ScanEvent.query 0x1008, ScanEvent.search ⟨0x1000, 16, MEM_COMMIT, PAGE_READWRITE⟩] ∧
      narrowOracle c = some mbi ∧ ScanPolicy mbi = true ∧
      mbi.BaseAddress ≤ c ∧ c < mbi.BaseAddress + mbi.RegionSize ∧
      0x1002 ∈ regionMatches narrowMemory [0xAB] mbi) :=
  ⟨by decide,
   (C18_results_in_visited_regions narrowOracle narrowMemory 0x1008 4 [0xAB] 2
     [0x1002, 0x100E]
     [ScanEvent.query 0x1008, ScanEvent.search ⟨0x1000, 16, MEM_COMMIT, PAGE_READWRITE⟩]
     (by decide) narrowOracle_contains (by decide)).2.2.1 0x1002⟩

/-! ## Width of the hexadecimal field of the diagnostics -/

theorem hexDigits_length_le (x e : Nat) (hx : x < 16 ^ e) (he : 0 < e) :
    (hexDigits x).length ≤ e :=
  Nat.toDigitsCore_length 16 (by omega) (x + 1) x e hx he

theorem print_hex_length (x width : Nat) :
    (print_hex x width).length = max width (hexDigits x).length := by
  unfold print_hex
  rw [List.length_append, List.length_replicate]
  omega

theorem print_hex_length_eq (x width : Nat) (hw : 0 < width) (hx : x < 16 ^ width) :
    (print_hex x width).length = width := by
  rw [print_hex_length]
  have := hexDigits_length_le x width hx hw
  omega

theorem print_address_length (x : Nat) :
    (x < 0x100 → (print_address x).length = 2) ∧
    (0x100 ≤ x → x < 0x10000 → (print_address x).length = 4) ∧
    (0x10000 ≤ x → x < 0x100000000 → (print_address x).length = 8) ∧
    (0x100000000 ≤ x → x < 2 ^ 64 → (print_address x).length = 16) := by
  unfold print_address
  refine ⟨?_, ?_, ?_, ?_⟩
  · intro h
    rw [if_pos h]
    exact print_hex_length_eq x 2 (by omega) (by omega)
  · intro h1 h2
    rw [if_neg (by omega), if_pos h2]
    exact print_hex_length_eq x 4 (by omega) (by omega)
  · intro h1 h2
    rw [if_neg (by omega), if_neg (by omega), if_pos h2]
    exact print_hex_length_eq x 8 (by omega) (by omega)
  · intro h1 h2
    rw [if_neg (by omega), if_neg (by omega), if_neg (by omega)]
    exact print_hex_length_eq x 16 (by omega) (by omega)

/-- C16 (as stated) fails: in the run `openFailsEnv` the call of `OpenProcess`
fails with error 5, which is below 0x100; the diagnostic line is
"OpenProcess() failed with error 5 (0x00000005)", with 8 hexadecimal digits,
not the 2 digits "05" that the width chosen by magnitude would give. -/
theorem C16_counterexample :
    dump_process_memory openFailsEnv 42 0 =
      some (DumpResult.openFailed, none,
        [DumpEvent.attach 42, DumpEvent.openProcess 42, DumpEvent.openError 5,
         DumpEvent.detach 42, DumpEvent.detachError 6]) ∧
    5 < 0x100 ∧
    cerrLine (DumpEvent.openError 5)
      = some (String.toList "OpenProcess() failed with error 5 (0x00000005)\n") ∧
    cerrLine (DumpEvent.openError 5)
      ≠ some (String.toList "OpenProcess() failed with error 5 (0x05)\n") ∧
    print_address 5 = String.toList "05" :=
  ⟨by decide, by decide, by decide, by decide, by decide⟩

/-- C16 (amended): for every 32-bit error code e reported by a failing
collaborator call (attach, detach, open, read), the diagnostic line written to
`std::cerr` is the name of the call, " failed with error ", e in decimal, and
in parentheses "0x" followed by the hexadecimal digits of e padded on the left
with zeros to exactly 8 characters, whatever the magnitude of e (for e below
0x10000 this is longer than the width chosen by magnitude); a run in which the
attach fails, or in which the open fails and the detach succeeds, writes
exactly that line to `std::cerr`.  The width chosen by magnitude (2, 4, 8 or
16 digits) is that of `print_address`, which only the partial-read warning
uses, for the start address of the region. -/
theorem C16_error_hex_width (e : Nat) (he : e < 0x100000000) :
    cerrLine (DumpEvent.attachError e)
      = some (String.toList "DebugActiveProcess() failed with error " ++ decDigits e
          ++ String.toList " (0x" ++ print_hex e 8 ++ String.toList ")\n") ∧
    cerrLine (DumpEvent.detachError e)
      = some (String.toList "DebugActiveProcessStop() failed with error " ++ decDigits e
          ++ String.toList " (0x" ++ print_hex e 8 ++ String.toList ")\n") ∧
    cerrLine (DumpEvent.openError e)
      = some (String.toList "OpenProcess() failed with error " ++ decDigits e
          ++ String.toList " (0x" ++ print_hex e 8 ++ String.toList ")\n") ∧
    cerrLine (DumpEvent.readError e)
      = some (String.toList "ReadProcessMemory() failed with error " ++ decDigits e
          ++ String.toList " (0x" ++ print_hex e 8 ++ String.toList ")\n") ∧
    (print_hex e 8).length = 8 ∧
    print_hex e 8 = List.replicate (8 - (hexDigits e).length) '0' ++ hexDigits e ∧
    (e < 0x10000 → (print_address e).length < (print_hex e 8).length) ∧
    (∀ (env : DumpEnvironment) (pid fuel : Nat), env.attachError = some e →
      ∃ trace, dump_process_memory env pid fuel = some (DumpResult.exception, none, trace) ∧
        cerrText trace
          = String.toList "DebugActiveProcess() failed with error " ++ decDigits e
            ++ String.toList " (0x" ++ print_hex e 8 ++ String.toList ")\n") ∧
    (∀ (env : DumpEnvironment) (pid fuel : Nat), env.attachError = none →
      env.openError = some e → env.detachError = none →
      ∃ trace, dump_process_memory env pid fuel = some (DumpResult.openFailed, none, trace) ∧
        cerrText trace
          = String.toList "OpenProcess() failed with error " ++ decDigits e
            ++ String.toList " (0x" ++ print_hex e 8 ++ String.toList ")\n") ∧
    (∀ (address size read : Nat),
      cerrLine (DumpEvent.warning address size read)
        = some (String.toList "Warning: region starting at 0x" ++ print_address address
            ++ String.toList " has size " ++ decDigits size
            ++ String.toList ", but only " ++ decDigits read
            ++ String.toList " bytes could be read by ReadProcessMemory().\n") ∧
      (address < 0x100 → (print_address address).length = 2) ∧
      (0x100 ≤ address → address < 0x10000 → (print_address address).length = 4) ∧
      (0x10000 ≤ address → address < 0x100000000 → (print_address address).length = 8) ∧
      (0x100000000 ≤ address → address < 2 ^ 64 → (print_address address).length = 16)) := by
  have hlen := print_hex_length_eq e 8 (by omega) (by omega)
  refine ⟨rfl, rfl, rfl, rfl, hlen, rfl, ?_, ?_, ?_, ?_⟩
  · intro h
    rw [hlen]
    obtain ⟨h1, h2, _, _⟩ := print_address_length e
    by_cases h3 : e < 0x100
    · rw [h1 h3]
      omega
    · rw [h2 (by omega) h]
      omega
  · intro env pid fuel hatt
    refine ⟨_, by rw [dump_process_memory, hatt], ?_⟩
    simp [cerrText, cerrLine, errorLine, PRINT_HEX_DEFAULT_WIDTH]
  · intro env pid fuel hatt hopen hdet
    refine ⟨_, by rw [dump_process_memory, hatt, hopen], ?_⟩
    simp [cerrText, cerrLine, errorLine, PRINT_HEX_DEFAULT_WIDTH, detachEvents, hdet]
  · intro address size read
    exact ⟨rfl, print_address_length address⟩

/-- Witness for C16 (amended): the error code 299 of a failed read is printed
with 8 hexadecimal digits, and so is the error code 87 in the run
`attachFailsEnv`, where the attach fails. -/
theorem C16_error_hex_width_witness :
    cerrLine (DumpEvent.readError 299)
      = some (String.toList "ReadProcessMemory() failed with error 299 (0x0000012b)\n") ∧
    (print_hex 299 8).length = 8 ∧
    ∃ trace, dump_process_memory attachFailsEnv 42 0
        = some (DumpResult.exception, none, trace) ∧
      cerrText trace
        = String.toList "DebugActiveProcess() failed with error " ++ decDigits 87
          ++ String.toList " (0x" ++ print_hex 87 8 ++ String.toList ")\n" :=
  ⟨(C16_error_hex_width 299 (by decide)).2.2.2.1.trans (by decide),
   (C16_error_hex_width 299 (by decide)).2.2.2.2.1,
   (C16_error_hex_width 87 (by decide)).2.2.2.2.2.2.2.1 attachFailsEnv 42 0 rfl⟩

/-! ## The trace of a whole run of `dump_process_memory` -/

theorem dumpLoop_trace_ext (alloc : AllocOracle) (rd : ReadOracle) :
    ∀ (rs : List memory_region) (index : Nat) (st : DumpState),
      ∃ ext, (dumpLoop alloc rd rs index st).1.trace = st.trace ++ ext ∧
        ∀ e ∈ ext, e.isLoopEvent = true
  | [], _, st => ⟨[], by simp [dumpLoop], fun e he => absurd he (List.not_mem_nil e)⟩
  | region :: rest, index, st => by
    unfold dumpLoop
    split
    · split
      · refine ⟨_, rfl, ?_⟩
        intro e he
        simp only [List.mem_cons, List.mem_singleton, List.not_mem_nil, or_false] at he
        rcases he with rfl | rfl <;> rfl
      · obtain ⟨ext, h1, h2⟩ := dumpLoop_trace_ext alloc rd rest (index + 1)
          { file := (st.file.seekp region.start).write
              (regionBuffer region.size (rd index region.start region.size))
            trace := st.trace ++
              ([DumpEvent.read index region.start region.size] ++
               (if (rd index region.start region.size).transferred.length < region.size then
                  [DumpEvent.warning region.start region.size
                    (rd index region.start region.size).transferred.length]
                else []) ++
               [DumpEvent.seekp region.start,
                DumpEvent.write index
                  (regionBuffer region.size (rd index region.start region.size))]) }
        refine ⟨_, by rw [h1, List.append_assoc], ?_⟩
        intro e he
        rw [List.mem_append] at he
        rcases he with he | he
        · rw [List.mem_append, List.mem_append] at he
          rcases he with (he | he) | he
          · rw [List.mem_singleton] at he; subst he; rfl
          · split at he
            · rw [List.mem_singleton] at he; subst he; rfl
            · exact absurd he (List.not_mem_nil e)
          · simp only [List.mem_cons, List.mem_singleton, List.not_mem_nil, or_false] at he
            rcases he with rfl | rfl <;> rfl
        · exact h2 e he
    · exact ⟨[], by rw [List.append_nil], fun e he => absurd he (List.not_mem_nil e)⟩

theorem loopEvent_kinds (e : DumpEvent) (h : e.isLoopEvent = true) :
    e.isDetach = false ∧ e.isClose = false ∧ e.isStatistics = false ∧ e.isOpen = false := by
  cases e <;> simp_all [DumpEvent.isLoopEvent, DumpEvent.isDetach, DumpEvent.isClose,
    DumpEvent.isStatistics, DumpEvent.isOpen]

theorem statisticsEvents_kinds (regions : List memory_region) :
    ∀ e ∈ statisticsEvents regions,
      e.isDetach = false ∧ e.isClose = false ∧ e.isRead = false ∧ e.isText = true := by
  intro e he
  unfold statisticsEvents at he
  split at he
  · exact absurd he (List.not_mem_nil e)
  · simp only [List.mem_cons, List.mem_singleton, List.not_mem_nil, or_false] at he
    rcases he with rfl | rfl <;> exact ⟨rfl, rfl, rfl, rfl⟩

theorem detachEvents_kinds (env : DumpEnvironment) (pid : Nat) :
    (detachEvents env pid).filter DumpEvent.isDetach = [DumpEvent.detach pid] ∧
    collaboratorEvents (detachEvents env pid) = [DumpEvent.detach pid] ∧
    (∀ e ∈ detachEvents env pid, e.isRead = false ∧ e.isClose = false) ∧
    DumpEvent.detach pid ∈ detachEvents env pid := by
  unfold detachEvents collaboratorEvents
  cases env.detachError with
  | none =>
    refine ⟨rfl, rfl, ?_, by simp⟩
    intro e he
    simp only [List.mem_singleton] at he
    subst he
    exact ⟨rfl, rfl⟩
  | some error =>
    refine ⟨rfl, rfl, ?_, by simp⟩
    intro e he
    simp only [List.mem_cons, List.mem_singleton, List.not_mem_nil, or_false] at he
    rcases he with rfl | rfl <;> exact ⟨rfl, rfl⟩

theorem dump_trace_shape (env : DumpEnvironment) (pid fuel : Nat) (res : DumpResult)
    (file : Option OutFile) (trace : List DumpEvent)
    (hrun : dump_process_memory env pid fuel = some (res, file, trace))
    (hatt : env.attachError = none) (hopen : env.openError = none) :
    ∃ regions ext, enumerate env.query fuel = some regions ∧
      trace = [DumpEvent.attach pid, DumpEvent.openProcess pid] ++ statisticsEvents regions
        ++ [DumpEvent.openFile] ++ ext ++ [DumpEvent.closeHandle] ++ detachEvents env pid ∧
      ∀ e ∈ ext, e.isLoopEvent = true := by
  unfold dump_process_memory at hrun
  rw [hatt, hopen] at hrun
  simp only at hrun
  cases henum : enumerate env.query fuel with
  | none => simp [henum] at hrun
  | some regions =>
    simp only [henum, Option.some.injEq, Prod.mk.injEq] at hrun
    obtain ⟨ext, h1, h2⟩ := dumpLoop_trace_ext env.alloc env.read regions 0
      ⟨OutFile.empty, [DumpEvent.attach pid, DumpEvent.openProcess pid]
        ++ statisticsEvents regions ++ [DumpEvent.openFile]⟩
    refine ⟨regions, ext, rfl, ?_, h2⟩
    rw [← hrun.2.2, h1]

theorem filter_nil_of_all {p : DumpEvent → Bool} {l : List DumpEvent}
    (h : ∀ e ∈ l, p e = false) : l.filter p = [] := by
  rw [List.filter_eq_nil_iff]
  intro e he
  rw [h e he]
  simp

/-- C15: in every run of `dump_process_memory` that returns, if the attach
succeeds there is exactly one detach event and it is the last collaborator
event of the run (only the diagnostic line of a failed detach can follow it),
whether the run ends by target-open failure, by a fatal read error or by normal
completion; if the target open succeeds too there is exactly one handle-close
event, after every read and before the detach; if the open fails there is no
handle-close and no read; and if the attach fails there is no open, no read,
no handle-close and no detach event. -/
theorem C15_scoped_release (env : DumpEnvironment) (pid fuel : Nat) (res : DumpResult)
    (file : Option OutFile) (trace : List DumpEvent)
    (hrun : dump_process_memory env pid fuel = some (res, file, trace)) :
    (env.attachError = none →
      trace.filter DumpEvent.isDetach = [DumpEvent.detach pid] ∧
      (collaboratorEvents trace).getLast? = some (DumpEvent.detach pid)) ∧
    (env.attachError = none → env.openError = none →
      trace.filter DumpEvent.isClose = [DumpEvent.closeHandle] ∧
      ∃ pre post, trace = pre ++ DumpEvent.closeHandle :: post ∧
        (∀ e ∈ post, e.isRead = false) ∧ (∀ e ∈ pre, e.isDetach = false) ∧
        DumpEvent.detach pid ∈ post) ∧
    (env.attachError = none → env.openError ≠ none →
      ∀ e ∈ trace, e.isClose = false ∧ e.isRead = false) ∧
    (env.attachError ≠ none →
      ∀ e ∈ trace, e.isOpen = false ∧ e.isRead = false ∧ e.isDetach = false ∧
        e.isClose = false) := by
  obtain ⟨hd1, hd2, hd3, hd4⟩ := detachEvents_kinds env pid
  have openFailed : ∀ error, env.attachError = none → env.openError = some error →
      trace = [DumpEvent.attach pid, DumpEvent.openProcess pid, DumpEvent.openError error]
        ++ detachEvents env pid := by
    intro error hatt hopen
    unfold dump_process_memory at hrun
    rw [hatt, hopen] at hrun
    simp only [Option.some.injEq, Prod.mk.injEq] at hrun
    exact hrun.2.2.symm
  have main : env.attachError = none → env.openError = none →
      trace.filter DumpEvent.isDetach = [DumpEvent.detach pid] ∧
      (collaboratorEvents trace).getLast? = some (DumpEvent.detach pid) ∧
      trace.filter DumpEvent.isClose = [DumpEvent.closeHandle] ∧
      ∃ pre post, trace = pre ++ DumpEvent.closeHandle :: post ∧
        (∀ e ∈ post, e.isRead = false) ∧ (∀ e ∈ pre, e.isDetach = false) ∧
        DumpEvent.detach pid ∈ post := by
    intro hatt hopen
    obtain ⟨regions, ext, _, htrace, hext⟩ := dump_trace_shape env pid fuel res file trace
      hrun hatt hopen
    have hs := statisticsEvents_kinds regions
    have hsd : (statisticsEvents regions).filter DumpEvent.isDetach = [] :=
      filter_nil_of_all (fun e he => (hs e he).1)
    have hsc : (statisticsEvents regions).filter DumpEvent.isClose = [] :=
      filter_nil_of_all (fun e he => (hs e he).2.1)
    have hed : ext.filter DumpEvent.isDetach = [] :=
      filter_nil_of_all (fun e he => (loopEvent_kinds e (hext e he)).1)
    have hec : ext.filter DumpEvent.isClose = [] :=
      filter_nil_of_all (fun e he => (loopEvent_kinds e (hext e he)).2.1)
    have hdc : (detachEvents env pid).filter DumpEvent.isClose = [] :=
      filter_nil_of_all (fun e he => (hd3 e he).2)
    refine ⟨?_, ?_, ?_, ?_⟩
    · rw [htrace]
      simp only [List.filter_append, hsd, hed, hd1]
      rfl
    · rw [htrace]
      unfold collaboratorEvents at hd2 ⊢
      rw [List.filter_append, hd2, List.getLast?_append]
      rfl
    · rw [htrace]
      simp only [List.filter_append, hsc, hec, hdc]
      rfl
    · refine ⟨[DumpEvent.attach pid, DumpEvent.openProcess pid] ++ statisticsEvents regions
        ++ [DumpEvent.openFile] ++ ext, detachEvents env pid, ?_, fun e he => (hd3 e he).1,
        ?_, hd4⟩
      · rw [htrace]
        simp only [List.append_assoc, List.singleton_append]
      · intro e he
        simp only [List.mem_append, List.mem_cons, List.mem_singleton, List.not_mem_nil,
          or_false] at he
        rcases he with (((rfl | rfl) | he) | rfl) | he
        · rfl
        · rfl
        · exact (hs e he).1
        · rfl
        · exact (loopEvent_kinds e (hext e he)).1
  refine ⟨?_, ?_, ?_, ?_⟩
  · intro hatt
    cases hopen : env.openError with
    | none => exact ⟨(main hatt hopen).1, (main hatt hopen).2.1⟩
    | some error =>
      rw [openFailed error hatt hopen]
      constructor
      · rw [List.filter_append, hd1]
        rfl
      · unfold collaboratorEvents at hd2 ⊢
        rw [List.filter_append, hd2, List.getLast?_append]
        rfl
  · intro hatt hopen
    exact (main hatt hopen).2.2
  · intro hatt hopen
    cases hopen' : env.openError with
    | none => exact absurd hopen' hopen
    | some error =>
      rw [openFailed error hatt hopen']
      intro e he
      simp only [List.mem_append, List.mem_cons, List.mem_singleton, List.not_mem_nil,
        or_false] at he
      rcases he with (rfl | rfl | rfl) | he
      · exact ⟨rfl, rfl⟩
      · exact ⟨rfl, rfl⟩
      · exact ⟨rfl, rfl⟩
      · exact ⟨(hd3 e he).2, (hd3 e he).1⟩
  · intro hatt
    cases hatt' : env.attachError with
    | none => exact absurd hatt' hatt
    | some error =>
      unfold dump_process_memory at hrun
      rw [hatt'] at hrun
      simp only [Option.some.injEq, Prod.mk.injEq] at hrun
      rw [← hrun.2.2]
      intro e he
      simp only [List.mem_cons, List.mem_singleton, List.not_mem_nil, or_false] at he
      rcases he with rfl | rfl <;> exact ⟨rfl, rfl, rfl, rfl⟩

/-- Witness for C15: the run `readFailsEnv` ends by a fatal read error on the
second region; its trace has one detach, as the last event, and one
handle-close after the reads. -/
theorem C15_scoped_release_witness :
    dump_process_memory readFailsEnv 7 5 =
      some (DumpResult.readFailed, some ⟨[1, 0, 0, 0], 4, false⟩,
        [DumpEvent.attach 7, DumpEvent.openProcess 7, DumpEvent.flatSizeLine 12,
         DumpEvent.packedSizeLine 12, DumpEvent.openFile, DumpEvent.read 0 0 4,
         DumpEvent.warning 0 4 1, DumpEvent.seekp 0, DumpEvent.write 0 [1, 0, 0, 0],
         DumpEvent.read 1 4 4, DumpEvent.readError 5, DumpEvent.closeHandle,
         DumpEvent.detach 7]) ∧
    List.filter DumpEvent.isDetach
        [DumpEvent.attach 7, DumpEvent.openProcess 7, DumpEvent.flatSizeLine 12,
         DumpEvent.packedSizeLine 12, DumpEvent.openFile, DumpEvent.read 0 0 4,
         DumpEvent.warning 0 4 1, DumpEvent.seekp 0, DumpEvent.write 0 [1, 0, 0, 0],
         DumpEvent.read 1 4 4, DumpEvent.readError 5, DumpEvent.closeHandle,
         DumpEvent.detach 7] = [DumpEvent.detach 7] :=
  ⟨by decide,
   ((C15_scoped_release readFailsEnv 7 5 DumpResult.readFailed (some ⟨[1, 0, 0, 0], 4, false⟩)
      [DumpEvent.attach 7, DumpEvent.openProcess 7, DumpEvent.flatSizeLine 12,
       DumpEvent.packedSizeLine 12, DumpEvent.openFile, DumpEvent.read 0 0 4,
       DumpEvent.warning 0 4 1, DumpEvent.seekp 0, DumpEvent.write 0 [1, 0, 0, 0],
       DumpEvent.read 1 4 4, DumpEvent.readError 5, DumpEvent.closeHandle,
       DumpEvent.detach 7] (by decide)).1 rfl).1⟩

/-! ## Position of the statistics in the trace -/

/-- C17 (as stated) fails: in the run `tinyEnv`, whose snapshot is the one
region `[0, 16)`, the flat-size and packed-size lines are the third and fourth
events of the trace, emitted before the read (sixth event) and the file write
(eighth event) of that region. -/
theorem C17_counterexample :
    enumerate tinyEnv.query 3 = some [⟨0, 16, ⟨0, 16, MEM_COMMIT, PAGE_READWRITE⟩⟩] ∧
    dump_process_memory tinyEnv 42 3 =
      some (DumpResult.finished, some ⟨List.replicate 16 0xAA, 16, false⟩,
        [DumpEvent.attach 42, DumpEvent.openProcess 42, DumpEvent.flatSizeLine 16,
         DumpEvent.packedSizeLine 16, DumpEvent.openFile, DumpEvent.read 0 0 16,
         DumpEvent.seekp 0, DumpEvent.write 0 (List.replicate 16 0xAA),
         DumpEvent.closeHandle, DumpEvent.detach 42]) ∧
    List.indexOf (DumpEvent.packedSizeLine 16)
        [DumpEvent.attach 42, DumpEvent.openProcess 42, DumpEvent.flatSizeLine 16,
         DumpEvent.packedSizeLine 16, DumpEvent.openFile, DumpEvent.read 0 0 16,
         DumpEvent.seekp 0, DumpEvent.write 0 (List.replicate 16 0xAA),
         DumpEvent.closeHandle, DumpEvent.detach 42]
      < List.indexOf (DumpEvent.write 0 (List.replicate 16 0xAA))
        [DumpEvent.attach 42, DumpEvent.openProcess 42, DumpEvent.flatSizeLine 16,
         DumpEvent.packedSizeLine 16, DumpEvent.openFile, DumpEvent.read 0 0 16,
         DumpEvent.seekp 0, DumpEvent.write 0 (List.replicate 16 0xAA),
         DumpEvent.closeHandle, DumpEvent.detach 42] :=
  ⟨by decide, by decide, by decide⟩

/-- C17 (amended): in every run of `dump_process_memory` in which attach and
open succeed and the snapshot is not empty, the DumpStatistics (the flat-size
line, then the packed-size line) are emitted once, right after the enumeration:
after the attach and the open and before the output file is opened, hence
before every read and every file write; no statistics line follows the writes. -/
theorem C17_statistics_before_writes (env : DumpEnvironment) (pid fuel : Nat)
    (res : DumpResult) (file : Option OutFile) (trace : List DumpEvent)
    (regions : List memory_region)
    (hrun : dump_process_memory env pid fuel = some (res, file, trace))
    (hatt : env.attachError = none) (hopen : env.openError = none)
    (henum : enumerate env.query fuel = some regions) (hne : regions ≠ []) :
    ∃ flat post,
      flatSize regions = some flat ∧
      trace = [DumpEvent.attach pid, DumpEvent.openProcess pid, DumpEvent.flatSizeLine flat,
        DumpEvent.packedSizeLine (packedSize regions), DumpEvent.openFile] ++ post ∧
      (∀ e ∈ post, e.isStatistics = false) ∧
      (∀ e ∈ trace, e.isRead = true ∨ e.isWrite = true → e ∈ post) := by
  obtain ⟨regions', ext, henum', htrace, hext⟩ := dump_trace_shape env pid fuel res file trace
    hrun hatt hopen
  rw [henum] at henum'
  have hreg : regions' = regions := (Option.some.inj henum').symm
  subst hreg
  obtain ⟨flat, hflat⟩ : ∃ flat, flatSize regions' = some flat := by
    unfold flatSize
    rw [List.getLast?_eq_getLast _ hne]
    exact ⟨_, rfl⟩
  have hstats : statisticsEvents regions'
      = [DumpEvent.flatSizeLine flat, DumpEvent.packedSizeLine (packedSize regions')] := by
    unfold statisticsEvents
    rw [hflat]
  have hpost : ∀ e ∈ ext ++ [DumpEvent.closeHandle] ++ detachEvents env pid,
      e.isStatistics = false := by
    intro e he
    rw [List.mem_append, List.mem_append, List.mem_singleton] at he
    rcases he with (he | rfl) | he
    · exact (loopEvent_kinds e (hext e he)).2.2.1
    · rfl
    · unfold detachEvents at he
      cases hde : env.detachError with
      | none =>
        simp only [hde, List.mem_singleton] at he
        subst he
        rfl
      | some error =>
        simp only [hde, List.mem_cons, List.mem_singleton, List.not_mem_nil, or_false] at he
        rcases he with rfl | rfl <;> rfl
  refine ⟨flat, ext ++ [DumpEvent.closeHandle] ++ detachEvents env pid, hflat, ?_, hpost, ?_⟩
  · rw [htrace, hstats]
    simp only [List.append_assoc, List.cons_append, List.nil_append]
  · intro e he hkind
    rw [htrace, hstats] at he
    simp only [List.append_assoc, List.cons_append, List.nil_append, List.mem_cons] at he
    rcases he with rfl | rfl | rfl | rfl | rfl | he
    · simp [DumpEvent.isRead, DumpEvent.isWrite] at hkind
    · simp [DumpEvent.isRead, DumpEvent.isWrite] at hkind
    · simp [DumpEvent.isRead, DumpEvent.isWrite] at hkind
    · simp [DumpEvent.isRead, DumpEvent.isWrite] at hkind
    · simp [DumpEvent.isRead, DumpEvent.isWrite] at hkind
    · simpa only [List.append_assoc] using he

/-- Witness for C17 (amended): in the run `tinyEnv` the trace starts with the
attach, the open, the two statistics lines and the opening of the file; the
read and the write follow. -/
theorem C17_statistics_before_writes_witness :
    ∃ flat post,
      flatSize [⟨0, 16, ⟨0, 16, MEM_COMMIT, PAGE_READWRITE⟩⟩] = some flat ∧
      [DumpEvent.attach 42, DumpEvent.openProcess 42, DumpEvent.flatSizeLine 16,
         DumpEvent.packedSizeLine 16, DumpEvent.openFile, DumpEvent.read 0 0 16,
         DumpEvent.seekp 0, DumpEvent.write 0 (List.replicate 16 0xAA),
         DumpEvent.closeHandle, DumpEvent.detach 42]
        = [DumpEvent.attach 42, DumpEvent.openProcess 42, DumpEvent.flatSizeLine flat,
          DumpEvent.packedSizeLine (packedSize [⟨0, 16, ⟨0, 16, MEM_COMMIT, PAGE_READWRITE⟩⟩]),
          DumpEvent.openFile] ++ post ∧
      (∀ e ∈ post, e.isStatistics = false) ∧
      (∀ e ∈ [DumpEvent.attach 42, DumpEvent.openProcess 42, DumpEvent.flatSizeLine 16,
         DumpEvent.packedSizeLine 16, DumpEvent.openFile, DumpEvent.read 0 0 16,
         DumpEvent.seekp 0, DumpEvent.write 0 (List.replicate 16 0xAA),
         DumpEvent.closeHandle, DumpEvent.detach 42],
        e.isRead = true ∨ e.isWrite = true → e ∈ post) :=
  C17_statistics_before_writes tinyEnv 42 3 DumpResult.finished
    (some ⟨List.replicate 16 0xAA, 16, false⟩)
    [DumpEvent.attach 42, DumpEvent.openProcess 42, DumpEvent.flatSizeLine 16,
     DumpEvent.packedSizeLine 16, DumpEvent.openFile, DumpEvent.read 0 0 16,
     DumpEvent.seekp 0, DumpEvent.write 0 (List.replicate 16 0xAA),
     DumpEvent.closeHandle, DumpEvent.detach 42]
    [⟨0, 16, ⟨0, 16, MEM_COMMIT, PAGE_READWRITE⟩⟩]
    (by decide) rfl rfl (by decide) (by decide)

/-! ## End-to-end dump of a single region -/

/-- When the space below the committed region is not page-granular, the
page-size steps through a gap can pass over the region: for `subPageOracle` the
cursor goes 0, 0x800, 0x1800, ..., 0x4800, 0x5800 and the committed region
`[0x5000, 0x5100)` is not in the snapshot. -/
theorem enumerate_subPage_skips :
    subPageOracle 0x5000 = some ⟨0x5000, 0x100, MEM_COMMIT, PAGE_READONLY⟩ ∧
    DumpPolicy ⟨0x5000, 0x100, MEM_COMMIT, PAGE_READONLY⟩ = true ∧
    enumerate subPageOracle 8 = some [] :=
  ⟨rfl, by decide, by decide⟩

end MemoryScanner

